import Mathlib

/-!
# zyesl: the FreeSWITCH event-socket client

A shallow embedding of the message decoder of `src/message.go` and of the command encoder and
the dispatch loop of `src/esl.go`.

Conventions of the embedding.

* A Go `string` or `[]byte` is a byte sequence.  It is represented by `GoString`, a list of
  `Char`, one `Char` per byte (the character whose code is the byte).  `len`, slicing and
  the `strings` functions therefore act on list positions exactly as Go acts on byte positions.
* A Go `map[string]string` is an association list with pairwise distinct keys (`StrMap`).
* A call that can return an `error`, or not return at all (a run-time panic, a fatal error of
  the run time), yields an `Outcome`.
* Functions of the Go standard library that the decoder calls are modelled from their
  documentation (`strings`, `strconv.Atoi`, `url.QueryUnescape`, `io.ReadFull`,
  `textproto.MIMEHeader`).  The two library parsers that consume raw bytes,
  `textproto.Reader.ReadMIMEHeader` and `json.Unmarshal`, are not re-implemented: the result of the
  outer `ReadMIMEHeader` call is the input `MIMERead` of `Parse`, and the nested call and the JSON
  decoder are two fields of the parameter `Lib`.  How `ReadMIMEHeader` turns the field lines
  of a block into the header map is modelled by `readFields`.
* The memory the process can get for one byte slice is the third field of `Lib`.  A
  `make([]byte, n)` beyond it ends the process with a fatal error; an `Outcome` shows that, like
  a panic, as a call that does not return.
* A `range` loop over a Go map visits it in an unspecified order.  The maps that `Parse` ranges
  over are given as lists in the order of the visit, so a statement about all such lists is a
  statement about every order.
* The platform is a 64-bit one: `int` has 64 bits.
* An encoder method takes the connection and returns the connection after the call together
  with the error it returns (`none` for `nil`).
* The goroutine of `Handle` and the consumer that calls `ReadMessage` form a transition system
  (`System`, `step`): a send on an unbuffered channel and the matching receive are one step.
-/

namespace Zyesl

/-! ## Go strings -/

/-- A Go string or byte slice: one `Char` per byte. -/
abbrev GoString := List Char

/-- Go `strings.Contains(s, substr)`: some suffix of `s` starts with `substr`. -/
def Contains (s substr : GoString) : Bool :=
  s.tails.any (fun t => substr.isPrefixOf t)

/-- Go `strings.Trim(s, cutset)`: `s` without the leading and trailing bytes that occur in
`cutset`. -/
def Trim (s cutset : GoString) : GoString :=
  (s.dropWhile (fun c => cutset.contains c)).rdropWhile (fun c => cutset.contains c)

/-- What the documentation of `strings.Trim` asks of the result `t` for the string `s`: `s` is
`t` between a run of cutset bytes and another, and `t` neither begins nor ends with a cutset
byte.  Exactly one `t` has this property (`IsTrimOf_eq`). -/
def IsTrimOf (cutset s t : GoString) : Prop :=
  (∃ a b : GoString, s = a ++ t ++ b ∧ (∀ c ∈ a, c ∈ cutset) ∧ (∀ c ∈ b, c ∈ cutset)) ∧
  (∀ c, t.head? = some c → c ∉ cutset) ∧ (∀ c, t.getLast? = some c → c ∉ cutset)

/-- Go `strings.TrimRight(s, cutset)`. -/
def TrimRight (s cutset : GoString) : GoString :=
  s.rdropWhile (fun c => cutset.contains c)

/-- One byte of Go `strings.ToLower` on ASCII text: `A`..`Z` become `a`..`z`. -/
def lowerByte (c : Char) : Char :=
  if 65 ≤ c.toNat ∧ c.toNat ≤ 90 then Char.ofNat (c.toNat + 32) else c

/-- The opposite case change, used by the MIME key canonicaliser: `a`..`z` become `A`..`Z`. -/
def upperByte (c : Char) : Char :=
  if 97 ≤ c.toNat ∧ c.toNat ≤ 122 then Char.ofNat (c.toNat - 32) else c

/-- Go `strings.ToLower(s)` on an ASCII string: byte by byte.  The names of the header lines
that `ReadMIMEHeader` accepts are ASCII.  On a string with a byte from `0x80` on, Go lower-cases
runes, which this function does not do; the statements about the member names of a JSON object
therefore take those names to be ASCII. -/
def ToLower (s : GoString) : GoString :=
  s.map lowerByte

/-! ## Outcomes: value, error, or run-time panic -/

/-- The run-time failures that end a call of the decoder without a return value: its panics,
and the allocator's fatal error, which ends the process. -/
inductive GoPanic where
  /-- A slice expression `s[n:]` with `n > len(s)`. -/
  | sliceBounds (n len : Nat)
  /-- A `make([]byte, n)` whose length is negative or above the limit of the run time: the panic
  "makeslice: len out of range". -/
  | makesliceLen (n : Int)
  /-- A `make([]byte, n)` of a length the run time admits but the process has no memory for: the
  fatal error "runtime: out of memory", which no `recover` catches. -/
  | outOfMemory (n : Int)
  deriving DecidableEq, Repr

/-- The `error` values `Message.Parse` can return. -/
inductive ParseError where
  /-- The non-EOF error of the outer `ReadMIMEHeader`, returned unchanged (line 102). -/
  | readMIMEHeader (text : GoString)
  /-- The error built at line 108 for an empty content type; `drained` is what `io.ReadAll`
  read from the rest of the stream. -/
  | emptyContentType (drained : GoString)
  /-- The `*strconv.NumError` of `strconv.Atoi` for the string `num` (lines 118 and 249). -/
  | numError (num : GoString)
  /-- The value `io.EOF` of `io.ReadFull`: no byte could be read. -/
  | eof
  /-- The value `io.ErrUnexpectedEOF` of `io.ReadFull`: some, but too few, bytes were read. -/
  | unexpectedEOF
  /-- The error built at line 132 from `EUnsupportedMessageType`. -/
  | unsupportedType (got : GoString)
  /-- The error of `json.Unmarshal`, returned unchanged (line 191). -/
  | json (text : GoString)
  /-- The error built at line 241 from `ECouldNotReadMIMEHeaders` for the nested block. -/
  | couldNotReadMIMEHeaders (text : GoString)
  deriving DecidableEq, Repr

/-- Result of a Go call that returns an `error`: the value, the error, or the failure that
kept the call from returning. -/
inductive Outcome (α : Type) where
  | ok (val : α)
  | error (e : ParseError)
  | panic (p : GoPanic)
  deriving DecidableEq, Repr

/-- Sequencing of Go statements: the first error or panic ends the function. -/
def Outcome.bind {α β : Type} (x : Outcome α) (f : α → Outcome β) : Outcome β :=
  match x with
  | .ok a => f a
  | .error e => .error e
  | .panic p => .panic p

/-- The slice expression `s[n:]`, which panics when `n > len(s)`. -/
def sliceFrom (s : GoString) (n : Nat) : Outcome GoString :=
  if n ≤ s.length then .ok (s.drop n) else .panic (.sliceBounds n s.length)

/-! ## Standard-library functions used by the decoder -/

/-- Value of a decimal digit byte. -/
def digitVal (c : Char) : Option Nat :=
  if 48 ≤ c.toNat ∧ c.toNat ≤ 57 then some (c.toNat - 48) else none

/-- Value of a string of decimal digits (`acc` is the value read so far); `none` when a byte is
not a digit. -/
def digitsValue : GoString → Nat → Option Nat
  | [], acc => some acc
  | c :: cs, acc =>
    match digitVal c with
    | none => none
    | some d => digitsValue cs (acc * 10 + d)

/-- Go `strconv.Atoi(s)` for a 64-bit `int`: an optional sign followed by at least one decimal
digit, the value within `-2^63 .. 2^63-1`.  `none` stands for the `*strconv.NumError` returned
otherwise. -/
def Atoi (s : GoString) : Option Int :=
  let neg : Bool := s.head? = some '-'
  let ds : GoString := if s.head? = some '-' ∨ s.head? = some '+' then s.tail else s
  if ds = [] then none
  else
    match digitsValue ds 0 with
    | none => none
    | some n =>
      if neg then (if n ≤ 2 ^ 63 then some (-(n : Int)) else none)
      else (if n < 2 ^ 63 then some (n : Int) else none)

/-- Largest byte count one `make([]byte, l)` obtains in a process that can get `memory` bytes
from the operating system: the run time itself admits no more than `2^48` bytes on a 64-bit
platform (its constant `maxAlloc`). -/
def maxAlloc (memory : Nat) : Nat := min memory (2 ^ 48)

/-- The call `make([]byte, l)` in a process that can get `memory` bytes.  A negative length, or
one above `2^48`, is the run-time panic "makeslice: len out of range"; a length the run time
admits but the process has no memory for is the fatal error "runtime: out of memory"; otherwise
the slice has `l` bytes. -/
def makeBytes (memory : Nat) (l : Int) : Outcome Nat :=
  if 0 ≤ l ∧ l ≤ (maxAlloc memory : Int) then .ok l.toNat
  else if l < 0 ∨ (2 ^ 48 : Int) < l then .panic (.makesliceLen l)
  else .panic (.outOfMemory l)

/-- Go `io.ReadFull(r, buf)` with `len(buf) = n` on a reader holding exactly the bytes `stream`
before end of input: the first `n` bytes, `io.EOF` when `n > 0` and nothing is left, and
`io.ErrUnexpectedEOF` when something but less than `n` bytes is left. -/
def ReadFull (stream : GoString) (n : Nat) : Outcome GoString :=
  if n ≤ stream.length then .ok (stream.take n)
  else if stream = [] then .error .eof
  else .error .unexpectedEOF

/-- Hexadecimal digit test of `net/url` (`ishex`). -/
def ishex (c : Char) : Bool :=
  (48 ≤ c.toNat ∧ c.toNat ≤ 57) ∨ (97 ≤ c.toNat ∧ c.toNat ≤ 102) ∨ (65 ≤ c.toNat ∧ c.toNat ≤ 70)

/-- Value of a hexadecimal digit of `net/url` (`unhex`). -/
def unhex (c : Char) : Nat :=
  if 48 ≤ c.toNat ∧ c.toNat ≤ 57 then c.toNat - 48
  else if 97 ≤ c.toNat ∧ c.toNat ≤ 102 then c.toNat - 97 + 10
  else if 65 ≤ c.toNat ∧ c.toNat ≤ 70 then c.toNat - 65 + 10
  else 0

/-- Go `url.QueryUnescape(s)`: every `%XY` with two hexadecimal digits becomes the byte `XY`,
every `+` a space; `none` stands for the `EscapeError` returned when a `%` is not followed by two
hexadecimal digits (the string result of the call is then `""`). -/
def QueryUnescape : GoString → Option GoString
  | [] => some []
  | '%' :: a :: b :: rest =>
    if ishex a && ishex b then
      (QueryUnescape rest).map fun t => Char.ofNat (unhex a * 16 + unhex b) :: t
    else none
  | '%' :: _ => none
  | '+' :: rest => (QueryUnescape rest).map fun t => ' ' :: t
  | c :: rest => (QueryUnescape rest).map fun t => c :: t

/-- Bytes allowed in a header field name by `net/textproto` (`validHeaderFieldByte`): the token
characters of RFC 7230, that is digits, letters and the fifteen marks
``! # $ % & ' * + - . ^ _ ` | ~``. -/
def validHeaderFieldByte (c : Char) : Bool :=
  (48 ≤ c.toNat ∧ c.toNat ≤ 57) ∨ (65 ≤ c.toNat ∧ c.toNat ≤ 90) ∨ (97 ≤ c.toNat ∧ c.toNat ≤ 122) ∨
    c.toNat ∈ [33, 35, 36, 37, 38, 39, 42, 43, 45, 46, 94, 95, 96, 124, 126]

/-- The case-fixing loop of `canonicalMIMEHeaderKey`: the first letter and every letter after a
hyphen in upper case, all other letters in lower case. -/
def canonLoop : Bool → GoString → GoString
  | _, [] => []
  | upper, c :: cs =>
    let c1 := if upper then upperByte c else lowerByte c
    c1 :: canonLoop (c1 = '-') cs

/-- The function `canonicalMIMEHeaderKey` of `net/textproto`.  The flag is false for the empty
key and for a key with a byte that is neither a token character nor a space; a key with a space
is accepted unchanged; every other key is put in canonical case. -/
def canonicalMIMEHeaderKey (a : GoString) : GoString × Bool :=
  if a = [] then ([], false)
  else if a.any (fun c => !validHeaderFieldByte c && c != ' ') then (a, false)
  else if a.any (fun c => c == ' ') then (a, true)
  else (canonLoop true a, true)

/-- Go `textproto.CanonicalMIMEHeaderKey(s)`: the canonical form of a key made of token
characters, any other key unchanged. -/
def CanonicalMIMEHeaderKey (s : GoString) : GoString :=
  (canonicalMIMEHeaderKey s).1

/-- A Go `textproto.MIMEHeader` as `ReadMIMEHeader` builds it: every key with its values in the
order of arrival, of which there is at least one (so the key, the first value, the later values).
The order of the list is the order in which a `range` loop visits the map, which Go leaves
unspecified. -/
abbrev MIMEHeader := List (GoString × GoString × List GoString)

/-- Go `MIMEHeader.Get(key)`: the first value stored under the canonical form of `key`, or
`""`. -/
def MIMEHeader.Get (h : MIMEHeader) (key : GoString) : GoString :=
  match h.lookup (CanonicalMIMEHeaderKey key) with
  | some (v, _) => v
  | none => []

/-- What one call of `textproto.Reader.ReadMIMEHeader` delivers: the header map, the text of
the returned error (`none` for `nil`), and the bytes left unread in the underlying reader. -/
structure MIMERead where
  hdr : MIMEHeader
  err : Option GoString
  rest : GoString
  deriving DecidableEq, Repr

/-- Bytes allowed in a header value by `net/textproto` (`validHeaderValueByte`): the tab, the
space, the visible ASCII characters, and every byte from `0x80` on. -/
def validHeaderValueByte (c : Char) : Bool :=
  c.toNat = 9 ∨ (32 ≤ c.toNat ∧ c.toNat ≠ 127)

/-- The statement `m[key] = append(m[key], value)` of `readMIMEHeader`: a further value of a key
the map has, or a new key with its first value. -/
def MIMEHeader.add : MIMEHeader → GoString → GoString → MIMEHeader
  | [], key, value => [(key, value, [])]
  | (k, v, vs) :: t, key, value =>
    if k = key then (k, v, vs ++ [value]) :: t
    else (k, v, vs) :: MIMEHeader.add t key value

/-- The loop of `readMIMEHeader` in `net/textproto` over the field lines of a header block;
`m` is the map built so far.  A field line is given as it stands on the wire (continuation lines
joined, the line ending removed), split at its first colon into the bytes before and the bytes
after.  The line reader removes the spaces and tabs at both ends of a line before the line is
split; a field line does not begin with one (such a line continues the line before it), so this
removes those at the end of the value.  A line whose key is empty, or whose key or value has a
forbidden byte, ends the read with a `ProtocolError`, which quotes the line; any other line adds
its value, now without spaces and tabs at either end, under its canonical key.  The end of the
list is the blank line that ends the block (error `nil`). -/
def readFields : List (GoString × GoString) → MIMEHeader → MIMEHeader × Option GoString
  | [], m => (m, none)
  | (k, v) :: rest, m =>
    if (canonicalMIMEHeaderKey k).2 = false ∨ v.any (fun c => !validHeaderValueByte c) then
      (m, some ("malformed MIME header line: ".toList ++ k ++ ":".toList ++
        TrimRight v " \t".toList))
    else readFields rest (m.add (canonicalMIMEHeaderKey k).1 (Trim v " \t".toList))

/-- What `ReadMIMEHeader` delivers for a header block with the given field lines, followed on
the stream by `rest`. -/
def readBlock (fields : List (GoString × GoString)) (rest : GoString) : MIMERead :=
  ⟨(readFields fields []).1, (readFields fields []).2, rest⟩

/-- A value `json.Unmarshal` stores in an `interface{}`.  A number keeps its source text. -/
inductive JSONValue where
  | null
  | bool (b : Bool)
  | number (lit : GoString)
  | string (s : GoString)
  | array (xs : List JSONValue)
  | object (members : List (GoString × JSONValue))

/-- The case `string` of the type switch of `Parse` (line 199) on a decoded member value. -/
def JSONValue.isString : JSONValue → Bool
  | .string _ => true
  | _ => false

/-- What the decoder takes from its surroundings: the two library parsers it calls on raw
bytes, and the memory of the process.
`ReadMIMEHeader b` is `textproto.NewReader(bufio.NewReader(bytes.NewReader(b))).ReadMIMEHeader()`
together with what it leaves unread.  `Unmarshal b` is `json.Unmarshal(b, &decoded)` for
`decoded` of type `map[string]interface{}`: the error text, or the decoded map listed in the
order in which the following `range` loop visits it.  `memory` is the number of bytes the
allocator can get for one byte slice. -/
structure Lib where
  ReadMIMEHeader : GoString → MIMERead
  Unmarshal : GoString → Except GoString (List (GoString × JSONValue))
  memory : Nat

/-! ## Maps -/

/-- A Go `map[string]string`. -/
abbrev StrMap := List (GoString × GoString)

/-- The index expression `m[k]`: the value stored under `k`, or `""`. -/
def StrMap.get (m : StrMap) (k : GoString) : GoString :=
  (m.lookup k).getD []

/-- The assignment `m[k] = v`. -/
def StrMap.set (m : StrMap) (k v : GoString) : StrMap :=
  (k, v) :: m.filter (fun e => e.1 ≠ k)

/-- The call `delete(m, k)`. -/
def StrMap.delete (m : StrMap) (k : GoString) : StrMap :=
  m.filter (fun e => e.1 ≠ k)

/-- The keys of the map. -/
def StrMap.keys (m : StrMap) : List GoString :=
  m.map Prod.fst

/-! ## The message -/

/-- The struct `Message` (lines 58-75), without its two reader handles: the bytes they deliver
are the explicit input of `Parse`. -/
structure Message where
  Headers : StrMap
  Body : GoString
  /-- The Go field `Type` (a reserved word here). -/
  Type_ : GoString
  CallerDirection : GoString
  CallerAddr : GoString
  UUID : GoString
  CallerNumber : GoString
  CallerName : GoString
  CalleeNumber : GoString
  State : GoString
  EventName : GoString
  NetworkIP : GoString
  NetworkPort : GoString
  Data : GoString
  deriving DecidableEq, Repr

/-- The message `NewMessage` builds before parsing (lines 296-300): an empty header map and
zero values everywhere else. -/
def Message.fresh : Message :=
  { Headers := [], Body := [], Type_ := [], CallerDirection := [], CallerAddr := [], UUID := [],
    CallerNumber := [], CallerName := [], CalleeNumber := [], State := [], EventName := [],
    NetworkIP := [], NetworkPort := [], Data := [] }

/-- The method `GetStr` (lines 83-85). -/
def Message.GetStr (m : Message) (key : GoString) : GoString :=
  m.Headers.get key

/-- The method `parseReply` (lines 278-291).  The two slice expressions go through `sliceFrom`,
so an out-of-range index would show as a panic. -/
def Message.parseReply (m : Message) (reply : GoString) : Outcome Message :=
  let step : Outcome Message :=
    if Contains reply "-ERR".toList then
      let m1 := { m with State := "err".toList }
      if reply.length > 5 then
        (sliceFrom reply 5).bind fun t => .ok { m1 with Data := Trim t "\n".toList }
      else .ok m1
    else if Contains reply "-OK".toList || Contains reply "+OK".toList then
      let m1 := { m with State := "ok".toList }
      if reply.length > 4 then
        (sliceFrom reply 4).bind fun t => .ok { m1 with Data := Trim t "\n".toList }
      else .ok m1
    else .ok m
  step.bind fun m2 => .ok { m2 with UUID := m2.GetStr "job-uuid".toList }

/-! ## `Message.Parse` -/

/-- The keys of the package variable `AvailableMessageTypes` (lines 26-33). -/
def AvailableMessageTypes : List GoString :=
  ["auth/request".toList, "text/disconnect-notice".toList, "text/event-json".toList,
   "text/event-plain".toList, "api/response".toList, "command/reply".toList]

/-- Modelled from the spec: the constant `BACKGROUND_JOB` of the package `event`, which is not
among the sources; the specification gives the background-job event name as `BACKGROUND_JOB`. -/
def BACKGROUND_JOB : GoString := "BACKGROUND_JOB".toList

/-- The text of an error value (`err.Error()`).  The formats are those of the package variables
`EUnsupportedMessageType` and `ECouldNotReadMIMEHeaders` and of line 108; `%v` prints the map
`AvailableMessageTypes` with its keys sorted and its empty values.  The text of a
`*strconv.NumError` quotes its input with `strconv.Quote`, which is not modelled. -/
def ParseError.text : ParseError → Option GoString
  | .readMIMEHeader t => some t
  | .emptyContentType d => some ("Parse Err <nil> => ".toList ++ d)
  | .numError _ => none
  | .eof => some "EOF".toList
  | .unexpectedEOF => some "unexpected EOF".toList
  | .unsupportedType t =>
    some ("Unsupported message type! We got '".toList ++ t ++
      "'. Supported types are: map[api/response: auth/request: command/reply: text/disconnect-notice: text/event-json: text/event-plain:] ".toList)
  | .json t => some t
  | .couldNotReadMIMEHeaders t => some ("Error while reading MIME headers: ".toList ++ t)

/-- Lines 113-127: when the header block has a non-empty `Content-Length`, the body is a fresh
slice of that length filled from the stream. -/
def readBody (lib : Lib) (m : Message) (cmr : MIMEHeader) (stream : GoString) :
    Outcome Message :=
  let lv := cmr.Get "Content-Length".toList
  if lv ≠ [] then
    match Atoi lv with
    | none => .error (.numError lv)
    | some l =>
      (makeBytes lib.memory l).bind fun n =>
      (ReadFull stream n).bind fun body => .ok { m with Body := body }
  else .ok m

/-- Lines 137-148: every key of the header block, lower-cased, receives the first value of the
key; a value containing `%` is then overwritten with both results of `url.QueryUnescape`, which
is the empty string when the call fails. -/
def copyHeaders (cmr : MIMEHeader) (h : StrMap) : StrMap :=
  cmr.foldl (fun acc e =>
    let k := ToLower e.1
    let v0 := e.2.1
    let acc1 := acc.set k v0
    if Contains v0 "%".toList then
      match QueryUnescape v0 with
      | some d => acc1.set k d
      | none => acc1.set k []
    else acc1) h

/-- Lines 149-159, and again lines 208-219: the convenience fields read from the header map. -/
def deriveFields (m : Message) : Message :=
  { m with
    CallerAddr := m.Headers.get "caller-network-addr".toList
    UUID := m.Headers.get "unique-id".toList
    CallerName := m.Headers.get "caller-caller-id-name".toList
    CallerNumber := m.Headers.get "caller-caller-id-number".toList
    CalleeNumber := m.Headers.get "caller-destination-number".toList
    CallerDirection := m.Headers.get "caller-direction".toList
    State := m.Headers.get "answer-state".toList
    EventName := m.Headers.get "event-name".toList
    NetworkIP := m.Headers.get "variable_sip_network_ip".toList
    NetworkPort := m.Headers.get "variable_sip_network_port".toList }

/-- Lines 161-170: the background-job case of a frame that is not `text/event-json`.  The two
slice expressions are not guarded by a length test. -/
def backgroundJobBody (m : Message) : Outcome Message :=
  if m.EventName = BACKGROUND_JOB then
    let m1 := { m with UUID := m.Headers.get "job-uuid".toList }
    if Contains m1.Body "-ERR".toList then
      (sliceFrom m1.Body 5).bind fun t =>
        .ok { m1 with State := "err".toList, Data := Trim t "\n".toList }
    else if Contains m1.Body "-OK".toList then
      (sliceFrom m1.Body 4).bind fun t =>
        .ok { m1 with State := "ok".toList, Data := Trim t "\n".toList }
    else .ok m1
  else .ok m

/-- Lines 195-207: every member of the decoded object whose value is a string is stored under
its lower-cased name; members of any other type are skipped. -/
def copyJSON (decoded : List (GoString × JSONValue)) (h : StrMap) : StrMap :=
  decoded.foldl (fun acc e =>
    match e.2 with
    | .string v => acc.set (ToLower e.1) v
    | _ => acc) h

/-- Lines 184-232: the case `text/event-json` of the switch. -/
def parseEventJSON (lib : Lib) (m : Message) : Outcome Message :=
  match lib.Unmarshal m.Body with
  | .error t => .error (.json t)
  | .ok decoded =>
    let m1 := deriveFields { m with Headers := copyJSON decoded m.Headers }
    let v := m1.Headers.get "_body".toList
    let m2 : Message :=
      if v ≠ [] then { m1 with Body := v, Headers := m1.Headers.delete "_body".toList }
      else { m1 with Body := [] }
    if m2.EventName = BACKGROUND_JOB then
      Message.parseReply { m2 with UUID := m2.Headers.get "job-uuid".toList } m2.Body
    else .ok m2

/-- Lines 233-258: the case `text/event-plain` of the switch.  The body is read as a nested
header block; only when that block has a non-empty `Content-Length` is the body replaced, by the
bytes read after the block. -/
def parseEventPlain (lib : Lib) (m : Message) : Outcome Message :=
  let rd := lib.ReadMIMEHeader m.Body
  match rd.err with
  | some t => .error (.couldNotReadMIMEHeaders t)
  | none =>
    let vl := rd.hdr.Get "Content-Length".toList
    if vl ≠ [] then
      match Atoi vl with
      | none => .error (.numError vl)
      | some length =>
        (makeBytes lib.memory length).bind fun n =>
        (ReadFull rd.rest n).bind fun body => .ok { m with Body := body }
    else .ok m

/-- Lines 174-259: the switch on the message type. -/
def dispatch (lib : Lib) (m : Message) (cmr : MIMEHeader) : Outcome Message :=
  if m.Type_ = "text/disconnect-notice".toList then .ok m
  else if m.Type_ = "command/reply".toList then m.parseReply (cmr.Get "Reply-Text".toList)
  else if m.Type_ = "api/response".toList then m.parseReply m.Body
  else if m.Type_ = "text/event-json".toList then parseEventJSON lib m
  else if m.Type_ = "text/event-plain".toList then parseEventPlain lib m
  else .ok m

/-- The method `Parse` (lines 98-261) on the message `m`, where `rd` is what the call
`m.tr.ReadMIMEHeader()` of line 99 delivers. -/
def Message.Parse (lib : Lib) (m : Message) (rd : MIMERead) : Outcome Message :=
  match rd.err.filter (fun t => t ≠ "EOF".toList) with
  | some t => .error (.readMIMEHeader t)
  | none =>
    if rd.hdr.Get "Content-Type".toList = [] then .error (.emptyContentType rd.rest)
    else
      (readBody lib m rd.hdr rd.rest).bind fun m1 =>
      let m2 := { m1 with Type_ := rd.hdr.Get "Content-Type".toList }
      if m2.Type_ ∉ AvailableMessageTypes then .error (.unsupportedType m2.Type_)
      else
        (if m2.Type_ ≠ "text/event-json".toList then
          backgroundJobBody (deriveFields { m2 with Headers := copyHeaders rd.hdr m2.Headers })
        else .ok m2).bind fun m3 =>
        dispatch lib m3 rd.hdr

/-- The function `NewMessage` (lines 295-309) on a reader whose first header block reads as
`rd`: a fresh message, parsed when `autoParse` is set. -/
def NewMessage (lib : Lib) (rd : MIMERead) (autoParse : Bool) : Outcome Message :=
  if autoParse then Message.fresh.Parse lib rd else .ok Message.fresh

/-! ## The connection and the command encoder (`src/esl.go`) -/

/-- The write side of the `net.Conn` inside a `SocketConnection`: the bytes the stream has
accepted so far, and how many more bytes it will accept before a write fails (`none`: every
write succeeds). -/
structure Conn where
  written : GoString
  room : Option Nat
  deriving DecidableEq, Repr

/-- Go `io.WriteString(c, p)`, one call of `c.Write`: the connection after the call and whether
the returned error is `nil`.  A failing write has accepted the bytes there was room for. -/
def Conn.WriteString (c : Conn) (p : GoString) : Conn × Bool :=
  match c.room with
  | none => ({ c with written := c.written ++ p }, true)
  | some r =>
    if p.length ≤ r then ({ written := c.written ++ p, room := some (r - p.length) }, true)
    else ({ written := c.written ++ p.take r, room := some 0 }, false)

/-- The `error` values the encoder methods return. -/
inductive SendError where
  /-- The error built by `Send` from `EInvalidCommandProvided` and the command (line 145). -/
  | invalidCommand (cmd : GoString)
  /-- The error built by `SendMsg` from `EInvalidCommandProvided` and the header map (lines 209,
  216 and 220). -/
  | invalidMessage (msg : StrMap)
  /-- The error built by `SendEvent` from `ECouldNotSendEvent` and the header count
  (line 161). -/
  | couldNotSendEvent (count : Nat)
  /-- The error of a failed write on the connection. -/
  | write
  deriving DecidableEq, Repr

/-- The method `Send` (lines 143-156): the connection afterwards and the returned error. -/
def Send (c : Conn) (cmd : GoString) : Conn × Option SendError :=
  if Contains cmd "\r\n".toList then (c, some (.invalidCommand cmd))
  else
    match c.WriteString cmd with
    | (c1, false) => (c1, some .write)
    | (c1, true) =>
      match c1.WriteString "\r\n\r\n".toList with
      | (c2, false) => (c2, some .write)
      | (c2, true) => (c2, none)

/-- The loop of `SendEvent` (lines 167-176): every header line, then `\r\n`. -/
def writeEventHeaders : Conn → List GoString → Conn × Bool
  | c, [] => (c, true)
  | c, eventHeader :: rest =>
    match c.WriteString eventHeader with
    | (c1, false) => (c1, false)
    | (c1, true) =>
      match c1.WriteString "\r\n".toList with
      | (c2, false) => (c2, false)
      | (c2, true) => writeEventHeaders c2 rest

/-- The method `SendEvent` (lines 159-182). -/
def SendEvent (c : Conn) (eventHeaders : List GoString) : Conn × Option SendError :=
  if eventHeaders.length ≤ 0 then (c, some (.couldNotSendEvent eventHeaders.length))
  else
    match c.WriteString "sendevent ".toList with
    | (c1, false) => (c1, some .write)
    | (c1, true) =>
      match writeEventHeaders c1 eventHeaders with
      | (c2, false) => (c2, some .write)
      | (c2, true) =>
        match c2.WriteString "\r\n".toList with
        | (c3, false) => (c3, some .write)
        | (c3, true) => (c3, none)

/-- The loop of `SendMsg` (lines 214-224) over the header map in the order of the visit, `b`
being the buffer so far: the buffer after the loop, or `none` when the loop returns the
invalid-command error. -/
def sendMsgHeaders : List (GoString × GoString) → GoString → Option GoString
  | [], b => some b
  | (k, v) :: rest, b =>
    if Contains k "\r\n".toList then none
    else if v ≠ [] then
      if Contains v "\r\n".toList then none
      else sendMsgHeaders rest (b ++ (k ++ ": ".toList ++ v ++ "\n".toList))
    else sendMsgHeaders rest b

/-- The method `SendMsg` (lines 205-232).  The command is assembled in a buffer, which one call
of `WriteTo` writes to the connection at the end. -/
def SendMsg (c : Conn) (msg : StrMap) (uuid data : GoString) : Conn × Option SendError :=
  if uuid ≠ [] ∧ Contains uuid "\r\n".toList = true then (c, some (.invalidMessage msg))
  else
    let b1 := (if uuid ≠ [] then "sendmsg".toList ++ (" ".toList ++ uuid) else "sendmsg".toList) ++
      "\n".toList
    match sendMsgHeaders msg b1 with
    | none => (c, some (.invalidMessage msg))
    | some b2 =>
      let b3 := b2 ++ "\n".toList
      let b4 := if msg.get "content-length".toList ≠ [] ∧ data ≠ [] then b3 ++ data else b3
      match c.WriteString b4 with
      | (c1, false) => (c1, some .write)
      | (c1, true) => (c1, none)

/-- The method `Api` (lines 268-270). -/
def Api (c : Conn) (command : GoString) : Conn × Option SendError :=
  Send c ("api ".toList ++ command)

/-- The method `BgApi` (lines 273-275). -/
def BgApi (c : Conn) (command : GoString) : Conn × Option SendError :=
  Send c ("bgapi ".toList ++ command)

/-- The method `Connect` (lines 279-281). -/
def Connect (c : Conn) : Conn × Option SendError :=
  Send c "connect".toList

/-- The method `Exit` (lines 284-286). -/
def Exit (c : Conn) : Conn × Option SendError :=
  Send c "exit".toList

/-- The text of the error `fmt.Errorf(EInvalidCommandProvided, cmd)` that `Send` returns
(line 145), from the format of `src/message.go` line 40; the format spells the two characters
as a backslash followed by a letter. -/
def invalidCommandText (cmd : GoString) : GoString :=
  "Invalid command provided. Command cannot contain \\r and/or \\n. Provided command is: ".toList
    ++ cmd

/-! ## The reference re-parser of a send-message command -/

/-- The lines of a text, split at every `\n`; `cur` is the line read so far.  A text that ends
with `\n` has the empty line as its last line. -/
def splitLines : GoString → GoString → List GoString
  | [], cur => [cur]
  | c :: cs, cur => if c = '\n' then cur :: splitLines cs [] else splitLines cs (cur ++ [c])

/-- A line `<key>: <value>` of the reference grammar, split at its first colon, which a space
must follow. -/
def splitHeaderLine (line : GoString) : Option (GoString × GoString) :=
  match line.dropWhile (fun c => c ≠ ':') with
  | ':' :: ' ' :: v => some (line.takeWhile (fun c => c ≠ ':'), v)
  | _ => none

/-- All lines of a header block, split by `splitHeaderLine`; `none` when one of them is not of
the form `<key>: <value>`. -/
def parseHeaderLines : List GoString → Option (List (GoString × GoString))
  | [] => some []
  | l :: ls =>
    match splitHeaderLine l, parseHeaderLines ls with
    | some e, some es => some (e :: es)
    | _, _ => none

/-- The reference re-parser of the round-trip property, written from the grammar
``sendmsg <uuid>\n(<key>: <value>\n)*\n`` of the specification: the target uuid and the header
entries in the order of their lines, or `none` for a text that is not of this form. -/
def refParseSendMsg (text : GoString) : Option (GoString × List (GoString × GoString)) :=
  match splitLines text [] with
  | [] => none
  | first :: more =>
    if "sendmsg ".toList.isPrefixOf first = true ∧
        more.dropWhile (fun l => l ≠ []) = [[], []] then
      (parseHeaderLines (more.takeWhile (fun l => l ≠ []))).map fun hs => (first.drop 8, hs)
    else none

/-! ## The dispatch loop and its consumer (`Handle` and `ReadMessage`) -/

/-- Where the goroutine that runs `Handle` (lines 247-260) stands.  `pending` lists the results
of the calls of `NewMessage` still to come, one for each frame the stream will deliver; with an
empty list the call of line 250 waits for bytes. -/
inductive LoopState where
  /-- At line 250, about to call `NewMessage`. -/
  | reading (pending : List (Outcome Message))
  /-- Blocked in the send `c.m <- msg` of line 256. -/
  | sendingMsg (msg : Message) (pending : List (Outcome Message))
  /-- Blocked in the send `c.err <- err` of line 253. -/
  | sendingErr (e : ParseError)
  /-- After the `break`: the connection is closed (line 259) and `Handle` has returned.  The two
  channels are not closed. -/
  | closed
  /-- `NewMessage` has panicked. -/
  | crashed (p : GoPanic)
  deriving DecidableEq, Repr

/-- Where the consumer stands: outside `ReadMessage`, or blocked in its `select`
(lines 238-243). -/
inductive ConsumerState where
  | idle
  | waiting
  deriving DecidableEq, Repr

/-- The dispatch loop, its consumer, and the results `(msg, err)` that the calls of
`ReadMessage` completed so far have returned.  The two channels are unbuffered (lines 41-42),
so they hold nothing between a send and its receive. -/
structure System where
  loop : LoopState
  consumer : ConsumerState
  returned : List (Option Message × Option ParseError)
  deriving DecidableEq, Repr

/-- The steps of the system. -/
inductive Action where
  /-- The call of `NewMessage` at line 250 returns. -/
  | decode
  /-- The consumer calls `ReadMessage` and blocks in its `select`. -/
  | call
  /-- A send of the loop meets the `select` of the consumer: `ReadMessage` returns. -/
  | receive
  deriving DecidableEq, Repr

/-- One step of the system; `none` when the step is not possible in the state. -/
def step (s : System) : Action → Option System
  | .decode =>
    match s.loop with
    | .reading (.ok msg :: pending) => some { s with loop := .sendingMsg msg pending }
    | .reading (.error e :: _) => some { s with loop := .sendingErr e }
    | .reading (.panic p :: _) => some { s with loop := .crashed p }
    | _ => none
  | .call =>
    match s.consumer with
    | .idle => some { s with consumer := .waiting }
    | .waiting => none
  | .receive =>
    match s.consumer, s.loop with
    | .waiting, .sendingMsg msg pending =>
      some { loop := .reading pending, consumer := .idle,
             returned := s.returned ++ [(some msg, none)] }
    | .waiting, .sendingErr e =>
      some { loop := .closed, consumer := .idle, returned := s.returned ++ [(none, some e)] }
    | _, _ => none

/-- A sequence of steps; `none` when one of them is not possible. -/
def run : System → List Action → Option System
  | s, [] => some s
  | s, a :: rest =>
    match step s a with
    | some s1 => run s1 rest
    | none => none

/-- The system when `Handle` starts on a stream that will deliver the given decode results. -/
def System.start (pending : List (Outcome Message)) : System :=
  { loop := .reading pending, consumer := .idle, returned := [] }

/-! ## Worked examples -/

/-- The members of the background-job object of the specification, as `json.Unmarshal` decodes
them. -/
def jobMembers : List (GoString × JSONValue) :=
  [("event-name".toList, .string "BACKGROUND_JOB".toList),
   ("job-uuid".toList, .string "X".toList),
   ("_body".toList, .string "+OK done".toList)]

/-- The members of the same object when the text of `_body` ends in a line feed. -/
def jobLineMembers : List (GoString × JSONValue) :=
  [("event-name".toList, .string "BACKGROUND_JOB".toList),
   ("job-uuid".toList, .string "X".toList),
   ("_body".toList, .string "+OK done\n".toList)]

/-- The surroundings of the worked examples below.  The two library parsers are given by their
results on the bodies of the examples: the nested header blocks `Event-Name: CUSTOM` without and
with a 3-byte payload; four JSON objects that `json.Unmarshal` decodes; and two JSON objects with
the number `1e999`, which `json.Unmarshal` rejects, because it stores a number as a `float64`
and `1e999` is outside the range of that type.  Any other input is answered like the empty input
(`io.EOF`, respectively the error "unexpected end of JSON input"); no example asks for one.  The
process can allocate one mebibyte. -/
def exampleLib : Lib where
  ReadMIMEHeader b :=
    if b = "Event-Name: CUSTOM\r\n\r\n".toList then
      ⟨[("Event-Name".toList, "CUSTOM".toList, [])], none, []⟩
    else if b = "Event-Name: CUSTOM\r\nContent-Length: 3\r\n\r\nabc".toList then
      ⟨[("Event-Name".toList, "CUSTOM".toList, []), ("Content-Length".toList, "3".toList, [])],
        none, "abc".toList⟩
    else ⟨[], some "EOF".toList, []⟩
  Unmarshal b :=
    if b = "\x7b\"event-name\":\"BACKGROUND_JOB\",\"job-uuid\":\"X\",\"_body\":\"+OK done\"\x7d".toList then
      .ok jobMembers
    else if b = "\x7b\"event-name\":\"BACKGROUND_JOB\",\"job-uuid\":\"X\",\"_body\":\"+OK done\\n\"\x7d".toList then
      .ok jobLineMembers
    else if b = "\x7b\"_body\":\"\"\x7d".toList then
      .ok [("_body".toList, .string [])]
    else if b = "\x7b\"n\":1e999\x7d".toList then
      .error "json: cannot unmarshal number 1e999 into Go value of type float64".toList
    else if b = "\x7b\"event-name\":\"BACKGROUND_JOB\",\"job-uuid\":\"X\",\"_body\":\"+OK done\",\"n\":1e999\x7d".toList then
      .error "json: cannot unmarshal number 1e999 into Go value of type float64".toList
    else if b = "\x7b\"Event-Name\":\"CUSTOM\",\"Tags\":[\"a\",\"b\"],\"n\":1\x7d".toList then
      .ok [("Event-Name".toList, .string "CUSTOM".toList),
           ("Tags".toList, .array [.string "a".toList, .string "b".toList]),
           ("n".toList, .number "1".toList)]
    else .error "unexpected end of JSON input".toList
  memory := 2 ^ 20

/-- A frame of the unknown type `text/garbage` without a body. -/
def garbageFrame : MIMERead :=
  ⟨[("Content-Type".toList, "text/garbage".toList, [])], none, []⟩

/-- A frame of the unknown type `text/garbage` that declares 5 body bytes, of which only 2
arrive. -/
def garbageShortFrame : MIMERead :=
  ⟨[("Content-Type".toList, "text/garbage".toList, []),
    ("Content-Length".toList, "5".toList, [])], none, "ab".toList⟩

/-- An `api/response` frame with the 8-byte body `+OK done`. -/
def apiFrame : MIMERead :=
  ⟨[("Content-Type".toList, "api/response".toList, []),
    ("Content-Length".toList, "8".toList, [])], none, "+OK done".toList⟩

/-- A `text/event-plain` frame whose 44-byte body is a nested header block that declares a 3-byte
payload, `abc`. -/
def plainPayloadFrame : MIMERead :=
  ⟨[("Content-Type".toList, "text/event-plain".toList, []),
    ("Content-Length".toList, "44".toList, [])], none,
    "Event-Name: CUSTOM\r\nContent-Length: 3\r\n\r\nabc".toList⟩

/-- A `command/reply` frame with mixed-case header names, as `ReadMIMEHeader` canonicalises
them. -/
def replyFrame : MIMERead :=
  ⟨[("Content-Type".toList, "command/reply".toList, []),
    ("Reply-Text".toList, "+OK accepted".toList, []),
    ("Unique-Id".toList, "abc".toList, [])], none, []⟩

/-- The decoded JSON object gives the header `k` the value `v` whatever the order of its
members: it has a string member whose lower-cased name is `k`, and every string member with that
lower-cased name has the value `v`. -/
def StringField (members : List (GoString × JSONValue)) (k v : GoString) : Prop :=
  (∃ name, (name, JSONValue.string v) ∈ members ∧ ToLower name = k) ∧
  ∀ name w, (name, JSONValue.string w) ∈ members → ToLower name = k → w = v

/-- A `text/event-json` frame whose object has a string, an array and a number member. -/
def jsonMixedFrame : MIMERead :=
  ⟨[("Content-Type".toList, "text/event-json".toList, []),
    ("Content-Length".toList, "46".toList, [])], none,
    "\x7b\"Event-Name\":\"CUSTOM\",\"Tags\":[\"a\",\"b\"],\"n\":1\x7d".toList⟩

/-- The background-job `text/event-json` frame of the specification. -/
def jsonJobFrame : MIMERead :=
  ⟨[("Content-Type".toList, "text/event-json".toList, []),
    ("Content-Length".toList, "65".toList, [])], none,
    "\x7b\"event-name\":\"BACKGROUND_JOB\",\"job-uuid\":\"X\",\"_body\":\"+OK done\"\x7d".toList⟩

/-- The background-job frame whose `_body` text ends in a line feed, written `\n` in the JSON
text. -/
def jsonJobLineFrame : MIMERead :=
  ⟨[("Content-Type".toList, "text/event-json".toList, []),
    ("Content-Length".toList, "67".toList, [])], none,
    "\x7b\"event-name\":\"BACKGROUND_JOB\",\"job-uuid\":\"X\",\"_body\":\"+OK done\\n\"\x7d".toList⟩

/-- A `text/event-json` frame whose body is the JSON object with the one member `n`, the number
`1e999`. -/
def jsonHugeNumberFrame : MIMERead :=
  ⟨[("Content-Type".toList, "text/event-json".toList, []),
    ("Content-Length".toList, "11".toList, [])], none,
    "\x7b\"n\":1e999\x7d".toList⟩

/-- The background-job frame of the specification with a further member `n`, the number
`1e999`. -/
def jsonJobHugeNumberFrame : MIMERead :=
  ⟨[("Content-Type".toList, "text/event-json".toList, []),
    ("Content-Length".toList, "75".toList, [])], none,
    "\x7b\"event-name\":\"BACKGROUND_JOB\",\"job-uuid\":\"X\",\"_body\":\"+OK done\",\"n\":1e999\x7d".toList⟩

/-- A `text/event-json` frame whose only member is `_body` with the empty string as value. -/
def jsonEmptyBodyFrame : MIMERead :=
  ⟨[("Content-Type".toList, "text/event-json".toList, []),
    ("Content-Length".toList, "12".toList, [])], none,
    "\x7b\"_body\":\"\"\x7d".toList⟩

/-- A `text/event-plain` frame whose 22-byte body is a nested header block without a
`Content-Length`. -/
def plainBareFrame : MIMERead :=
  ⟨[("Content-Type".toList, "text/event-plain".toList, []),
    ("Content-Length".toList, "22".toList, [])], none,
    "Event-Name: CUSTOM\r\n\r\n".toList⟩

/-- A `command/reply` frame with two header values that contain a percent sign without being
percent-encoded, `100%` and `%zz`, and one that is percent-encoded, `a%20b`. -/
def percentFrame : MIMERead :=
  ⟨[("Content-Type".toList, "command/reply".toList, []),
    ("Reply-Text".toList, "+OK".toList, []),
    ("X-Rate".toList, "100%".toList, []),
    ("X-Raw".toList, "%zz".toList, []),
    ("X-Enc".toList, "a%20b".toList, [])], none, []⟩

/-- The field lines of a `command/reply` header block that carries the header `X-Tag` twice,
in different letter case, with the values `one` and then `two`. -/
def dupFields : List (GoString × GoString) :=
  [("Content-Type".toList, " command/reply".toList),
   ("Reply-Text".toList, " +OK".toList),
   ("X-Tag".toList, " one".toList),
   ("x-tag".toList, " two".toList)]

/-- The field lines of the same header block with blanks around the first value of `X-Tag`:
the line `X-Tag:` followed by two spaces, `one`, a space and a tab. -/
def paddedFields : List (GoString × GoString) :=
  [("Content-Type".toList, " command/reply".toList),
   ("Reply-Text".toList, " +OK".toList),
   ("X-Tag".toList, "  one \t".toList),
   ("x-tag".toList, " two".toList)]

/-- A `command/reply` frame whose `Content-Length` is the negative number `-5`. -/
def negativeLengthFrame : MIMERead :=
  ⟨[("Content-Type".toList, "command/reply".toList, []),
    ("Content-Length".toList, "-5".toList, [])], none, "hello".toList⟩

/-- A `command/reply` frame whose `Content-Length` is not a number. -/
def wordLengthFrame : MIMERead :=
  ⟨[("Content-Type".toList, "command/reply".toList, []),
    ("Content-Length".toList, "abc".toList, [])], none, "hello".toList⟩

/-- A `command/reply` frame that carries a `Job-UUID` header next to `Unique-ID`. -/
def jobReplyFrame : MIMERead :=
  ⟨[("Content-Type".toList, "command/reply".toList, []),
    ("Reply-Text".toList, "+OK Job-UUID: j1".toList, []),
    ("Unique-Id".toList, "abc".toList, []),
    ("Job-Uuid".toList, "j1".toList, [])], none, []⟩

/-- A background-job frame of type `text/event-plain` with the given body, declared with the
given `Content-Length`. -/
def backgroundJobFrame (len body : GoString) : MIMERead :=
  ⟨[("Content-Type".toList, "text/event-plain".toList, []),
    ("Content-Length".toList, len, []),
    ("Event-Name".toList, "BACKGROUND_JOB".toList, []),
    ("Job-Uuid".toList, "j1".toList, [])], none, body⟩

/-- The header map of the round-trip example of the specification. -/
def answerHeaders : StrMap :=
  [("call-command".toList, "execute".toList), ("execute-app-name".toList, "answer".toList)]

/-- A header map one of whose values has a line feed followed by the text of a further header
line. -/
def lineFeedHeaders : StrMap :=
  [("call-command".toList, "execute".toList),
   ("execute-app-name".toList, "answer\nevent-lock: true".toList)]

/-! ## Strings -/

theorem rdropWhile_append_rtakeWhile (p : Char → Bool) (l : GoString) :
    l.rdropWhile p ++ l.rtakeWhile p = l := by
  have h := congrArg List.reverse (List.takeWhile_append_dropWhile p l.reverse)
  rw [List.reverse_append, List.reverse_reverse] at h
  exact h

theorem head_dropWhile_not (p : Char → Bool) (l : GoString) (c : Char)
    (h : (l.dropWhile p).head? = some c) : p c = false := by
  induction l with
  | nil => cases h
  | cons a t ih =>
    by_cases ha : p a = true
    · rw [List.dropWhile_cons_of_pos ha] at h
      exact ih h
    · rw [List.dropWhile_cons_of_neg ha] at h
      cases h
      simpa using ha

theorem head_of_prefix (t d : GoString) (c : Char) (hp : t <+: d) (h : t.head? = some c) :
    d.head? = some c := by
  obtain ⟨b, rfl⟩ := hp
  cases t with
  | nil => cases h
  | cons a t => exact h

theorem last_rdropWhile_not (p : Char → Bool) (l : GoString) (c : Char)
    (h : (l.rdropWhile p).getLast? = some c) : p c = false := by
  have hne : l.rdropWhile p ≠ [] := by
    intro h0
    rw [h0] at h
    cases h
  have h1 := List.rdropWhile_last_not p l hne
  rw [List.getLast?_eq_getLast _ hne] at h
  cases h
  simpa using h1

theorem Trim_spec (s cutset : GoString) : IsTrimOf cutset s (Trim s cutset) := by
  refine ⟨⟨s.takeWhile (fun c => cutset.contains c),
    (s.dropWhile (fun c => cutset.contains c)).rtakeWhile (fun c => cutset.contains c),
    ?_, ?_, ?_⟩, ?_, ?_⟩
  · rw [List.append_assoc, Trim, rdropWhile_append_rtakeWhile, List.takeWhile_append_dropWhile]
  · intro c hc
    have := List.mem_takeWhile_imp hc
    simpa using this
  · intro c hc
    rw [List.rtakeWhile, List.mem_reverse] at hc
    have := List.mem_takeWhile_imp hc
    simpa using this
  · intro c hc hm
    have h1 := head_of_prefix _ _ c (List.rdropWhile_prefix _ _) hc
    have h2 := head_dropWhile_not _ _ c h1
    exact absurd hm (by simpa using h2)
  · intro c hc hm
    have h2 := last_rdropWhile_not _ _ c hc
    exact absurd hm (by simpa using h2)

theorem dropWhile_append_all (p : Char → Bool) (a l : GoString) (ha : ∀ c ∈ a, p c = true) :
    (a ++ l).dropWhile p = l.dropWhile p := by
  induction a with
  | nil => rfl
  | cons x t ih =>
    rw [List.cons_append, List.dropWhile_cons_of_pos (ha x (List.mem_cons_self _ _))]
    exact ih (fun c hc => ha c (List.mem_cons_of_mem _ hc))

theorem rdropWhile_append_all (p : Char → Bool) (l b : GoString) (hb : ∀ c ∈ b, p c = true) :
    (l ++ b).rdropWhile p = l.rdropWhile p := by
  rw [List.rdropWhile, List.reverse_append,
    dropWhile_append_all p b.reverse l.reverse (fun c hc => hb c (List.mem_reverse.mp hc))]
  rfl

theorem IsTrimOf_eq (cutset s t : GoString) (h : IsTrimOf cutset s t) : t = Trim s cutset := by
  obtain ⟨⟨a, b, rfl, ha, hb⟩, hh, hl⟩ := h
  have ha1 : ∀ c ∈ a, (fun c => cutset.contains c) c = true := fun c hc => by simpa using ha c hc
  have hb1 : ∀ c ∈ b, (fun c => cutset.contains c) c = true := fun c hc => by simpa using hb c hc
  rw [Trim, List.append_assoc, dropWhile_append_all _ a _ ha1]
  cases t with
  | nil =>
    rw [List.nil_append]
    have h0 : b.dropWhile (fun c => cutset.contains c) = [] := by
      rw [List.dropWhile_eq_nil_iff]
      exact hb1
    rw [h0]
    rfl
  | cons x t =>
    have hx : ¬ (fun c => cutset.contains c) x = true := by
      simpa using hh x rfl
    rw [List.cons_append, List.dropWhile_cons_of_neg hx, ← List.cons_append,
      rdropWhile_append_all _ _ b hb1]
    symm
    rw [List.rdropWhile_eq_self_iff]
    intro hne
    have := hl _ (List.getLast?_eq_getLast _ hne)
    simpa using this

theorem toNat_ofNat_byte (n : Nat) (h : n < 256) : (Char.ofNat n).toNat = n := by
  have hv : n.isValidChar := Or.inl (by omega)
  simp only [Char.ofNat, hv, dite_true, Char.ofNatAux, Char.toNat]
  rfl

theorem lowerByte_idem (c : Char) : lowerByte (lowerByte c) = lowerByte c := by
  by_cases h : 65 ≤ c.toNat ∧ c.toNat ≤ 90
  · have h1 : lowerByte c = Char.ofNat (c.toNat + 32) := by simp only [lowerByte, h, and_self, if_true]
    have h2 : (Char.ofNat (c.toNat + 32)).toNat = c.toNat + 32 := toNat_ofNat_byte _ (by omega)
    have h3 : ¬ (65 ≤ (Char.ofNat (c.toNat + 32)).toNat ∧ (Char.ofNat (c.toNat + 32)).toNat ≤ 90) := by
      rw [h2]; omega
    rw [h1]
    simp only [lowerByte, h3, if_false]
  · have h1 : lowerByte c = c := by simp only [lowerByte, h, if_false]
    rw [h1, h1]

theorem ToLower_idem (s : GoString) : ToLower (ToLower s) = ToLower s := by
  simp only [ToLower, List.map_map]
  apply List.map_congr_left
  intro c _
  exact lowerByte_idem c

theorem contains_iff (s t : GoString) : Contains s t = true ↔ t <:+: s := by
  simp only [Contains, List.any_eq_true, List.mem_tails, List.isPrefixOf_iff_prefix]
  constructor
  · rintro ⟨u, hu, ht⟩
    exact List.IsInfix.trans ht.isInfix hu.isInfix
  · intro h
    obtain ⟨u, hp, hs⟩ := List.infix_iff_prefix_suffix.mp h
    exact ⟨u, hs, hp⟩

/-! ## Maps -/

theorem StrMap.get_set_self (m : StrMap) (k v : GoString) : (m.set k v).get k = v := by
  simp [StrMap.get, StrMap.set, List.lookup]

theorem StrMap.lookup_filter_ne (m : StrMap) (k j : GoString) (h : j ≠ k) :
    (m.filter (fun e => e.1 ≠ k)).lookup j = m.lookup j := by
  induction m with
  | nil => rfl
  | cons e t ih =>
    obtain ⟨a, b⟩ := e
    by_cases ha : a = k
    · subst ha
      have : (j == a) = false := by simpa using h
      simpa [List.filter_cons, List.lookup_cons, this] using ih
    · by_cases hj : j = a
      · subst hj
        simp [List.filter_cons, List.lookup_cons, ha]
      · have : (j == a) = false := by simpa using hj
        simpa [List.filter_cons, List.lookup_cons, ha, this] using ih

theorem StrMap.get_set_ne (m : StrMap) (k v j : GoString) (h : j ≠ k) :
    (m.set k v).get j = m.get j := by
  have hb : (j == k) = false := by simpa using h
  simp only [StrMap.get, StrMap.set, List.lookup_cons, hb]
  rw [StrMap.lookup_filter_ne m k j h]

theorem StrMap.get_delete_ne (m : StrMap) (k j : GoString) (h : j ≠ k) :
    (m.delete k).get j = m.get j := by
  simp only [StrMap.get, StrMap.delete]
  rw [StrMap.lookup_filter_ne m k j h]

theorem StrMap.mem_keys_set (m : StrMap) (k v j : GoString) :
    j ∈ (m.set k v).keys ↔ j = k ∨ (j ≠ k ∧ j ∈ m.keys) := by
  simp only [StrMap.keys, StrMap.set, List.map_cons, List.mem_cons, List.mem_map, List.mem_filter,
    decide_eq_true_eq, Prod.exists]
  constructor
  · rintro (h | ⟨a, b, ⟨hm, hne⟩, rfl⟩)
    · exact Or.inl h
    · exact Or.inr ⟨hne, a, b, hm, rfl⟩
  · rintro (h | ⟨hne, a, b, hm, rfl⟩)
    · exact Or.inl h
    · exact Or.inr ⟨a, b, ⟨hm, hne⟩, rfl⟩

theorem StrMap.mem_keys_delete (m : StrMap) (k j : GoString) :
    j ∈ (m.delete k).keys ↔ j ≠ k ∧ j ∈ m.keys := by
  simp only [StrMap.keys, StrMap.delete, List.mem_map, List.mem_filter, decide_eq_true_eq,
    Prod.exists]
  constructor
  · rintro ⟨a, b, ⟨hm, hne⟩, rfl⟩
    exact ⟨hne, a, b, hm, rfl⟩
  · rintro ⟨hne, a, b, hm, rfl⟩
    exact ⟨a, b, ⟨hm, hne⟩, rfl⟩

theorem StrMap.get_of_not_mem_keys (m : StrMap) (j : GoString) (h : j ∉ m.keys) :
    m.get j = [] := by
  induction m with
  | nil => rfl
  | cons e t ih =>
    obtain ⟨a, b⟩ := e
    simp only [StrMap.keys, List.map_cons, List.mem_cons, not_or] at h
    have hb : (j == a) = false := by simpa using h.1
    simp only [StrMap.get, List.lookup_cons, hb]
    exact ih h.2

/-! ## The reply convention -/

theorem parseReply_err_long (m : Message) (r : GoString)
    (h1 : Contains r "-ERR".toList = true) (h5 : 5 < r.length) :
    m.parseReply r = .ok { m with State := "err".toList, Data := Trim (r.drop 5) "\n".toList,
                                  UUID := m.Headers.get "job-uuid".toList } := by
  have h5a : 5 ≤ r.length := by omega
  simp only [Message.parseReply, h1, if_true, gt_iff_lt, h5, sliceFrom, h5a, Outcome.bind,
    Message.GetStr]

theorem parseReply_err_short (m : Message) (r : GoString)
    (h1 : Contains r "-ERR".toList = true) (h5 : r.length ≤ 5) :
    m.parseReply r = .ok { m with State := "err".toList,
                                  UUID := m.Headers.get "job-uuid".toList } := by
  have h5a : ¬ 5 < r.length := by omega
  simp only [Message.parseReply, h1, if_true, gt_iff_lt, h5a, if_false, Outcome.bind,
    Message.GetStr]

theorem parseReply_ok_long (m : Message) (r : GoString)
    (h1 : Contains r "-ERR".toList = false)
    (h2 : Contains r "-OK".toList = true ∨ Contains r "+OK".toList = true) (h4 : 4 < r.length) :
    m.parseReply r = .ok { m with State := "ok".toList, Data := Trim (r.drop 4) "\n".toList,
                                  UUID := m.Headers.get "job-uuid".toList } := by
  have h4a : 4 ≤ r.length := by omega
  have h2b : (Contains r "-OK".toList || Contains r "+OK".toList) = true := by
    simpa only [Bool.or_eq_true] using h2
  simp only [Message.parseReply, h1, Bool.false_eq_true, if_false, h2b, if_true, gt_iff_lt, h4,
    sliceFrom, h4a, Outcome.bind, Message.GetStr]

theorem parseReply_ok_short (m : Message) (r : GoString)
    (h1 : Contains r "-ERR".toList = false)
    (h2 : Contains r "-OK".toList = true ∨ Contains r "+OK".toList = true) (h4 : r.length ≤ 4) :
    m.parseReply r = .ok { m with State := "ok".toList,
                                  UUID := m.Headers.get "job-uuid".toList } := by
  have h4a : ¬ 4 < r.length := by omega
  have h2b : (Contains r "-OK".toList || Contains r "+OK".toList) = true := by
    simpa only [Bool.or_eq_true] using h2
  simp only [Message.parseReply, h1, Bool.false_eq_true, if_false, h2b, if_true, gt_iff_lt, h4a,
    Outcome.bind, Message.GetStr]

theorem parseReply_neither (m : Message) (r : GoString)
    (h1 : Contains r "-ERR".toList = false)
    (h2 : Contains r "-OK".toList = false) (h3 : Contains r "+OK".toList = false) :
    m.parseReply r = .ok { m with UUID := m.Headers.get "job-uuid".toList } := by
  simp only [Message.parseReply, h1, h2, h3, Bool.or_self, Bool.false_eq_true, if_false,
    Outcome.bind, Message.GetStr]

theorem parseReply_total (m : Message) (r : GoString) :
    ∃ m1, m.parseReply r = .ok m1 ∧ m1.Headers = m.Headers ∧ m1.Body = m.Body ∧
      m1.Type_ = m.Type_ := by
  cases h1 : Contains r "-ERR".toList
  · cases h2 : Contains r "-OK".toList
    · cases h3 : Contains r "+OK".toList
      · exact ⟨_, parseReply_neither m r h1 h2 h3, rfl, rfl, rfl⟩
      · by_cases h4 : 4 < r.length
        · exact ⟨_, parseReply_ok_long m r h1 (Or.inr h3) h4, rfl, rfl, rfl⟩
        · exact ⟨_, parseReply_ok_short m r h1 (Or.inr h3) (by omega), rfl, rfl, rfl⟩
    · by_cases h4 : 4 < r.length
      · exact ⟨_, parseReply_ok_long m r h1 (Or.inl h2) h4, rfl, rfl, rfl⟩
      · exact ⟨_, parseReply_ok_short m r h1 (Or.inl h2) (by omega), rfl, rfl, rfl⟩
  · by_cases h5 : 5 < r.length
    · exact ⟨_, parseReply_err_long m r h1 h5, rfl, rfl, rfl⟩
    · exact ⟨_, parseReply_err_short m r h1 (by omega), rfl, rfl, rfl⟩

/-- C3: on a fresh message `parseReply` never panics; a reply containing `-ERR` gives state `err`
and, when longer than 5 bytes, the data is the reply without its first 5 bytes, newlines
trimmed (the remaining bytes are the data between two runs of line feeds, and the data neither
begins nor ends with a line feed), while a reply of at most 5 bytes leaves the data empty;
otherwise a reply containing `-OK` or `+OK` gives state `ok` with the same rule for the first 4
bytes.  So `-ERR` gives `err` with empty data, `-ERR\nfoo` the data `foo`, `+OK\nbar` the data
`bar`; line feeds that remain after the cut are removed at both ends and kept inside. -/
theorem parseReply_fresh_spec (r : GoString) :
    (∃ m, Message.fresh.parseReply r = .ok m ∧
      (Contains r "-ERR".toList = true →
        m.State = "err".toList ∧
        (5 < r.length → IsTrimOf "\n".toList (r.drop 5) m.Data) ∧
        (r.length ≤ 5 → m.Data = [])) ∧
      (Contains r "-ERR".toList = false →
        (Contains r "-OK".toList = true ∨ Contains r "+OK".toList = true) →
        m.State = "ok".toList ∧
        (4 < r.length → IsTrimOf "\n".toList (r.drop 4) m.Data) ∧
        (r.length ≤ 4 → m.Data = []))) ∧
    (∀ (m0 : Message) (p : GoPanic), m0.parseReply r ≠ .panic p) ∧
    Message.fresh.parseReply "-ERR".toList =
      .ok { Message.fresh with State := "err".toList, Data := [] } ∧
    Message.fresh.parseReply "-ERR\nfoo".toList =
      .ok { Message.fresh with State := "err".toList, Data := "foo".toList } ∧
    Message.fresh.parseReply "+OK\nbar".toList =
      .ok { Message.fresh with State := "ok".toList, Data := "bar".toList } ∧
    Message.fresh.parseReply "-ERR no reply\n".toList =
      .ok { Message.fresh with State := "err".toList, Data := "no reply".toList } ∧
    Message.fresh.parseReply "+OK\n\nline 1\nline 2\n\n".toList =
      .ok { Message.fresh with State := "ok".toList, Data := "line 1\nline 2".toList } := by
  refine ⟨?_, ?_, by decide, by decide, by decide, by decide, by decide⟩
  · cases h1 : Contains r "-ERR".toList
    · by_cases h2 : Contains r "-OK".toList = true ∨ Contains r "+OK".toList = true
      · by_cases h4 : 4 < r.length
        · refine ⟨_, parseReply_ok_long _ r h1 h2 h4, ?_, ?_⟩
          · intro h; cases h
          · intro _ _
            exact ⟨rfl, fun _ => Trim_spec _ _, fun h => absurd h (by omega)⟩
        · refine ⟨_, parseReply_ok_short _ r h1 h2 (by omega), ?_, ?_⟩
          · intro h; cases h
          · intro _ _
            exact ⟨rfl, fun h => absurd h h4, fun _ => rfl⟩
      · obtain ⟨m1, hm1, _⟩ := parseReply_total Message.fresh r
        refine ⟨m1, hm1, ?_, ?_⟩
        · intro h; cases h
        · intro _ h; exact absurd h h2
    · by_cases h5 : 5 < r.length
      · refine ⟨_, parseReply_err_long _ r h1 h5, ?_, ?_⟩
        · intro _
          exact ⟨rfl, fun _ => Trim_spec _ _, fun h => absurd h (by omega)⟩
        · intro h; cases h
      · refine ⟨_, parseReply_err_short _ r h1 (by omega), ?_, ?_⟩
        · intro _
          exact ⟨rfl, fun h => absurd h h5, fun _ => rfl⟩
        · intro h; cases h
  · intro m0 p hp
    obtain ⟨m1, hm1, _⟩ := parseReply_total m0 r
    rw [hm1] at hp
    cases hp

/-! ## Reading the body -/

theorem Atoi_nil : Atoi [] = none := by decide

theorem ReadFull_short (stream : GoString) (n : Nat) (h : ¬ n ≤ stream.length) :
    ∃ e, ReadFull stream n = .error e := by
  by_cases hs : stream = []
  · exact ⟨.eof, by rw [ReadFull, if_neg h, if_pos hs]⟩
  · exact ⟨.unexpectedEOF, by rw [ReadFull, if_neg h, if_neg hs]⟩

theorem readBody_absent (lib : Lib) (m : Message) (cmr : MIMEHeader) (stream : GoString)
    (h : cmr.Get "Content-Length".toList = []) : readBody lib m cmr stream = .ok m := by
  simp only [readBody, h, ne_eq, not_true_eq_false, if_false]

theorem readBody_eq (lib : Lib) (m : Message) (cmr : MIMEHeader) (stream : GoString) (l : Int)
    (hA : Atoi (cmr.Get "Content-Length".toList) = some l) :
    readBody lib m cmr stream =
      (makeBytes lib.memory l).bind fun n =>
      (ReadFull stream n).bind fun body => .ok { m with Body := body } := by
  have hne : cmr.Get "Content-Length".toList ≠ [] := by
    intro h
    rw [h, Atoi_nil] at hA
    cases hA
  simp only [readBody, ne_eq, hne, not_false_eq_true, if_true, hA]

theorem makeBytes_ok (memory : Nat) (l : Int) (h0 : 0 ≤ l)
    (hmax : l ≤ (maxAlloc memory : Int)) : makeBytes memory l = .ok l.toNat := by
  rw [makeBytes, if_pos ⟨h0, hmax⟩]

theorem makeBytes_fails (memory : Nat) (l : Int)
    (h : ¬ (0 ≤ l ∧ l ≤ (maxAlloc memory : Int))) : ∃ p, makeBytes memory l = .panic p := by
  rw [makeBytes, if_neg h]
  by_cases h2 : l < 0 ∨ (2 ^ 48 : Int) < l
  · exact ⟨_, by rw [if_pos h2]⟩
  · exact ⟨_, by rw [if_neg h2]⟩

theorem readBody_declared (lib : Lib) (m : Message) (cmr : MIMEHeader) (stream : GoString)
    (l : Int) (hA : Atoi (cmr.Get "Content-Length".toList) = some l) (h0 : 0 ≤ l)
    (hmax : l ≤ (maxAlloc lib.memory : Int)) (hlen : l.toNat ≤ stream.length) :
    readBody lib m cmr stream = .ok { m with Body := stream.take l.toNat } := by
  rw [readBody_eq lib m cmr stream l hA, makeBytes_ok lib.memory l h0 hmax]
  simp only [Outcome.bind, ReadFull, hlen, if_true]

theorem readBody_short_eq (lib : Lib) (m : Message) (cmr : MIMEHeader) (stream : GoString)
    (l : Int) (hA : Atoi (cmr.Get "Content-Length".toList) = some l)
    (hmax : l ≤ (maxAlloc lib.memory : Int)) (hlen : (stream.length : Int) < l) :
    readBody lib m cmr stream = .error (if stream = [] then .eof else .unexpectedEOF) := by
  have h0 : 0 ≤ l := by omega
  have hl : ¬ l.toNat ≤ stream.length := by omega
  rw [readBody_eq lib m cmr stream l hA, makeBytes_ok lib.memory l h0 hmax]
  have hR : ReadFull stream l.toNat = .error (if stream = [] then .eof else .unexpectedEOF) := by
    rw [ReadFull, if_neg hl]
    by_cases hs : stream = []
    · rw [if_pos hs, if_pos hs]
    · rw [if_neg hs, if_neg hs]
  show (ReadFull stream l.toNat).bind _ = _
  rw [hR]
  rfl

theorem readBody_short (lib : Lib) (m : Message) (cmr : MIMEHeader) (stream : GoString) (l : Int)
    (hA : Atoi (cmr.Get "Content-Length".toList) = some l)
    (hmax : l ≤ (maxAlloc lib.memory : Int)) (hlen : (stream.length : Int) < l) :
    ∃ e, readBody lib m cmr stream = .error e :=
  ⟨_, readBody_short_eq lib m cmr stream l hA hmax hlen⟩

theorem readBody_not_number (lib : Lib) (m : Message) (cmr : MIMEHeader) (stream : GoString)
    (hlv : cmr.Get "Content-Length".toList ≠ [])
    (hA : Atoi (cmr.Get "Content-Length".toList) = none) :
    readBody lib m cmr stream = .error (.numError (cmr.Get "Content-Length".toList)) := by
  simp only [readBody, ne_eq, hlv, not_false_eq_true, if_true, hA]

theorem readBody_no_memory (lib : Lib) (m : Message) (cmr : MIMEHeader) (stream : GoString)
    (l : Int) (hA : Atoi (cmr.Get "Content-Length".toList) = some l)
    (h : ¬ (0 ≤ l ∧ l ≤ (maxAlloc lib.memory : Int))) :
    ∃ p, readBody lib m cmr stream = .panic p := by
  obtain ⟨p, hp⟩ := makeBytes_fails lib.memory l h
  exact ⟨p, by rw [readBody_eq lib m cmr stream l hA, hp]; rfl⟩

theorem readBody_ok (lib : Lib) (m : Message) (cmr : MIMEHeader) (stream : GoString)
    (m1 : Message) (h : readBody lib m cmr stream = .ok m1) :
    (cmr.Get "Content-Length".toList = [] ∧ m1 = m) ∨
    (∃ l : Int, Atoi (cmr.Get "Content-Length".toList) = some l ∧ 0 ≤ l ∧
      l ≤ (maxAlloc lib.memory : Int) ∧
      l.toNat ≤ stream.length ∧ m1 = { m with Body := stream.take l.toNat }) := by
  by_cases hlv : cmr.Get "Content-Length".toList = []
  · left
    rw [readBody_absent lib m cmr stream hlv] at h
    cases h
    exact ⟨hlv, rfl⟩
  · right
    cases hA : Atoi (cmr.Get "Content-Length".toList) with
    | none =>
      rw [readBody_not_number lib m cmr stream hlv hA] at h
      cases h
    | some l =>
      by_cases hr : 0 ≤ l ∧ l ≤ (maxAlloc lib.memory : Int)
      · by_cases hlen : l.toNat ≤ stream.length
        · rw [readBody_declared lib m cmr stream l hA hr.1 hr.2 hlen] at h
          cases h
          exact ⟨l, rfl, hr.1, hr.2, hlen, rfl⟩
        · rw [readBody_short_eq lib m cmr stream l hA hr.2 (by omega)] at h
          cases h
      · obtain ⟨p, hp⟩ := readBody_no_memory lib m cmr stream l hA hr
        rw [hp] at h
        cases h

/-! ## The shape of `Parse` -/

theorem Parse_header_error (lib : Lib) (m : Message) (rd : MIMERead) (t : GoString)
    (hE : rd.err.filter (fun t => t ≠ "EOF".toList) = some t) :
    m.Parse lib rd = .error (.readMIMEHeader t) := by
  simp only [Message.Parse, hE]

theorem Parse_empty_type (lib : Lib) (m : Message) (rd : MIMERead)
    (hT : rd.hdr.Get "Content-Type".toList = []) : ∃ e, m.Parse lib rd = .error e := by
  cases hE : rd.err.filter (fun t => t ≠ "EOF".toList) with
  | some t => exact ⟨_, Parse_header_error lib m rd t hE⟩
  | none =>
    refine ⟨.emptyContentType rd.rest, ?_⟩
    simp only [Message.Parse, hE, hT, if_true]

theorem Parse_eq (lib : Lib) (m : Message) (rd : MIMERead)
    (hE : rd.err.filter (fun t => t ≠ "EOF".toList) = none)
    (hT : rd.hdr.Get "Content-Type".toList ≠ []) :
    m.Parse lib rd =
      (readBody lib m rd.hdr rd.rest).bind fun m1 =>
        if rd.hdr.Get "Content-Type".toList ∉ AvailableMessageTypes then
          .error (.unsupportedType (rd.hdr.Get "Content-Type".toList))
        else
          (if rd.hdr.Get "Content-Type".toList ≠ "text/event-json".toList then
            backgroundJobBody (deriveFields
              { m1 with Type_ := rd.hdr.Get "Content-Type".toList,
                        Headers := copyHeaders rd.hdr m1.Headers })
          else .ok { m1 with Type_ := rd.hdr.Get "Content-Type".toList }).bind fun m3 =>
          dispatch lib m3 rd.hdr := by
  simp only [Message.Parse, hE, hT, if_false]

theorem Parse_unsupported (lib : Lib) (m : Message) (rd : MIMERead) (m1 : Message)
    (hE : rd.err.filter (fun t => t ≠ "EOF".toList) = none)
    (hT : rd.hdr.Get "Content-Type".toList ≠ [])
    (hB : readBody lib m rd.hdr rd.rest = .ok m1)
    (hU : rd.hdr.Get "Content-Type".toList ∉ AvailableMessageTypes) :
    m.Parse lib rd = .error (.unsupportedType (rd.hdr.Get "Content-Type".toList)) := by
  rw [Parse_eq lib m rd hE hT, hB]
  simp only [Outcome.bind, hU, not_false_eq_true, if_true]

theorem Parse_supported (lib : Lib) (m : Message) (rd : MIMERead) (m1 : Message)
    (hE : rd.err.filter (fun t => t ≠ "EOF".toList) = none)
    (hB : readBody lib m rd.hdr rd.rest = .ok m1)
    (hS : rd.hdr.Get "Content-Type".toList ∈ AvailableMessageTypes) :
    m.Parse lib rd =
      (if rd.hdr.Get "Content-Type".toList ≠ "text/event-json".toList then
        backgroundJobBody (deriveFields
          { m1 with Type_ := rd.hdr.Get "Content-Type".toList,
                    Headers := copyHeaders rd.hdr m1.Headers })
      else .ok { m1 with Type_ := rd.hdr.Get "Content-Type".toList }).bind fun m3 =>
      dispatch lib m3 rd.hdr := by
  have hT : rd.hdr.Get "Content-Type".toList ≠ [] := by
    intro h
    rw [h] at hS
    revert hS
    decide
  rw [Parse_eq lib m rd hE hT, hB]
  simp only [Outcome.bind, hS, not_true_eq_false, if_false]

theorem Parse_ok_inv (lib : Lib) (m : Message) (rd : MIMERead) (m2 : Message)
    (h : m.Parse lib rd = .ok m2) :
    rd.err.filter (fun t => t ≠ "EOF".toList) = none ∧
    rd.hdr.Get "Content-Type".toList ∈ AvailableMessageTypes ∧
    ∃ m1, readBody lib m rd.hdr rd.rest = .ok m1 := by
  cases hE : rd.err.filter (fun t => t ≠ "EOF".toList) with
  | some t =>
    rw [Parse_header_error lib m rd t hE] at h
    cases h
  | none =>
    by_cases hT : rd.hdr.Get "Content-Type".toList = []
    · obtain ⟨e, he⟩ := Parse_empty_type lib m rd hT
      rw [he] at h
      cases h
    · rw [Parse_eq lib m rd hE hT] at h
      cases hB : readBody lib m rd.hdr rd.rest with
      | ok m1 =>
        by_cases hS : rd.hdr.Get "Content-Type".toList ∈ AvailableMessageTypes
        · exact ⟨rfl, hS, m1, rfl⟩
        · rw [hB] at h
          simp only [Outcome.bind, hS, not_false_eq_true, if_true] at h
          cases h
      | error e =>
        rw [hB] at h
        cases h
      | panic p =>
        rw [hB] at h
        cases h

/-! ## Unknown content types (C1) -/

theorem unsupportedType_text (t : GoString) :
    ∃ txt, (ParseError.unsupportedType t).text = some txt ∧ Contains txt t = true ∧
      ∀ s ∈ AvailableMessageTypes, Contains txt s = true := by
  refine ⟨_, rfl, ?_, ?_⟩
  · rw [contains_iff]
    exact ⟨_, _, rfl⟩
  · intro s hs
    rw [contains_iff]
    have h1 : ∀ u ∈ AvailableMessageTypes, Contains
        "'. Supported types are: map[api/response: auth/request: command/reply: text/disconnect-notice: text/event-json: text/event-plain:] ".toList
        u = true := by decide
    have h2 := (contains_iff _ _).mp (h1 s hs)
    exact List.IsInfix.trans h2 (List.suffix_append _ _).isInfix

/-- C1 (amended): a frame whose `Content-Type` is absent or empty is answered with an error; so
is a frame whose `Content-Type` is not one of the six known values, unless its `Content-Length`
parses as a negative number or as more bytes than the process can allocate.  When the header
block was read without a non-EOF error, the outcome for such an unknown type is: the
unsupported-type error, whose text contains the received type and each of the six supported
types, when the `Content-Length` is absent or is a length the process can allocate with that
many bytes on the stream; the error of `strconv.Atoi` when the `Content-Length` is not a number;
`io.EOF` (nothing follows the header block) or `io.ErrUnexpectedEOF` when fewer bytes follow
than an allocatable `Content-Length` declares; and no return at all, the allocation of the body
having failed, when the `Content-Length` is negative or more than the process can allocate. -/
theorem Parse_unknown_type (lib : Lib) (m : Message) (rd : MIMERead)
    (h : rd.hdr.Get "Content-Type".toList = [] ∨
      (rd.hdr.Get "Content-Type".toList ∉ AvailableMessageTypes ∧
        ∀ l : Int, Atoi (rd.hdr.Get "Content-Length".toList) = some l →
          0 ≤ l ∧ l ≤ (maxAlloc lib.memory : Int))) :
    (∃ e, m.Parse lib rd = .error e) ∧
    (rd.hdr.Get "Content-Type".toList ≠ [] →
      rd.hdr.Get "Content-Type".toList ∉ AvailableMessageTypes →
      rd.err.filter (fun t => t ≠ "EOF".toList) = none →
      ((rd.hdr.Get "Content-Length".toList = [] ∨
          ∃ l : Int, Atoi (rd.hdr.Get "Content-Length".toList) = some l ∧ 0 ≤ l ∧
            l ≤ (maxAlloc lib.memory : Int) ∧ l.toNat ≤ rd.rest.length) →
        m.Parse lib rd = .error (.unsupportedType (rd.hdr.Get "Content-Type".toList)) ∧
        ∃ txt, (ParseError.unsupportedType (rd.hdr.Get "Content-Type".toList)).text = some txt ∧
          Contains txt (rd.hdr.Get "Content-Type".toList) = true ∧
          ∀ s ∈ AvailableMessageTypes, Contains txt s = true) ∧
      (rd.hdr.Get "Content-Length".toList ≠ [] →
        Atoi (rd.hdr.Get "Content-Length".toList) = none →
        m.Parse lib rd = .error (.numError (rd.hdr.Get "Content-Length".toList))) ∧
      (∀ l : Int, Atoi (rd.hdr.Get "Content-Length".toList) = some l →
        l ≤ (maxAlloc lib.memory : Int) → (rd.rest.length : Int) < l →
        m.Parse lib rd = .error (if rd.rest = [] then .eof else .unexpectedEOF)) ∧
      (∀ l : Int, Atoi (rd.hdr.Get "Content-Length".toList) = some l →
        (l < 0 ∨ (maxAlloc lib.memory : Int) < l) → ∃ p, m.Parse lib rd = .panic p)) := by
  constructor
  · rcases h with h | ⟨hU, hL⟩
    · exact Parse_empty_type lib m rd h
    · cases hE : rd.err.filter (fun t => t ≠ "EOF".toList) with
      | some t => exact ⟨_, Parse_header_error lib m rd t hE⟩
      | none =>
        by_cases hT : rd.hdr.Get "Content-Type".toList = []
        · exact Parse_empty_type lib m rd hT
        · cases hB : readBody lib m rd.hdr rd.rest with
          | ok m1 => exact ⟨_, Parse_unsupported lib m rd m1 hE hT hB hU⟩
          | error e =>
            refine ⟨e, ?_⟩
            rw [Parse_eq lib m rd hE hT, hB]
            rfl
          | panic p =>
            exfalso
            by_cases hlv : rd.hdr.Get "Content-Length".toList = []
            · rw [readBody_absent lib m rd.hdr rd.rest hlv] at hB
              cases hB
            · cases hA : Atoi (rd.hdr.Get "Content-Length".toList) with
              | none =>
                rw [readBody_not_number lib m rd.hdr rd.rest hlv hA] at hB
                cases hB
              | some l =>
                have hr := hL l hA
                by_cases hlen : l.toNat ≤ rd.rest.length
                · rw [readBody_declared lib m rd.hdr rd.rest l hA hr.1 hr.2 hlen] at hB
                  cases hB
                · rw [readBody_short_eq lib m rd.hdr rd.rest l hA hr.2 (by omega)] at hB
                  cases hB
  · intro hT hU hE
    refine ⟨?_, ?_, ?_, ?_⟩
    · intro hL
      have hB : ∃ m1, readBody lib m rd.hdr rd.rest = .ok m1 := by
        rcases hL with hlv | ⟨l, hA, h0, hmax, hlen⟩
        · exact ⟨_, readBody_absent lib m rd.hdr rd.rest hlv⟩
        · exact ⟨_, readBody_declared lib m rd.hdr rd.rest l hA h0 hmax hlen⟩
      obtain ⟨m1, hB⟩ := hB
      exact ⟨Parse_unsupported lib m rd m1 hE hT hB hU, unsupportedType_text _⟩
    · intro hlv hA
      rw [Parse_eq lib m rd hE hT, readBody_not_number lib m rd.hdr rd.rest hlv hA]
      rfl
    · intro l hA hmax hlen
      rw [Parse_eq lib m rd hE hT, readBody_short_eq lib m rd.hdr rd.rest l hA hmax hlen]
      rfl
    · intro l hA hr
      obtain ⟨p, hp⟩ := readBody_no_memory lib m rd.hdr rd.rest l hA (fun h => by omega)
      refine ⟨p, ?_⟩
      rw [Parse_eq lib m rd hE hT, hp]
      rfl

theorem Parse_unknown_type_witness :
    (garbageFrame.hdr.Get "Content-Type".toList ∉ AvailableMessageTypes) ∧
    (∃ e, Message.fresh.Parse exampleLib garbageFrame = .error e) ∧
    Message.fresh.Parse exampleLib garbageFrame =
      .error (.unsupportedType "text/garbage".toList) := by
  have hU : garbageFrame.hdr.Get "Content-Type".toList ∉ AvailableMessageTypes := by decide
  have hL : ∀ l : Int, Atoi (garbageFrame.hdr.Get "Content-Length".toList) = some l →
      0 ≤ l ∧ l ≤ (maxAlloc exampleLib.memory : Int) := by
    intro l hl
    have h0 : Atoi (garbageFrame.hdr.Get "Content-Length".toList) = none := by decide
    rw [h0] at hl
    cases hl
  have key := Parse_unknown_type exampleLib Message.fresh garbageFrame (Or.inr ⟨hU, hL⟩)
  exact ⟨hU, key.1, ((key.2 (by decide) hU (by decide)).1 (Or.inl (by decide))).1⟩

/-- C1 (counterexample): for the unknown type `text/garbage` with a declared length of 5 and
only 2 bytes on the stream, `Parse` returns `io.ErrUnexpectedEOF`, whose text does not contain
the received type. -/
theorem Parse_unknown_type_short_body :
    NewMessage exampleLib garbageShortFrame true = .error .unexpectedEOF ∧
    ParseError.unexpectedEOF.text = some "unexpected EOF".toList ∧
    Contains "unexpected EOF".toList "text/garbage".toList = false := by
  decide

/-! ## What the later steps of `Parse` preserve -/

theorem sliceFrom_ok (s : GoString) (n : Nat) (t : GoString) (h : sliceFrom s n = .ok t) :
    n ≤ s.length ∧ t = s.drop n := by
  by_cases hn : n ≤ s.length
  · rw [sliceFrom, if_pos hn] at h
    cases h
    exact ⟨hn, rfl⟩
  · rw [sliceFrom, if_neg hn] at h
    cases h

theorem bind_ok {α β : Type} (x : Outcome α) (f : α → Outcome β) (b : β)
    (h : x.bind f = .ok b) : ∃ a, x = .ok a ∧ f a = .ok b := by
  cases x with
  | ok a => exact ⟨a, rfl, h⟩
  | error e => cases h
  | panic p => cases h

theorem backgroundJobBody_ok (m m3 : Message) (h : backgroundJobBody m = .ok m3) :
    m3.Headers = m.Headers ∧ m3.Body = m.Body ∧ m3.Type_ = m.Type_ := by
  unfold backgroundJobBody at h
  split at h
  · dsimp only at h
    split at h
    · obtain ⟨t, _, ht⟩ := bind_ok _ _ _ h
      cases ht
      exact ⟨rfl, rfl, rfl⟩
    · split at h
      · obtain ⟨t, _, ht⟩ := bind_ok _ _ _ h
        cases ht
        exact ⟨rfl, rfl, rfl⟩
      · cases h
        exact ⟨rfl, rfl, rfl⟩
  · cases h
    exact ⟨rfl, rfl, rfl⟩

theorem parseReply_ok (m : Message) (r : GoString) (m1 : Message)
    (h : m.parseReply r = .ok m1) :
    m1.Headers = m.Headers ∧ m1.Body = m.Body ∧ m1.Type_ = m.Type_ := by
  obtain ⟨m2, h2, hH, hB, hT⟩ := parseReply_total m r
  rw [h2] at h
  cases h
  exact ⟨hH, hB, hT⟩

theorem parseEventPlain_eq (lib : Lib) (m : Message)
    (h : (lib.ReadMIMEHeader m.Body).err = none) :
    parseEventPlain lib m =
      readBody lib m (lib.ReadMIMEHeader m.Body).hdr (lib.ReadMIMEHeader m.Body).rest := by
  simp only [parseEventPlain, h, readBody]

theorem parseEventPlain_ok (lib : Lib) (m m1 : Message) (h : parseEventPlain lib m = .ok m1) :
    (lib.ReadMIMEHeader m.Body).err = none ∧
    readBody lib m (lib.ReadMIMEHeader m.Body).hdr (lib.ReadMIMEHeader m.Body).rest = .ok m1 := by
  cases hE : (lib.ReadMIMEHeader m.Body).err with
  | some t =>
    simp only [parseEventPlain, hE] at h
    cases h
  | none =>
    rw [parseEventPlain_eq lib m hE] at h
    exact ⟨rfl, h⟩

theorem readBody_ok_fields (lib : Lib) (m : Message) (cmr : MIMEHeader) (stream : GoString) (m1 : Message)
    (h : readBody lib m cmr stream = .ok m1) : m1.Headers = m.Headers ∧ m1.Type_ = m.Type_ := by
  rcases readBody_ok lib m cmr stream m1 h with ⟨_, rfl⟩ | ⟨l, _, _, _, _, rfl⟩
  · exact ⟨rfl, rfl⟩
  · exact ⟨rfl, rfl⟩

theorem dispatch_json (lib : Lib) (m : Message) (cmr : MIMEHeader)
    (hT : m.Type_ = "text/event-json".toList) : dispatch lib m cmr = parseEventJSON lib m := by
  have h1 : m.Type_ ≠ "text/disconnect-notice".toList := by rw [hT]; decide
  have h2 : m.Type_ ≠ "command/reply".toList := by rw [hT]; decide
  have h3 : m.Type_ ≠ "api/response".toList := by rw [hT]; decide
  rw [dispatch, if_neg h1, if_neg h2, if_neg h3, if_pos hT]

theorem dispatch_plain (lib : Lib) (m : Message) (cmr : MIMEHeader)
    (hT : m.Type_ = "text/event-plain".toList) : dispatch lib m cmr = parseEventPlain lib m := by
  have h1 : m.Type_ ≠ "text/disconnect-notice".toList := by rw [hT]; decide
  have h2 : m.Type_ ≠ "command/reply".toList := by rw [hT]; decide
  have h3 : m.Type_ ≠ "api/response".toList := by rw [hT]; decide
  have h4 : m.Type_ ≠ "text/event-json".toList := by rw [hT]; decide
  rw [dispatch, if_neg h1, if_neg h2, if_neg h3, if_neg h4, if_pos hT]

theorem dispatch_other_ok (lib : Lib) (m : Message) (cmr : MIMEHeader) (m1 : Message)
    (hJ : m.Type_ ≠ "text/event-json".toList) (hP : m.Type_ ≠ "text/event-plain".toList)
    (h : dispatch lib m cmr = .ok m1) :
    m1.Headers = m.Headers ∧ m1.Body = m.Body ∧ m1.Type_ = m.Type_ := by
  unfold dispatch at h
  split at h
  · cases h; exact ⟨rfl, rfl, rfl⟩
  · split at h
    · exact parseReply_ok _ _ _ h
    · split at h
      · exact parseReply_ok _ _ _ h
      · cases h; exact ⟨rfl, rfl, rfl⟩

theorem dispatch_nonjson_ok (lib : Lib) (m : Message) (cmr : MIMEHeader) (m1 : Message)
    (hJ : m.Type_ ≠ "text/event-json".toList) (h : dispatch lib m cmr = .ok m1) :
    m1.Headers = m.Headers ∧ m1.Type_ = m.Type_ := by
  by_cases hP : m.Type_ = "text/event-plain".toList
  · rw [dispatch_plain lib m cmr hP] at h
    exact readBody_ok_fields _ _ _ _ _ (parseEventPlain_ok lib m m1 h).2
  · obtain ⟨h1, _, h3⟩ := dispatch_other_ok lib m cmr m1 hJ hP h
    exact ⟨h1, h3⟩

/-- The message that reaches the switch (line 174) for a frame that is not `text/event-json`,
given the message `m1` left by the body read. -/
theorem Parse_nonjson_ok (lib : Lib) (m : Message) (rd : MIMERead) (m2 : Message)
    (hJ : rd.hdr.Get "Content-Type".toList ≠ "text/event-json".toList)
    (h : m.Parse lib rd = .ok m2) :
    ∃ m1 m3, readBody lib m rd.hdr rd.rest = .ok m1 ∧
      m3.Headers = copyHeaders rd.hdr m.Headers ∧ m3.Body = m1.Body ∧
      m3.Type_ = rd.hdr.Get "Content-Type".toList ∧ dispatch lib m3 rd.hdr = .ok m2 := by
  obtain ⟨hE, hS, m1, hB⟩ := Parse_ok_inv lib m rd m2 h
  rw [Parse_supported lib m rd m1 hE hB hS] at h
  simp only [ne_eq, hJ, not_false_eq_true, if_true] at h
  obtain ⟨m3, h3, hD⟩ := bind_ok _ _ _ h
  obtain ⟨hH, hBd, hTy⟩ := backgroundJobBody_ok _ _ h3
  refine ⟨m1, m3, hB, ?_, ?_, ?_, hD⟩
  · rw [hH, ← (readBody_ok_fields lib m rd.hdr rd.rest m1 hB).1]
    rfl
  · rw [hBd]; rfl
  · rw [hTy]; rfl

/-! ## Body length (C2) -/

/-- C2 (amended): for a frame that declares `Content-Length` `L`, `Parse` returns an error when
fewer than `L` bytes follow the header block and `L` is a length the process can allocate; when
`L` is more than the process can allocate (and the header block names a content type), the
allocation of the body ends the call, and no error is returned; and when `Parse` returns without
error for a frame that is neither `text/event-json` nor a `text/event-plain` frame whose nested
block declares a `Content-Length`, the body is the `L` bytes that follow the header block, so its
length is `L`. -/
theorem Parse_body_length (lib : Lib) (m : Message) (rd : MIMERead) (L : Int)
    (hL : Atoi (rd.hdr.Get "Content-Length".toList) = some L) :
    ((rd.rest.length : Int) < L → L ≤ (maxAlloc lib.memory : Int) →
      ∃ e, m.Parse lib rd = .error e) ∧
    ((maxAlloc lib.memory : Int) < L → rd.err.filter (fun t => t ≠ "EOF".toList) = none →
      rd.hdr.Get "Content-Type".toList ≠ [] → ∃ p, m.Parse lib rd = .panic p) ∧
    (∀ m2, m.Parse lib rd = .ok m2 →
      rd.hdr.Get "Content-Type".toList ≠ "text/event-json".toList →
      (rd.hdr.Get "Content-Type".toList = "text/event-plain".toList →
        (lib.ReadMIMEHeader (rd.rest.take L.toNat)).hdr.Get "Content-Length".toList = []) →
      m2.Body = rd.rest.take L.toNat ∧ (m2.Body.length : Int) = L) := by
  refine ⟨?_, ?_, ?_⟩
  · intro hlen hmax
    cases hE : rd.err.filter (fun t => t ≠ "EOF".toList) with
    | some t => exact ⟨_, Parse_header_error lib m rd t hE⟩
    | none =>
      by_cases hT : rd.hdr.Get "Content-Type".toList = []
      · exact Parse_empty_type lib m rd hT
      · obtain ⟨e, he⟩ := readBody_short lib m rd.hdr rd.rest L hL hmax hlen
        refine ⟨e, ?_⟩
        rw [Parse_eq lib m rd hE hT, he]
        rfl
  · intro hmem hE hT
    obtain ⟨p, hp⟩ := readBody_no_memory lib m rd.hdr rd.rest L hL (fun h => by omega)
    refine ⟨p, ?_⟩
    rw [Parse_eq lib m rd hE hT, hp]
    rfl
  · intro m2 hP hJ hN
    obtain ⟨m1, m3, hB, _, hBd, hTy, hD⟩ := Parse_nonjson_ok lib m rd m2 hJ hP
    have h1 : m1.Body = rd.rest.take L.toNat ∧ 0 ≤ L ∧ L.toNat ≤ rd.rest.length := by
      rcases readBody_ok lib m rd.hdr rd.rest m1 hB with ⟨hlv, _⟩ | ⟨l, hA, h0, _, hlen, rfl⟩
      · rw [hlv, Atoi_nil] at hL
        cases hL
      · rw [hL] at hA
        cases hA
        exact ⟨rfl, h0, hlen⟩
    obtain ⟨hm1, h0, hlen⟩ := h1
    have h3 : m3.Body = rd.rest.take L.toNat := by rw [hBd, hm1]
    have hm2 : m2.Body = m3.Body := by
      by_cases hPl : rd.hdr.Get "Content-Type".toList = "text/event-plain".toList
      · have hT3 : m3.Type_ = "text/event-plain".toList := by rw [hTy, hPl]
        rw [dispatch_plain lib m3 rd.hdr hT3] at hD
        obtain ⟨_, hR⟩ := parseEventPlain_ok lib m3 m2 hD
        have hN3 : (lib.ReadMIMEHeader m3.Body).hdr.Get "Content-Length".toList = [] := by
          rw [h3]; exact hN hPl
        rw [readBody_absent _ _ _ _ hN3] at hR
        cases hR
        rfl
      · have hJ3 : m3.Type_ ≠ "text/event-json".toList := by rw [hTy]; exact hJ
        have hP3 : m3.Type_ ≠ "text/event-plain".toList := by rw [hTy]; exact hPl
        exact (dispatch_other_ok lib m3 rd.hdr m2 hJ3 hP3 hD).2.1
    rw [hm2, h3]
    refine ⟨rfl, ?_⟩
    rw [List.length_take, Nat.min_eq_left hlen]
    exact Int.toNat_of_nonneg h0

theorem Parse_body_length_witness :
    Atoi (apiFrame.hdr.Get "Content-Length".toList) = some 8 ∧
    (∃ m2, Message.fresh.Parse exampleLib apiFrame = .ok m2 ∧
      m2.Body = "+OK done".toList ∧ (m2.Body.length : Int) = 8) := by
  have hA : Atoi (apiFrame.hdr.Get "Content-Length".toList) = some 8 := by decide
  have hP : ∃ m2, Message.fresh.Parse exampleLib apiFrame = .ok m2 :=
    ⟨{ Message.fresh with
        Headers := [("content-length".toList, "8".toList),
                    ("content-type".toList, "api/response".toList)],
        Body := "+OK done".toList, Type_ := "api/response".toList,
        State := "ok".toList, Data := "done".toList }, by decide⟩
  obtain ⟨m2, hm2⟩ := hP
  have key := (Parse_body_length exampleLib Message.fresh apiFrame 8 hA).2.2 m2 hm2
    (by decide) (fun h => absurd h (by decide))
  exact ⟨hA, m2, hm2, key.1, key.2⟩

/-- C2 (counterexample): a `text/event-plain` frame that declares `Content-Length: 44` and is
followed by exactly 44 bytes is decoded without error, and the body of the decoded message is the
3-byte inner payload `abc`, not 44 bytes long. -/
theorem Parse_plain_body_not_declared_length :
    Atoi (plainPayloadFrame.hdr.Get "Content-Length".toList) = some 44 ∧
    plainPayloadFrame.rest.length = 44 ∧
    ∃ m2, NewMessage exampleLib plainPayloadFrame true = .ok m2 ∧
      m2.Body = "abc".toList ∧ m2.Body.length ≠ 44 := by
  refine ⟨by decide, by decide, ?_⟩
  have h : NewMessage exampleLib plainPayloadFrame true =
      .ok { Message.fresh with
            Headers := [("content-length".toList, "44".toList),
                        ("content-type".toList, "text/event-plain".toList)],
            Body := "abc".toList, Type_ := "text/event-plain".toList } := by decide
  exact ⟨_, h, rfl, by decide⟩

/-! ## Header keys are lower-case (C4) -/

theorem keysLower_set (h : StrMap) (k v : GoString)
    (hh : ∀ j ∈ h.keys, ToLower j = j) : ∀ j ∈ (h.set (ToLower k) v).keys, ToLower j = j := by
  intro j hj
  rcases (StrMap.mem_keys_set h (ToLower k) v j).mp hj with rfl | ⟨_, hm⟩
  · exact ToLower_idem k
  · exact hh j hm

theorem keysLower_copyHeaders (cmr : MIMEHeader) (h : StrMap)
    (hh : ∀ j ∈ h.keys, ToLower j = j) : ∀ j ∈ (copyHeaders cmr h).keys, ToLower j = j := by
  induction cmr generalizing h with
  | nil => exact hh
  | cons e t ih =>
    unfold copyHeaders
    rw [List.foldl_cons]
    apply ih
    dsimp only
    have h1 := keysLower_set h e.1 e.2.1 hh
    split
    · split
      · exact keysLower_set _ e.1 _ h1
      · exact keysLower_set _ e.1 _ h1
    · exact h1

theorem keysLower_copyJSON (decoded : List (GoString × JSONValue)) (h : StrMap)
    (hh : ∀ j ∈ h.keys, ToLower j = j) : ∀ j ∈ (copyJSON decoded h).keys, ToLower j = j := by
  induction decoded generalizing h with
  | nil => exact hh
  | cons e t ih =>
    unfold copyJSON
    rw [List.foldl_cons]
    apply ih
    split
    · exact keysLower_set h e.1 _ hh
    · exact hh

theorem parseEventJSON_ok (lib : Lib) (m m2 : Message) (h : parseEventJSON lib m = .ok m2) :
    ∃ decoded, lib.Unmarshal m.Body = .ok decoded ∧
      m2.Body = (copyJSON decoded m.Headers).get "_body".toList ∧
      ((copyJSON decoded m.Headers).get "_body".toList ≠ [] →
        m2.Headers = (copyJSON decoded m.Headers).delete "_body".toList) ∧
      ((copyJSON decoded m.Headers).get "_body".toList = [] →
        m2.Headers = copyJSON decoded m.Headers) := by
  cases hU : lib.Unmarshal m.Body with
  | error t =>
    simp only [parseEventJSON, hU] at h
    cases h
  | ok decoded =>
    refine ⟨decoded, rfl, ?_⟩
    simp only [parseEventJSON, hU] at h
    by_cases hv : (deriveFields { m with Headers := copyJSON decoded m.Headers }).Headers.get
        "_body".toList = []
    · have hv1 : (copyJSON decoded m.Headers).get "_body".toList = [] := hv
      simp only [hv, ne_eq, not_true_eq_false, if_false] at h
      split at h
      · obtain ⟨hH, hB, _⟩ := parseReply_ok _ _ _ h
        refine ⟨?_, fun hne => absurd hv1 hne, fun _ => hH⟩
        rw [hB, hv1]
      · cases h
        exact ⟨hv1.symm, fun hne => absurd hv1 hne, fun _ => rfl⟩
    · have hv1 : (copyJSON decoded m.Headers).get "_body".toList ≠ [] := hv
      simp only [ne_eq, hv, not_false_eq_true, if_true] at h
      split at h
      · obtain ⟨hH, hB, _⟩ := parseReply_ok _ _ _ h
        exact ⟨hB, fun _ => hH, fun he => absurd he hv1⟩
      · cases h
        exact ⟨rfl, fun _ => rfl, fun he => absurd he hv1⟩

theorem Parse_json_ok (lib : Lib) (m : Message) (rd : MIMERead) (m2 : Message)
    (hJ : rd.hdr.Get "Content-Type".toList = "text/event-json".toList)
    (h : m.Parse lib rd = .ok m2) :
    ∃ m1, readBody lib m rd.hdr rd.rest = .ok m1 ∧
      parseEventJSON lib { m1 with Type_ := "text/event-json".toList } = .ok m2 := by
  obtain ⟨hE, hS, m1, hB⟩ := Parse_ok_inv lib m rd m2 h
  rw [Parse_supported lib m rd m1 hE hB hS] at h
  simp only [hJ, ne_eq, not_true_eq_false, if_false, Outcome.bind] at h
  rw [dispatch_json lib _ rd.hdr rfl] at h
  exact ⟨m1, hB, h⟩

/-- C4: every key of the header map of a frame that `NewMessage` decodes without error equals
its own lower-cased form, for wire headers and for the members of an event-json body alike. -/
theorem Parse_header_keys_lower (lib : Lib) (rd : MIMERead) (m2 : Message)
    (h : NewMessage lib rd true = .ok m2) : ∀ k ∈ m2.Headers.keys, ToLower k = k := by
  have hP : Message.fresh.Parse lib rd = .ok m2 := h
  have h0 : ∀ j ∈ StrMap.keys ([] : StrMap), ToLower j = j := by
    intro j hj
    cases hj
  by_cases hJ : rd.hdr.Get "Content-Type".toList = "text/event-json".toList
  · obtain ⟨m1, hB, hPJ⟩ := Parse_json_ok lib Message.fresh rd m2 hJ hP
    obtain ⟨decoded, _, _, hne, heq⟩ := parseEventJSON_ok lib _ m2 hPJ
    have hm1 : m1.Headers = [] := (readBody_ok_fields _ _ _ _ _ hB).1
    have hC : ∀ j ∈ (copyJSON decoded m1.Headers).keys, ToLower j = j := by
      rw [hm1]
      exact keysLower_copyJSON decoded [] h0
    by_cases hv : (copyJSON decoded m1.Headers).get "_body".toList = []
    · rw [heq hv]
      exact hC
    · rw [hne hv]
      intro k hk
      exact hC k ((StrMap.mem_keys_delete _ _ _).mp hk).2
  · obtain ⟨m1, m3, _, hH, _, hTy, hD⟩ := Parse_nonjson_ok lib Message.fresh rd m2 hJ hP
    have hJ3 : m3.Type_ ≠ "text/event-json".toList := by rw [hTy]; exact hJ
    rw [(dispatch_nonjson_ok lib m3 rd.hdr m2 hJ3 hD).1, hH]
    exact keysLower_copyHeaders rd.hdr [] h0

theorem Parse_header_keys_lower_witness :
    (∃ m2, NewMessage exampleLib replyFrame true = .ok m2 ∧
      m2.Headers.keys = ["unique-id".toList, "reply-text".toList, "content-type".toList] ∧
      ∀ k ∈ m2.Headers.keys, ToLower k = k) := by
  have hP : NewMessage exampleLib replyFrame true =
      .ok { Message.fresh with
        Headers := [("unique-id".toList, "abc".toList),
                    ("reply-text".toList, "+OK accepted".toList),
                    ("content-type".toList, "command/reply".toList)],
        Type_ := "command/reply".toList, State := "ok".toList, Data := "accepted".toList } := by
    decide
  exact ⟨_, hP, rfl, Parse_header_keys_lower exampleLib replyFrame _ hP⟩

/-! ## The event-json case (C5, C6, C7) -/

theorem copyJSON_cons (e : GoString × JSONValue) (t : List (GoString × JSONValue)) (h : StrMap) :
    copyJSON (e :: t) h =
      copyJSON t (match e.2 with
        | .string v => h.set (ToLower e.1) v
        | _ => h) := by
  simp only [copyJSON, List.foldl_cons]

theorem mem_keys_copyJSON (decoded : List (GoString × JSONValue)) (h : StrMap) (k : GoString)
    (hk : k ∈ (copyJSON decoded h).keys) :
    k ∈ h.keys ∨ ∃ name v, (name, JSONValue.string v) ∈ decoded ∧ ToLower name = k := by
  induction decoded generalizing h with
  | nil => exact Or.inl hk
  | cons e t ih =>
    obtain ⟨name, val⟩ := e
    rw [copyJSON_cons] at hk
    rcases ih _ hk with h1 | ⟨n, v, hm, hn⟩
    · cases val with
      | string v =>
        rcases (StrMap.mem_keys_set h (ToLower name) v k).mp h1 with rfl | ⟨_, h2⟩
        · exact Or.inr ⟨name, v, List.mem_cons_self _ _, rfl⟩
        · exact Or.inl h2
      | null => exact Or.inl h1
      | bool b => exact Or.inl h1
      | number l => exact Or.inl h1
      | array xs => exact Or.inl h1
      | object ms => exact Or.inl h1
    · exact Or.inr ⟨n, v, List.mem_cons_of_mem _ hm, hn⟩

theorem mem_keys_copyJSON_of_mem (decoded : List (GoString × JSONValue)) (h : StrMap)
    (k : GoString)
    (hk : k ∈ h.keys ∨ ∃ name v, (name, JSONValue.string v) ∈ decoded ∧ ToLower name = k) :
    k ∈ (copyJSON decoded h).keys := by
  induction decoded generalizing h with
  | nil =>
    rcases hk with h1 | ⟨n, v, hm, _⟩
    · exact h1
    · cases hm
  | cons e t ih =>
    obtain ⟨name, val⟩ := e
    rw [copyJSON_cons]
    apply ih
    rcases hk with h1 | ⟨n, v, hm, hn⟩
    · left
      cases val with
      | string v =>
        by_cases hkn : k = ToLower name
        · exact (StrMap.mem_keys_set h (ToLower name) v k).mpr (Or.inl hkn)
        · exact (StrMap.mem_keys_set h (ToLower name) v k).mpr (Or.inr ⟨hkn, h1⟩)
      | null => exact h1
      | bool b => exact h1
      | number l => exact h1
      | array xs => exact h1
      | object ms => exact h1
    · rcases List.mem_cons.mp hm with heq | hm1
      · left
        cases heq
        exact (StrMap.mem_keys_set h _ v k).mpr (Or.inl hn.symm)
      · exact Or.inr ⟨n, v, hm1, hn⟩

theorem get_copyJSON (decoded : List (GoString × JSONValue)) (h : StrMap) (k v : GoString)
    (hall : ∀ name w, (name, JSONValue.string w) ∈ decoded → ToLower name = k → w = v)
    (hex : h.get k = v ∨ ∃ name, (name, JSONValue.string v) ∈ decoded ∧ ToLower name = k) :
    (copyJSON decoded h).get k = v := by
  induction decoded generalizing h with
  | nil =>
    rcases hex with h1 | ⟨n, hm, _⟩
    · exact h1
    · cases hm
  | cons e t ih =>
    obtain ⟨name, val⟩ := e
    rw [copyJSON_cons]
    apply ih
    · intro n w hm hn
      exact hall n w (List.mem_cons_of_mem _ hm) hn
    · by_cases hkn : ToLower name = k
      · cases val with
        | string w =>
          left
          have hw : w = v := hall name w (List.mem_cons_self _ _) hkn
          rw [← hkn, hw]
          exact StrMap.get_set_self h _ v
        | null =>
          rcases hex with h1 | ⟨n, hm, hn⟩
          · exact Or.inl h1
          · rcases List.mem_cons.mp hm with heq | hm1
            · cases heq
            · exact Or.inr ⟨n, hm1, hn⟩
        | bool b =>
          rcases hex with h1 | ⟨n, hm, hn⟩
          · exact Or.inl h1
          · rcases List.mem_cons.mp hm with heq | hm1
            · cases heq
            · exact Or.inr ⟨n, hm1, hn⟩
        | number l =>
          rcases hex with h1 | ⟨n, hm, hn⟩
          · exact Or.inl h1
          · rcases List.mem_cons.mp hm with heq | hm1
            · cases heq
            · exact Or.inr ⟨n, hm1, hn⟩
        | array xs =>
          rcases hex with h1 | ⟨n, hm, hn⟩
          · exact Or.inl h1
          · rcases List.mem_cons.mp hm with heq | hm1
            · cases heq
            · exact Or.inr ⟨n, hm1, hn⟩
        | object ms =>
          rcases hex with h1 | ⟨n, hm, hn⟩
          · exact Or.inl h1
          · rcases List.mem_cons.mp hm with heq | hm1
            · cases heq
            · exact Or.inr ⟨n, hm1, hn⟩
      · rcases hex with h1 | ⟨n, hm, hn⟩
        · left
          cases val with
          | string w =>
            rw [StrMap.get_set_ne h (ToLower name) w k (fun hc => hkn hc.symm)]
            exact h1
          | null => exact h1
          | bool b => exact h1
          | number l => exact h1
          | array xs => exact h1
          | object ms => exact h1
        · rcases List.mem_cons.mp hm with heq | hm1
          · cases heq
            exact absurd hn hkn
          · exact Or.inr ⟨n, hm1, hn⟩

theorem get_copyJSON_field (members : List (GoString × JSONValue)) (k v : GoString)
    (hF : StringField members k v) : (copyJSON members []).get k = v :=
  get_copyJSON members [] k v hF.2 (Or.inr hF.1)

theorem Parse_json_eq (lib : Lib) (m : Message) (rd : MIMERead) (L : Int)
    (hE : rd.err.filter (fun t => t ≠ "EOF".toList) = none)
    (hT : rd.hdr.Get "Content-Type".toList = "text/event-json".toList)
    (hL : Atoi (rd.hdr.Get "Content-Length".toList) = some L) (h0 : 0 ≤ L)
    (hmax : L ≤ (maxAlloc lib.memory : Int)) (hlen : L.toNat ≤ rd.rest.length) :
    m.Parse lib rd =
      parseEventJSON lib
        { m with Body := rd.rest.take L.toNat, Type_ := "text/event-json".toList } := by
  have hS : rd.hdr.Get "Content-Type".toList ∈ AvailableMessageTypes := by
    rw [hT]; decide
  rw [Parse_supported lib m rd _ hE (readBody_declared lib m rd.hdr rd.rest L hL h0 hmax hlen) hS]
  simp only [hT, ne_eq, not_true_eq_false, if_false, Outcome.bind]
  rw [dispatch_json lib _ rd.hdr rfl]

theorem parseEventJSON_total (lib : Lib) (m : Message) (decoded : List (GoString × JSONValue))
    (hU : lib.Unmarshal m.Body = .ok decoded) : ∃ m2, parseEventJSON lib m = .ok m2 := by
  simp only [parseEventJSON, hU]
  (repeat' split) <;>
    first
    | exact ⟨_, rfl⟩
    | exact (parseReply_total _ _).imp fun _ h => h.1

theorem parseReply_spec (m : Message) (r : GoString) :
    ∃ m1, m.parseReply r = .ok m1 ∧ m1.Headers = m.Headers ∧ m1.Body = m.Body ∧
      m1.UUID = m.Headers.get "job-uuid".toList ∧
      (Contains r "-ERR".toList = true →
        m1.State = "err".toList ∧
        (5 < r.length → m1.Data = Trim (r.drop 5) "\n".toList) ∧
        (r.length ≤ 5 → m1.Data = m.Data)) ∧
      (Contains r "-ERR".toList = false →
        (Contains r "-OK".toList = true ∨ Contains r "+OK".toList = true) →
        m1.State = "ok".toList ∧
        (4 < r.length → m1.Data = Trim (r.drop 4) "\n".toList) ∧
        (r.length ≤ 4 → m1.Data = m.Data)) ∧
      (Contains r "-ERR".toList = false → Contains r "-OK".toList = false →
        Contains r "+OK".toList = false → m1.State = m.State ∧ m1.Data = m.Data) := by
  cases h1 : Contains r "-ERR".toList
  · by_cases h2 : Contains r "-OK".toList = true ∨ Contains r "+OK".toList = true
    · have hno : ¬ (Contains r "-OK".toList = false ∧ Contains r "+OK".toList = false) := by
        rintro ⟨ha, hb⟩
        rcases h2 with h | h
        · rw [ha] at h; cases h
        · rw [hb] at h; cases h
      by_cases h4 : 4 < r.length
      · refine ⟨_, parseReply_ok_long m r h1 h2 h4, rfl, rfl, rfl, ?_, ?_, ?_⟩
        · intro h; cases h
        · intro _ _
          exact ⟨rfl, fun _ => rfl, fun h => absurd h (by omega)⟩
        · intro _ ha hb
          exact absurd ⟨ha, hb⟩ hno
      · refine ⟨_, parseReply_ok_short m r h1 h2 (by omega), rfl, rfl, rfl, ?_, ?_, ?_⟩
        · intro h; cases h
        · intro _ _
          exact ⟨rfl, fun h => absurd h h4, fun _ => rfl⟩
        · intro _ ha hb
          exact absurd ⟨ha, hb⟩ hno
    · have ha : Contains r "-OK".toList = false := by
        cases h : Contains r "-OK".toList
        · rfl
        · exact absurd (Or.inl h) h2
      have hb : Contains r "+OK".toList = false := by
        cases h : Contains r "+OK".toList
        · rfl
        · exact absurd (Or.inr h) h2
      refine ⟨_, parseReply_neither m r h1 ha hb, rfl, rfl, rfl, ?_, ?_, ?_⟩
      · intro h; cases h
      · intro _ h; exact absurd h h2
      · intro _ _ _
        exact ⟨rfl, rfl⟩
  · by_cases h5 : 5 < r.length
    · refine ⟨_, parseReply_err_long m r h1 h5, rfl, rfl, rfl, ?_, ?_, ?_⟩
      · intro _
        exact ⟨rfl, fun _ => rfl, fun h => absurd h (by omega)⟩
      · intro h; cases h
      · intro h; cases h
    · refine ⟨_, parseReply_err_short m r h1 (by omega), rfl, rfl, rfl, ?_, ?_, ?_⟩
      · intro _
        exact ⟨rfl, fun h => absurd h h5, fun _ => rfl⟩
      · intro h; cases h
      · intro h; cases h

theorem StrMap.length_set_le (h : StrMap) (k v : GoString) :
    (h.set k v).length ≤ h.length + 1 := by
  simp only [StrMap.set, List.length_cons, Nat.add_le_add_iff_right]
  exact List.length_filter_le _ _

theorem length_copyJSON (decoded : List (GoString × JSONValue)) (h : StrMap) :
    (copyJSON decoded h).length ≤
      h.length + (decoded.filter (fun e => e.2.isString)).length := by
  induction decoded generalizing h with
  | nil => exact Nat.le_refl _
  | cons e t ih =>
    obtain ⟨name, val⟩ := e
    rw [copyJSON_cons]
    cases val with
    | string w =>
      have h1 := ih (h.set (ToLower name) w)
      have h2 := StrMap.length_set_le h (ToLower name) w
      simp only [List.filter_cons, JSONValue.isString, if_true, List.length_cons] at h1 ⊢
      omega
    | null =>
      have h1 := ih h
      simp only [List.filter_cons, JSONValue.isString, Bool.false_eq_true, if_false] at h1 ⊢
      exact h1
    | bool b =>
      have h1 := ih h
      simp only [List.filter_cons, JSONValue.isString, Bool.false_eq_true, if_false] at h1 ⊢
      exact h1
    | number l =>
      have h1 := ih h
      simp only [List.filter_cons, JSONValue.isString, Bool.false_eq_true, if_false] at h1 ⊢
      exact h1
    | array xs =>
      have h1 := ih h
      simp only [List.filter_cons, JSONValue.isString, Bool.false_eq_true, if_false] at h1 ⊢
      exact h1
    | object ms =>
      have h1 := ih h
      simp only [List.filter_cons, JSONValue.isString, Bool.false_eq_true, if_false] at h1 ⊢
      exact h1

/-- C5 (amended): a `text/event-json` frame whose body `json.Unmarshal` decodes is decoded
without error whatever the types of the member values, and the resulting header map has no more
entries than the object has members whose value is a JSON string, so the members of other types
contribute none; when the member names are ASCII, every key of the header map is the lower-cased
name of a member whose value is a JSON string. -/
theorem Parse_json_string_members (lib : Lib) (rd : MIMERead) (L : Int)
    (members : List (GoString × JSONValue))
    (hE : rd.err.filter (fun t => t ≠ "EOF".toList) = none)
    (hT : rd.hdr.Get "Content-Type".toList = "text/event-json".toList)
    (hL : Atoi (rd.hdr.Get "Content-Length".toList) = some L) (h0 : 0 ≤ L)
    (hmax : L ≤ (maxAlloc lib.memory : Int)) (hlen : L.toNat ≤ rd.rest.length)
    (hU : lib.Unmarshal (rd.rest.take L.toNat) = .ok members) :
    ∃ m2, NewMessage lib rd true = .ok m2 ∧
      m2.Headers.length ≤ (members.filter (fun e => e.2.isString)).length ∧
      ((∀ e ∈ members, ∀ c ∈ e.1, c.toNat < 128) →
        ∀ k ∈ m2.Headers.keys,
          ∃ name v, (name, JSONValue.string v) ∈ members ∧ ToLower name = k) := by
  have hP : NewMessage lib rd true = parseEventJSON lib
      { Message.fresh with Body := rd.rest.take L.toNat, Type_ := "text/event-json".toList } :=
    Parse_json_eq lib Message.fresh rd L hE hT hL h0 hmax hlen
  obtain ⟨m2, hm2⟩ := parseEventJSON_total lib
    { Message.fresh with Body := rd.rest.take L.toNat, Type_ := "text/event-json".toList }
    members hU
  refine ⟨m2, by rw [hP, hm2], ?_, ?_⟩
  · obtain ⟨decoded, hU2, _, hne, heq⟩ := parseEventJSON_ok lib _ m2 hm2
    have hd : decoded = members := by
      have : Except.ok decoded = (Except.ok members : Except GoString _) := by
        rw [← hU2]; exact hU
      cases this
      rfl
    subst hd
    have hC := length_copyJSON decoded []
    rw [List.length_nil, Nat.zero_add] at hC
    by_cases hv : (copyJSON decoded []).get "_body".toList = []
    · rw [heq hv]
      exact hC
    · rw [hne hv]
      exact Nat.le_trans (List.length_filter_le _ _) hC
  · intro _
    obtain ⟨decoded, hU2, _, hne, heq⟩ := parseEventJSON_ok lib _ m2 hm2
    have hd : decoded = members := by
      have : Except.ok decoded = (Except.ok members : Except GoString _) := by
        rw [← hU2]; exact hU
      cases this
      rfl
    subst hd
    have hC : ∀ k ∈ (copyJSON decoded []).keys,
        ∃ name v, (name, JSONValue.string v) ∈ decoded ∧ ToLower name = k := by
      intro k hk
      rcases mem_keys_copyJSON decoded [] k hk with h1 | h1
      · cases h1
      · exact h1
    intro k hk
    by_cases hv : (copyJSON decoded []).get "_body".toList = []
    · rw [heq hv] at hk
      exact hC k hk
    · rw [hne hv] at hk
      exact hC k ((StrMap.mem_keys_delete _ _ _).mp hk).2

theorem Parse_json_string_members_witness :
    Atoi (jsonMixedFrame.hdr.Get "Content-Length".toList) = some 46 ∧
    ∃ m2, NewMessage exampleLib jsonMixedFrame true = .ok m2 ∧
      m2.Headers.length ≤ 1 ∧
      ∀ k ∈ m2.Headers.keys,
        ∃ name v, (name, JSONValue.string v) ∈
          [("Event-Name".toList, JSONValue.string "CUSTOM".toList),
           ("Tags".toList, .array [.string "a".toList, .string "b".toList]),
           ("n".toList, .number "1".toList)] ∧ ToLower name = k := by
  obtain ⟨m2, hm2, hlen, hkeys⟩ :=
    Parse_json_string_members exampleLib jsonMixedFrame 46 _ (by decide) (by decide)
      (by decide) (by decide) (by decide) (by decide) (by rfl)
  exact ⟨by decide, m2, hm2, hlen, hkeys (by decide)⟩

/-- C5 (counterexample): the `text/event-json` frame whose body is the valid JSON object with
the one member `n`, the number `1e999`, is not decoded: `Parse` returns the error of
`json.Unmarshal`, which cannot store that number. -/
theorem Parse_json_number_out_of_range :
    jsonHugeNumberFrame.rest = "\x7b\"n\":1e999\x7d".toList ∧
    NewMessage exampleLib jsonHugeNumberFrame true =
      .error (.json
        "json: cannot unmarshal number 1e999 into Go value of type float64".toList) := by
  decide

theorem parseEventJSON_nonempty_body (lib : Lib) (m : Message)
    (members : List (GoString × JSONValue)) (hU : lib.Unmarshal m.Body = .ok members)
    (hv : (copyJSON members m.Headers).get "_body".toList ≠ []) :
    parseEventJSON lib m =
      if (copyJSON members m.Headers).get "event-name".toList = BACKGROUND_JOB then
        Message.parseReply
          { deriveFields { m with Headers := copyJSON members m.Headers } with
            Body := (copyJSON members m.Headers).get "_body".toList
            Headers := (copyJSON members m.Headers).delete "_body".toList
            UUID := ((copyJSON members m.Headers).delete "_body".toList).get "job-uuid".toList }
          ((copyJSON members m.Headers).get "_body".toList)
      else
        .ok { deriveFields { m with Headers := copyJSON members m.Headers } with
              Body := (copyJSON members m.Headers).get "_body".toList
              Headers := (copyJSON members m.Headers).delete "_body".toList } := by
  have hv1 : (deriveFields { m with Headers := copyJSON members m.Headers }).Headers.get
      "_body".toList ≠ [] := hv
  simp only [parseEventJSON, hU, ne_eq, hv1, not_false_eq_true, if_true]
  rfl

theorem parseEventJSON_empty_body (lib : Lib) (m : Message)
    (members : List (GoString × JSONValue)) (hU : lib.Unmarshal m.Body = .ok members)
    (hv : (copyJSON members m.Headers).get "_body".toList = []) :
    parseEventJSON lib m =
      if (copyJSON members m.Headers).get "event-name".toList = BACKGROUND_JOB then
        Message.parseReply
          { deriveFields { m with Headers := copyJSON members m.Headers } with
            Body := []
            UUID := (copyJSON members m.Headers).get "job-uuid".toList } []
      else
        .ok { deriveFields { m with Headers := copyJSON members m.Headers } with Body := [] } := by
  have hv1 : (deriveFields { m with Headers := copyJSON members m.Headers }).Headers.get
      "_body".toList = [] := hv
  simp only [parseEventJSON, hU, ne_eq, hv1, not_true_eq_false, if_false]
  rfl

/-- C6 (amended): a `text/event-json` frame whose body `json.Unmarshal` decodes, into an object
that gives `event-name` the background-job name, `job-uuid` the value `X` and `_body` the value
`B`, is decoded without error; when the member names of the object are ASCII, the result has
UUID `X`, body `B`, no `_body` header (for a non-empty `B`), and state and data as `parseReply`
derives them from `B`: for `B` with `-ERR` the state `err` and, for `B` with `-OK` or `+OK`
otherwise, the state `ok`, the data being `B` without its first 5, respectively 4, bytes and
without the line feeds at the ends of what remains (empty for a `B` not longer than that); for
`B` with none of the three, the state is the value of the header `answer-state` (the value the
object gives it, empty without one) and the data is empty. -/
theorem Parse_json_background_job (lib : Lib) (rd : MIMERead) (L : Int)
    (members : List (GoString × JSONValue)) (X B : GoString)
    (hE : rd.err.filter (fun t => t ≠ "EOF".toList) = none)
    (hT : rd.hdr.Get "Content-Type".toList = "text/event-json".toList)
    (hL : Atoi (rd.hdr.Get "Content-Length".toList) = some L) (h0 : 0 ≤ L)
    (hmax : L ≤ (maxAlloc lib.memory : Int)) (hlen : L.toNat ≤ rd.rest.length)
    (hU : lib.Unmarshal (rd.rest.take L.toNat) = .ok members)
    (hEv : StringField members "event-name".toList BACKGROUND_JOB)
    (hJob : StringField members "job-uuid".toList X)
    (hBody : StringField members "_body".toList B) :
    ∃ m2, NewMessage lib rd true = .ok m2 ∧
      ((∀ e ∈ members, ∀ c ∈ e.1, c.toNat < 128) →
        m2.UUID = X ∧ m2.Body = B ∧
        (B ≠ [] → "_body".toList ∉ m2.Headers.keys) ∧
        (Contains B "-ERR".toList = true →
          m2.State = "err".toList ∧
          (5 < B.length → IsTrimOf "\n".toList (B.drop 5) m2.Data) ∧
          (B.length ≤ 5 → m2.Data = [])) ∧
        (Contains B "-ERR".toList = false →
          (Contains B "-OK".toList = true ∨ Contains B "+OK".toList = true) →
          m2.State = "ok".toList ∧
          (4 < B.length → IsTrimOf "\n".toList (B.drop 4) m2.Data) ∧
          (B.length ≤ 4 → m2.Data = [])) ∧
        (Contains B "-ERR".toList = false → Contains B "-OK".toList = false →
          Contains B "+OK".toList = false →
          m2.State = m2.Headers.get "answer-state".toList ∧
          (∀ s, StringField members "answer-state".toList s → m2.State = s) ∧
          ((∀ name w, (name, JSONValue.string w) ∈ members →
              ToLower name ≠ "answer-state".toList) → m2.State = []) ∧
          m2.Data = [])) := by
  have hP0 : ∃ m0 : Message, NewMessage lib rd true = parseEventJSON lib m0 ∧
      m0.Headers = [] ∧ m0.Body = rd.rest.take L.toNat ∧ m0.Data = [] :=
    ⟨_, Parse_json_eq lib Message.fresh rd L hE hT hL h0 hmax hlen, rfl, rfl, rfl⟩
  obtain ⟨m0, hP, hH0, hB0, hD0⟩ := hP0
  have hU0 : lib.Unmarshal m0.Body = .ok members := by rw [hB0]; exact hU
  have gEv : (copyJSON members m0.Headers).get "event-name".toList = BACKGROUND_JOB := by
    rw [hH0]; exact get_copyJSON_field members _ _ hEv
  have gJob : (copyJSON members m0.Headers).get "job-uuid".toList = X := by
    rw [hH0]; exact get_copyJSON_field members _ _ hJob
  have gBody : (copyJSON members m0.Headers).get "_body".toList = B := by
    rw [hH0]; exact get_copyJSON_field members _ _ hBody
  have key : ∃ mA : Message, NewMessage lib rd true = mA.parseReply B ∧
      mA.Headers.get "job-uuid".toList = X ∧ mA.Data = [] ∧ mA.Body = B ∧
      (B ≠ [] → "_body".toList ∉ mA.Headers.keys) ∧
      mA.State = (copyJSON members []).get "answer-state".toList ∧
      mA.Headers.get "answer-state".toList =
        (copyJSON members []).get "answer-state".toList := by
    by_cases hB : B = []
    · have hv : (copyJSON members m0.Headers).get "_body".toList = [] := by
        rw [← hB]; exact gBody
      refine ⟨{ deriveFields { m0 with Headers := copyJSON members m0.Headers } with
                Body := []
                UUID := (copyJSON members m0.Headers).get "job-uuid".toList },
              ?_, ?_, ?_, ?_, ?_, ?_, ?_⟩
      · rw [hP, parseEventJSON_empty_body lib _ members hU0 hv, if_pos gEv, hB]
      · exact gJob
      · exact hD0
      · exact hB.symm
      · intro hne; exact absurd hB hne
      · rw [← hH0]; rfl
      · rw [← hH0]; rfl
    · have hv : (copyJSON members m0.Headers).get "_body".toList ≠ [] := by
        intro hc
        exact hB (gBody.symm.trans hc)
      refine ⟨{ deriveFields { m0 with Headers := copyJSON members m0.Headers } with
                Body := (copyJSON members m0.Headers).get "_body".toList
                Headers := (copyJSON members m0.Headers).delete "_body".toList
                UUID := ((copyJSON members m0.Headers).delete "_body".toList).get
                  "job-uuid".toList },
              ?_, ?_, ?_, ?_, ?_, ?_, ?_⟩
      · rw [hP, parseEventJSON_nonempty_body lib _ members hU0 hv, if_pos gEv]
        exact congrArg _ gBody
      · have hne : "job-uuid".toList ≠ "_body".toList := by decide
        exact (StrMap.get_delete_ne _ _ _ hne).trans gJob
      · exact hD0
      · exact gBody
      · intro _ hmem
        exact ((StrMap.mem_keys_delete _ _ _).mp hmem).1 rfl
      · rw [← hH0]; rfl
      · have hne : "answer-state".toList ≠ "_body".toList := by decide
        rw [← hH0]
        exact StrMap.get_delete_ne _ _ _ hne
  obtain ⟨mA, hA1, hAj, hAd, hAb, hAk, hAs, hAh⟩ := key
  obtain ⟨m2, hm2, hH, hBd, hUU, hErr, hOk, hNo⟩ := parseReply_spec mA B
  refine ⟨m2, hA1.trans hm2, fun _ => ⟨hUU.trans hAj, hBd.trans hAb, ?_, ?_, ?_, ?_⟩⟩
  · intro hne
    rw [hH]
    exact hAk hne
  · intro h
    obtain ⟨h1, h2, h3⟩ := hErr h
    exact ⟨h1, fun hl => (h2 hl) ▸ Trim_spec _ _, fun hl => (h3 hl).trans hAd⟩
  · intro h h'
    obtain ⟨h1, h2, h3⟩ := hOk h h'
    exact ⟨h1, fun hl => (h2 hl) ▸ Trim_spec _ _, fun hl => (h3 hl).trans hAd⟩
  · intro ha hb hc
    obtain ⟨h1, h2⟩ := hNo ha hb hc
    have hS : m2.State = (copyJSON members []).get "answer-state".toList := h1.trans hAs
    refine ⟨?_, ?_, ?_, h2.trans hAd⟩
    · rw [hS, hH, hAh]
    · intro s hF
      rw [hS]
      exact get_copyJSON_field members _ _ hF
    · intro hno
      rw [hS]
      apply StrMap.get_of_not_mem_keys
      intro hmem
      rcases mem_keys_copyJSON members [] _ hmem with h3 | ⟨name, w, hm, hn⟩
      · cases h3
      · exact hno name w hm hn

theorem jobMembers_field (k v : GoString) (hm : (k, JSONValue.string v) ∈ jobMembers) :
    StringField jobMembers k v := by
  have hk : ToLower k = k := by
    simp only [jobMembers, List.mem_cons, Prod.mk.injEq, JSONValue.string.injEq,
      List.not_mem_nil, or_false] at hm
    rcases hm with ⟨rfl, _⟩ | ⟨rfl, _⟩ | ⟨rfl, _⟩ <;> decide
  refine ⟨⟨k, hm, hk⟩, ?_⟩
  intro name w hw hn
  simp only [jobMembers, List.mem_cons, Prod.mk.injEq, JSONValue.string.injEq,
    List.not_mem_nil, or_false] at hm hw
  rcases hm with ⟨rfl, rfl⟩ | ⟨rfl, rfl⟩ | ⟨rfl, rfl⟩ <;>
    rcases hw with ⟨rfl, rfl⟩ | ⟨rfl, rfl⟩ | ⟨rfl, rfl⟩ <;>
    first
    | rfl
    | exact absurd hn (by decide)

theorem jobLineMembers_field (k v : GoString)
    (hm : (k, JSONValue.string v) ∈ jobLineMembers) : StringField jobLineMembers k v := by
  have hk : ToLower k = k := by
    simp only [jobLineMembers, List.mem_cons, Prod.mk.injEq, JSONValue.string.injEq,
      List.not_mem_nil, or_false] at hm
    rcases hm with ⟨rfl, _⟩ | ⟨rfl, _⟩ | ⟨rfl, _⟩ <;> decide
  refine ⟨⟨k, hm, hk⟩, ?_⟩
  intro name w hw hn
  simp only [jobLineMembers, List.mem_cons, Prod.mk.injEq, JSONValue.string.injEq,
    List.not_mem_nil, or_false] at hm hw
  rcases hm with ⟨rfl, rfl⟩ | ⟨rfl, rfl⟩ | ⟨rfl, rfl⟩ <;>
    rcases hw with ⟨rfl, rfl⟩ | ⟨rfl, rfl⟩ | ⟨rfl, rfl⟩ <;>
    first
    | rfl
    | exact absurd hn (by decide)

theorem Parse_json_background_job_witness :
    (StringField jobMembers "_body".toList "+OK done".toList ∧
      ∃ m2, NewMessage exampleLib jsonJobFrame true = .ok m2 ∧ m2.UUID = "X".toList ∧
        m2.Body = "+OK done".toList ∧ m2.State = "ok".toList ∧ m2.Data = "done".toList ∧
        "_body".toList ∉ m2.Headers.keys) ∧
    (StringField jobLineMembers "_body".toList "+OK done\n".toList ∧
      ∃ m2, NewMessage exampleLib jsonJobLineFrame true = .ok m2 ∧ m2.UUID = "X".toList ∧
        m2.Body = "+OK done\n".toList ∧ m2.State = "ok".toList ∧ m2.Data = "done".toList ∧
        "_body".toList ∉ m2.Headers.keys) := by
  constructor
  · have hEv : StringField jobMembers "event-name".toList BACKGROUND_JOB :=
      jobMembers_field _ _ (by simp [jobMembers, BACKGROUND_JOB])
    have hJob : StringField jobMembers "job-uuid".toList "X".toList :=
      jobMembers_field _ _ (by simp [jobMembers])
    have hBody : StringField jobMembers "_body".toList "+OK done".toList :=
      jobMembers_field _ _ (by simp [jobMembers])
    obtain ⟨m2, hm2, hAll⟩ :=
      Parse_json_background_job exampleLib jsonJobFrame 65 jobMembers "X".toList
        "+OK done".toList
        (by decide) (by decide) (by decide) (by decide) (by decide) (by decide) (by rfl)
        hEv hJob hBody
    obtain ⟨hUU, hB, hK, _, hOk, _⟩ := hAll (by decide)
    have h3 := hOk (by decide) (Or.inr (by decide))
    have hD : m2.Data = Trim ("+OK done".toList.drop 4) "\n".toList :=
      IsTrimOf_eq _ _ _ (h3.2.1 (by decide))
    exact ⟨hBody, m2, hm2, hUU, hB, h3.1, hD.trans (by decide), hK (by decide)⟩
  · have hEv : StringField jobLineMembers "event-name".toList BACKGROUND_JOB :=
      jobLineMembers_field _ _ (by simp [jobLineMembers, BACKGROUND_JOB])
    have hJob : StringField jobLineMembers "job-uuid".toList "X".toList :=
      jobLineMembers_field _ _ (by simp [jobLineMembers])
    have hBody : StringField jobLineMembers "_body".toList "+OK done\n".toList :=
      jobLineMembers_field _ _ (by simp [jobLineMembers])
    obtain ⟨m2, hm2, hAll⟩ :=
      Parse_json_background_job exampleLib jsonJobLineFrame 67 jobLineMembers "X".toList
        "+OK done\n".toList
        (by decide) (by decide) (by decide) (by decide) (by decide) (by decide) (by rfl)
        hEv hJob hBody
    obtain ⟨hUU, hB, hK, _, hOk, _⟩ := hAll (by decide)
    have h3 := hOk (by decide) (Or.inr (by decide))
    have hD : m2.Data = Trim ("+OK done\n".toList.drop 4) "\n".toList :=
      IsTrimOf_eq _ _ _ (h3.2.1 (by decide))
    exact ⟨hBody, m2, hm2, hUU, hB, h3.1, hD.trans (by decide), hK (by decide)⟩

/-- C6 (counterexample): the `text/event-json` frame whose body is the background-job object of
the specification (`event-name` `BACKGROUND_JOB`, `job-uuid` `X`, `_body` `+OK done`) with the
further member `n`, the number `1e999`, is not decoded: `Parse` returns the error of
`json.Unmarshal`, and no message with UUID `X`. -/
theorem Parse_json_background_job_number_out_of_range :
    jsonJobHugeNumberFrame.rest =
      "\x7b\"event-name\":\"BACKGROUND_JOB\",\"job-uuid\":\"X\",\"_body\":\"+OK done\",\"n\":1e999\x7d".toList ∧
    NewMessage exampleLib jsonJobHugeNumberFrame true =
      .error (.json
        "json: cannot unmarshal number 1e999 into Go value of type float64".toList) := by
  decide

/-- C7 (amended): a `text/event-json` frame whose body `json.Unmarshal` accepts is decoded
without error.  If the object gives `_body` (a string member named `_body` in any letter case)
the value `v`, the body is `v`, and the key `_body` is absent from the headers when `v` is not
empty, but present when `v` is empty.  If the object has no such member, the body is empty and
the key `_body` is absent. -/
theorem Parse_json_body_member (lib : Lib) (rd : MIMERead) (L : Int)
    (members : List (GoString × JSONValue))
    (hE : rd.err.filter (fun t => t ≠ "EOF".toList) = none)
    (hT : rd.hdr.Get "Content-Type".toList = "text/event-json".toList)
    (hL : Atoi (rd.hdr.Get "Content-Length".toList) = some L) (h0 : 0 ≤ L)
    (hmax : L ≤ (maxAlloc lib.memory : Int)) (hlen : L.toNat ≤ rd.rest.length)
    (hU : lib.Unmarshal (rd.rest.take L.toNat) = .ok members) :
    ∃ m2, NewMessage lib rd true = .ok m2 ∧
      (∀ v, StringField members "_body".toList v →
        m2.Body = v ∧ (v ≠ [] → "_body".toList ∉ m2.Headers.keys) ∧
        (v = [] → "_body".toList ∈ m2.Headers.keys)) ∧
      ((∀ name w, (name, JSONValue.string w) ∈ members → ToLower name ≠ "_body".toList) →
        m2.Body = [] ∧ "_body".toList ∉ m2.Headers.keys) := by
  have hP0 : ∃ m0 : Message, NewMessage lib rd true = parseEventJSON lib m0 ∧
      m0.Headers = [] ∧ m0.Body = rd.rest.take L.toNat :=
    ⟨_, Parse_json_eq lib Message.fresh rd L hE hT hL h0 hmax hlen, rfl, rfl⟩
  obtain ⟨m0, hP, hH0, hB0⟩ := hP0
  have hU0 : lib.Unmarshal m0.Body = .ok members := by rw [hB0]; exact hU
  obtain ⟨m2, hm2⟩ := parseEventJSON_total lib m0 members hU0
  obtain ⟨decoded, hU2, hBody, hne, heq⟩ := parseEventJSON_ok lib m0 m2 hm2
  have hd : decoded = members := by
    have : Except.ok decoded = (Except.ok members : Except GoString _) := by
      rw [← hU2]; exact hU0
    cases this
    rfl
  subst hd
  rw [hH0] at hBody hne heq
  refine ⟨m2, hP.trans hm2, ?_, ?_⟩
  · intro v hF
    have hg : (copyJSON decoded []).get "_body".toList = v := get_copyJSON_field decoded _ _ hF
    refine ⟨hBody.trans hg, ?_, ?_⟩
    · intro hv hmem
      rw [hne (by rw [hg]; exact hv)] at hmem
      exact ((StrMap.mem_keys_delete _ _ _).mp hmem).1 rfl
    · intro hv
      rw [heq (by rw [hg]; exact hv)]
      obtain ⟨name, hm, hn⟩ := hF.1
      exact mem_keys_copyJSON_of_mem decoded [] _ (Or.inr ⟨name, v, hm, hn⟩)
  · intro hno
    have hnk : "_body".toList ∉ (copyJSON decoded []).keys := by
      intro hmem
      rcases mem_keys_copyJSON decoded [] _ hmem with h1 | ⟨name, w, hm, hn⟩
      · cases h1
      · exact hno name w hm hn
    have hg : (copyJSON decoded []).get "_body".toList = [] :=
      StrMap.get_of_not_mem_keys _ _ hnk
    refine ⟨hBody.trans hg, ?_⟩
    rw [heq hg]
    exact hnk

theorem Parse_json_body_member_witness :
    Atoi (jsonJobFrame.hdr.Get "Content-Length".toList) = some 65 ∧
    ∃ m2, NewMessage exampleLib jsonJobFrame true = .ok m2 ∧
      m2.Body = "+OK done".toList ∧ "_body".toList ∉ m2.Headers.keys := by
  obtain ⟨m2, hm2, hS, _⟩ :=
    Parse_json_body_member exampleLib jsonJobFrame 65 jobMembers
      (by decide) (by decide) (by decide) (by decide) (by decide) (by decide) (by rfl)
  have h := hS "+OK done".toList (jobMembers_field _ _ (by simp [jobMembers]))
  exact ⟨by decide, m2, hm2, h.1, h.2.1 (by decide)⟩

/-- C7 (counterexample): the `text/event-json` frame whose object is `_body` with the empty
string as value is decoded without error, and the header map of the result still has the key
`_body`. -/
theorem Parse_json_empty_body_keeps_header :
    ∃ m2, NewMessage exampleLib jsonEmptyBodyFrame true = .ok m2 ∧
      m2.Headers = [("_body".toList, [])] ∧ m2.Body = [] ∧
      "_body".toList ∈ m2.Headers.keys := by
  have h : NewMessage exampleLib jsonEmptyBodyFrame true =
      .ok { Message.fresh with Headers := [("_body".toList, [])],
                               Type_ := "text/event-json".toList } := by decide
  exact ⟨_, h, rfl, rfl, by decide⟩

/-! ## The event-plain case (C8) -/

/-- C8 (amended): when `NewMessage` decodes a `text/event-plain` frame without error, the frame
has a body, the nested header block of that body was read without error, and the body of the
decoded message is the `N` bytes that follow the nested block when that block declares
`Content-Length` `N`; when the nested block declares no `Content-Length`, the body is left as it
was read, nested header text included. -/
theorem Parse_plain_body (lib : Lib) (rd : MIMERead) (m2 : Message)
    (hT : rd.hdr.Get "Content-Type".toList = "text/event-plain".toList)
    (hP : NewMessage lib rd true = .ok m2) :
    ∃ body : GoString,
      ((rd.hdr.Get "Content-Length".toList = [] ∧ body = []) ∨
        ∃ L : Int, Atoi (rd.hdr.Get "Content-Length".toList) = some L ∧
          body = rd.rest.take L.toNat) ∧
      (lib.ReadMIMEHeader body).err = none ∧
      ((lib.ReadMIMEHeader body).hdr.Get "Content-Length".toList = [] → m2.Body = body) ∧
      (∀ N : Int, Atoi ((lib.ReadMIMEHeader body).hdr.Get "Content-Length".toList) = some N →
        m2.Body = (lib.ReadMIMEHeader body).rest.take N.toNat ∧ (m2.Body.length : Int) = N) := by
  have hJ : rd.hdr.Get "Content-Type".toList ≠ "text/event-json".toList := by
    rw [hT]; decide
  obtain ⟨m1, m3, hB, _, hBd, hTy, hD⟩ := Parse_nonjson_ok lib Message.fresh rd m2 hJ hP
  have hT3 : m3.Type_ = "text/event-plain".toList := by rw [hTy, hT]
  rw [dispatch_plain lib m3 rd.hdr hT3] at hD
  obtain ⟨hErr, hR⟩ := parseEventPlain_ok lib m3 m2 hD
  refine ⟨m3.Body, ?_, hErr, ?_, ?_⟩
  · rw [hBd]
    rcases readBody_ok _ _ _ _ _ hB with ⟨hlv, rfl⟩ | ⟨l, hA, _, _, _, rfl⟩
    · exact Or.inl ⟨hlv, rfl⟩
    · exact Or.inr ⟨l, hA, rfl⟩
  · intro hN
    rw [readBody_absent _ _ _ _ hN] at hR
    cases hR
    rfl
  · intro N hN
    rcases readBody_ok _ _ _ _ _ hR with ⟨hlv, _⟩ | ⟨l, hA, h0, _, hlen, rfl⟩
    · rw [hlv, Atoi_nil] at hN
      cases hN
    · rw [hN] at hA
      cases hA
      refine ⟨rfl, ?_⟩
      show (((lib.ReadMIMEHeader m3.Body).rest.take N.toNat).length : Int) = N
      rw [List.length_take, Nat.min_eq_left hlen]
      exact Int.toNat_of_nonneg h0

theorem Parse_plain_body_witness :
    plainPayloadFrame.hdr.Get "Content-Type".toList = "text/event-plain".toList ∧
    ∃ m2, NewMessage exampleLib plainPayloadFrame true = .ok m2 ∧ m2.Body = "abc".toList ∧
      (m2.Body.length : Int) = 3 := by
  have h : ∃ m2, NewMessage exampleLib plainPayloadFrame true = .ok m2 :=
    ⟨{ Message.fresh with
        Headers := [("content-length".toList, "44".toList),
                    ("content-type".toList, "text/event-plain".toList)],
        Body := "abc".toList, Type_ := "text/event-plain".toList }, by decide⟩
  obtain ⟨m2, hm2⟩ := h
  obtain ⟨body, hb, _, _, hN⟩ := Parse_plain_body exampleLib plainPayloadFrame m2 (by decide) hm2
  have hbody : body = "Event-Name: CUSTOM\r\nContent-Length: 3\r\n\r\nabc".toList := by
    rcases hb with ⟨h0, _⟩ | ⟨L, hL, hbL⟩
    · exact absurd h0 (by decide)
    · have h44 : Atoi (plainPayloadFrame.hdr.Get "Content-Length".toList) = some 44 := by decide
      rw [h44] at hL
      cases hL
      rw [hbL]
      decide
  subst hbody
  have h3 := hN 3 (by decide)
  exact ⟨by decide, m2, hm2, h3.1.trans (by decide), h3.2⟩

/-- C8 (counterexample): a `text/event-plain` frame whose nested header block declares no
`Content-Length` is decoded without error, and the body of the decoded message is the whole
nested header text, not the empty payload. -/
theorem Parse_plain_without_length_keeps_block :
    (exampleLib.ReadMIMEHeader plainBareFrame.rest).hdr.Get "Content-Length".toList = [] ∧
    ∃ m2, NewMessage exampleLib plainBareFrame true = .ok m2 ∧
      m2.Body = "Event-Name: CUSTOM\r\n\r\n".toList ∧ m2.Body ≠ [] := by
  have h : NewMessage exampleLib plainBareFrame true =
      .ok { Message.fresh with
            Headers := [("content-length".toList, "22".toList),
                        ("content-type".toList, "text/event-plain".toList)],
            Body := "Event-Name: CUSTOM\r\n\r\n".toList,
            Type_ := "text/event-plain".toList } := by decide
  exact ⟨by decide, _, h, rfl, by decide⟩

/-! ## Percent-decoding (C9) -/

/-- C9 (the code at the failing input): for a `command/reply` frame with the header values
`100%` and `%zz`, which `url.QueryUnescape` rejects, `NewMessage` returns no error, but the
header map holds the empty string for both headers, not the values received; the well-formed
`a%20b` is decoded. -/
theorem Parse_bad_percent_value_is_emptied :
    QueryUnescape "100%".toList = none ∧ QueryUnescape "%zz".toList = none ∧
    ∃ m2, NewMessage exampleLib percentFrame true = .ok m2 ∧
      "x-rate".toList ∈ m2.Headers.keys ∧ m2.Headers.get "x-rate".toList = [] ∧
      "x-raw".toList ∈ m2.Headers.keys ∧ m2.Headers.get "x-raw".toList = [] ∧
      m2.Headers.get "x-enc".toList = "a b".toList := by
  have h : NewMessage exampleLib percentFrame true =
      .ok { Message.fresh with
            Headers := [("x-enc".toList, "a b".toList), ("x-raw".toList, []),
                        ("x-rate".toList, []), ("reply-text".toList, "+OK".toList),
                        ("content-type".toList, "command/reply".toList)],
            Type_ := "command/reply".toList, State := "ok".toList } := by decide
  exact ⟨by decide, by decide, _, h, by decide, by decide, by decide, by decide, by decide⟩

/-! ## Duplicate header names (C10) -/

theorem eq_of_toNat_eq (a b : Char) (h : a.toNat = b.toNat) : a = b := by
  rw [← Char.ofNat_toNat a, ← Char.ofNat_toNat b, h]

theorem lowerByte_toNat (c : Char) :
    (lowerByte c).toNat = if 65 ≤ c.toNat ∧ c.toNat ≤ 90 then c.toNat + 32 else c.toNat := by
  unfold lowerByte
  split
  · rename_i h
    exact toNat_ofNat_byte _ (by omega)
  · rfl

theorem upperByte_toNat (c : Char) :
    (upperByte c).toNat = if 97 ≤ c.toNat ∧ c.toNat ≤ 122 then c.toNat - 32 else c.toNat := by
  unfold upperByte
  split
  · rename_i h
    exact toNat_ofNat_byte _ (by omega)
  · rfl

theorem lowerByte_upperByte (c : Char) : lowerByte (upperByte c) = lowerByte c := by
  apply eq_of_toNat_eq
  simp only [lowerByte_toNat, upperByte_toNat]
  split_ifs <;> omega

theorem upperByte_lowerByte (c : Char) : upperByte (lowerByte c) = upperByte c := by
  apply eq_of_toNat_eq
  simp only [lowerByte_toNat, upperByte_toNat]
  split_ifs <;> omega

theorem canonLoop_ToLower (u : Bool) (k : GoString) :
    canonLoop u (ToLower k) = canonLoop u k := by
  induction k generalizing u with
  | nil => rfl
  | cons c cs ih =>
    have hc : (if u = true then upperByte (lowerByte c) else lowerByte (lowerByte c)) =
        (if u = true then upperByte c else lowerByte c) := by
      cases u
      · exact lowerByte_idem c
      · exact upperByte_lowerByte c
    simp only [ToLower, List.map_cons, canonLoop]
    rw [hc]
    exact congrArg _ (ih _)

theorem ToLower_canonLoop (u : Bool) (k : GoString) : ToLower (canonLoop u k) = ToLower k := by
  induction k generalizing u with
  | nil => rfl
  | cons c cs ih =>
    have hc : lowerByte (if u = true then upperByte c else lowerByte c) = lowerByte c := by
      cases u
      · exact lowerByte_idem c
      · exact lowerByte_upperByte c
    simp only [ToLower, List.map_cons, canonLoop]
    rw [hc]
    exact congrArg _ (ih _)

theorem valid_ne_space (c : Char) (h : validHeaderFieldByte c = true) : c ≠ ' ' := by
  intro hc
  rw [hc] at h
  revert h
  decide

theorem lowerByte_ne_space (c : Char) (h : validHeaderFieldByte c = true) :
    lowerByte c ≠ ' ' := by
  intro hc
  have h1 := congrArg Char.toNat hc
  rw [lowerByte_toNat] at h1
  have h32 : (' ' : Char).toNat = 32 := by decide
  rw [h32] at h1
  by_cases hu : 65 ≤ c.toNat ∧ c.toNat ≤ 90
  · rw [if_pos hu] at h1
    omega
  · rw [if_neg hu] at h1
    have h2 : c = ' ' := eq_of_toNat_eq _ _ (by rw [h1, h32])
    exact valid_ne_space c h h2

theorem canonical_of_valid (n : GoString) (hne : n ≠ [])
    (hn : ∀ c ∈ n, validHeaderFieldByte c = true) :
    canonicalMIMEHeaderKey n = (canonLoop true n, true) := by
  have h1 : n.any (fun c => !validHeaderFieldByte c && c != ' ') = false := by
    rw [List.any_eq_false]
    intro c hc
    simp [hn c hc]
  have h2 : n.any (fun c => c == ' ') = false := by
    rw [List.any_eq_false]
    intro c hc
    simpa using valid_ne_space c (hn c hc)
  simp only [canonicalMIMEHeaderKey, hne, h1, h2, Bool.false_eq_true, if_false]

theorem ToLower_canonical (k : GoString) :
    ToLower (canonicalMIMEHeaderKey k).1 = ToLower k := by
  unfold canonicalMIMEHeaderKey
  split
  · rename_i h
    rw [h]
  · split
    · rfl
    · split
      · rfl
      · exact ToLower_canonLoop true k

theorem canonical_eq_of_lower_eq (k n : GoString)
    (hk : (canonicalMIMEHeaderKey k).2 = true)
    (hn : ∀ c ∈ n, validHeaderFieldByte c = true)
    (hl : ToLower (canonicalMIMEHeaderKey k).1 = ToLower n) :
    (canonicalMIMEHeaderKey k).1 = canonLoop true n := by
  rw [ToLower_canonical] at hl
  have h0 : k ≠ [] := by
    intro h
    rw [h] at hk
    revert hk
    decide
  by_cases h1 : k.any (fun c => !validHeaderFieldByte c && c != ' ') = true
  · simp only [canonicalMIMEHeaderKey, h0, h1, if_true, if_false] at hk
    cases hk
  · by_cases h2 : k.any (fun c => c == ' ') = true
    · exfalso
      obtain ⟨c, hc, hsp⟩ := List.any_eq_true.mp h2
      have hc1 : c = ' ' := by simpa using hsp
      have hm : lowerByte c ∈ ToLower n := by
        rw [← hl]
        exact List.mem_map_of_mem _ hc
      obtain ⟨d, hd, hdc⟩ := List.mem_map.mp hm
      have h3 : lowerByte c = ' ' := by rw [hc1]; decide
      exact lowerByte_ne_space d (hn d hd) (hdc.trans h3)
    · have hc : (canonicalMIMEHeaderKey k).1 = canonLoop true k := by
        simp only [canonicalMIMEHeaderKey, h0, h1, h2, if_false, Bool.false_eq_true]
      rw [hc, ← canonLoop_ToLower true k, hl, canonLoop_ToLower]

/-! ### The map built by `readFields` -/

theorem add_origin (M : MIMEHeader) (K w : GoString) :
    ∀ e ∈ M.add K w, (∃ f ∈ M, f.1 = e.1 ∧ f.2.1 = e.2.1) ∨
      (e = (K, w, []) ∧ ∀ f ∈ M, f.1 ≠ K) := by
  induction M with
  | nil =>
    intro e he
    simp only [MIMEHeader.add, List.mem_singleton] at he
    exact Or.inr ⟨he, fun f hf => by cases hf⟩
  | cons a t ih =>
    obtain ⟨k, v, vs⟩ := a
    intro e he
    by_cases hk : k = K
    · simp only [MIMEHeader.add, hk, if_true, List.mem_cons] at he
      rcases he with rfl | he
      · exact Or.inl ⟨(k, v, vs), List.mem_cons_self _ _, hk, rfl⟩
      · exact Or.inl ⟨e, List.mem_cons_of_mem _ he, rfl, rfl⟩
    · simp only [MIMEHeader.add, hk, if_false, List.mem_cons] at he
      rcases he with rfl | he
      · exact Or.inl ⟨(k, v, vs), List.mem_cons_self _ _, rfl, rfl⟩
      · rcases ih e he with ⟨f, hf, h1, h2⟩ | ⟨h1, h2⟩
        · exact Or.inl ⟨f, List.mem_cons_of_mem _ hf, h1, h2⟩
        · refine Or.inr ⟨h1, ?_⟩
          intro f hf
          rcases List.mem_cons.mp hf with rfl | hf
          · exact hk
          · exact h2 f hf

theorem add_keeps (M : MIMEHeader) (K w : GoString) :
    ∀ f ∈ M, ∃ e ∈ M.add K w, e.1 = f.1 ∧ e.2.1 = f.2.1 := by
  induction M with
  | nil =>
    intro f hf
    cases hf
  | cons a t ih =>
    obtain ⟨k, v, vs⟩ := a
    intro f hf
    by_cases hk : k = K
    · simp only [MIMEHeader.add, hk, if_true]
      rcases List.mem_cons.mp hf with rfl | hf
      · exact ⟨_, List.mem_cons_self _ _, hk.symm, rfl⟩
      · exact ⟨f, List.mem_cons_of_mem _ hf, rfl, rfl⟩
    · simp only [MIMEHeader.add, hk, if_false]
      rcases List.mem_cons.mp hf with rfl | hf
      · exact ⟨_, List.mem_cons_self _ _, rfl, rfl⟩
      · obtain ⟨e, he, h1, h2⟩ := ih f hf
        exact ⟨e, List.mem_cons_of_mem _ he, h1, h2⟩

theorem add_has_key (M : MIMEHeader) (K w : GoString) : ∃ e ∈ M.add K w, e.1 = K := by
  induction M with
  | nil => exact ⟨(K, w, []), List.mem_singleton.mpr rfl, rfl⟩
  | cons a t ih =>
    obtain ⟨k, v, vs⟩ := a
    by_cases hk : k = K
    · simp only [MIMEHeader.add, hk, if_true]
      exact ⟨_, List.mem_cons_self _ _, rfl⟩
    · simp only [MIMEHeader.add, hk, if_false]
      obtain ⟨e, he, h1⟩ := ih
      exact ⟨e, List.mem_cons_of_mem _ he, h1⟩

theorem readFields_cons_ok (k v : GoString) (rest : List (GoString × GoString))
    (M M1 : MIMEHeader) (h : readFields ((k, v) :: rest) M = (M1, none)) :
    (canonicalMIMEHeaderKey k).2 = true ∧
    readFields rest (M.add (canonicalMIMEHeaderKey k).1 (Trim v " \t".toList)) =
      (M1, none) := by
  unfold readFields at h
  split at h
  · cases h
  · rename_i h1
    have hk : (canonicalMIMEHeaderKey k).2 = true := by
      cases hb : (canonicalMIMEHeaderKey k).2
      · exact absurd (Or.inl hb) h1
      · rfl
    exact ⟨hk, h⟩

/-- Three lines the reader rejects, with the line as the error quotes it (the blanks at its end
removed): a line without a name, a line whose name has a colon-free forbidden byte, and a line
whose value has a control byte. -/
theorem readFields_rejects :
    readFields [("".toList, " x \t".toList)] [] =
      (([] : MIMEHeader), some "malformed MIME header line: : x".toList) ∧
    readFields [("X-Tag".toList, " one".toList), ("X(Tag".toList, " two ".toList)] [] =
      ([("X-Tag".toList, "one".toList, [])],
        some "malformed MIME header line: X(Tag: two".toList) ∧
    readFields [("X-Tag".toList, " a\x01b \t".toList)] [] =
      (([] : MIMEHeader), some "malformed MIME header line: X-Tag: a\x01b".toList) :=
  ⟨by decide, by decide, by decide⟩

theorem readFields_keys (n : GoString) (hn : ∀ c ∈ n, validHeaderFieldByte c = true)
    (fs : List (GoString × GoString)) (M M1 : MIMEHeader)
    (h : readFields fs M = (M1, none))
    (hG : ∀ e ∈ M, ToLower e.1 = ToLower n → e.1 = canonLoop true n) :
    ∀ e ∈ M1, ToLower e.1 = ToLower n → e.1 = canonLoop true n := by
  induction fs generalizing M with
  | nil =>
    simp only [readFields] at h
    cases h
    exact hG
  | cons f t ih =>
    obtain ⟨k, v⟩ := f
    obtain ⟨hk, h1⟩ := readFields_cons_ok k v t M M1 h
    · apply ih _ h1
      intro e he hl
      rcases add_origin M _ _ e he with ⟨f, hf, hf1, _⟩ | ⟨rfl, _⟩
      · rw [← hf1] at hl ⊢
        exact hG f hf hl
      · exact canonical_eq_of_lower_eq k n hk hn hl

theorem readFields_stable (cn w : GoString)
    (fs : List (GoString × GoString)) (M M1 : MIMEHeader)
    (h : readFields fs M = (M1, none))
    (hE : ∃ e ∈ M, e.1 = cn) (hJ : ∀ e ∈ M, e.1 = cn → e.2.1 = w) :
    (∃ e ∈ M1, e.1 = cn) ∧ ∀ e ∈ M1, e.1 = cn → e.2.1 = w := by
  induction fs generalizing M with
  | nil =>
    simp only [readFields] at h
    cases h
    exact ⟨hE, hJ⟩
  | cons f t ih =>
    obtain ⟨k, v⟩ := f
    obtain ⟨_, h1⟩ := readFields_cons_ok k v t M M1 h
    · apply ih _ h1
      · obtain ⟨e, he, hc⟩ := hE
        obtain ⟨e1, he1, hk1, _⟩ := add_keeps M _ _ e he
        exact ⟨e1, he1, hk1.trans hc⟩
      · intro e he hc
        rcases add_origin M _ _ e he with ⟨f, hf, hf1, hf2⟩ | ⟨rfl, hno⟩
        · rw [← hf2]
          exact hJ f hf (hf1.trans hc)
        · exfalso
          obtain ⟨e0, he0, hc0⟩ := hE
          exact hno e0 he0 (hc0.trans hc.symm)

theorem canonLoop_ne_nil (u : Bool) (n : GoString) (hne : n ≠ []) : canonLoop u n ≠ [] := by
  cases n with
  | nil => exact absurd rfl hne
  | cons c cs =>
    simp only [canonLoop]
    exact List.cons_ne_nil _ _

theorem readFields_first (n v1 : GoString) (post : List (GoString × GoString))
    (hn : ∀ c ∈ n, validHeaderFieldByte c = true) (hne : n ≠ [])
    (pre : List (GoString × GoString)) (M M1 : MIMEHeader)
    (h : readFields (pre ++ (n, v1) :: post) M = (M1, none))
    (hN : ∀ e ∈ M, e.1 ≠ canonLoop true n)
    (hpre : ∀ f ∈ pre, ToLower f.1 ≠ ToLower n) :
    (∃ e ∈ M1, e.1 = canonLoop true n) ∧
    ∀ e ∈ M1, e.1 = canonLoop true n → e.2.1 = Trim v1 " \t".toList := by
  induction pre generalizing M with
  | nil =>
    rw [List.nil_append] at h
    obtain ⟨_, h1⟩ := readFields_cons_ok n v1 post M M1 h
    · rw [canonical_of_valid n hne hn] at h1
      apply readFields_stable _ _ post _ M1 h1
      · exact add_has_key M _ _
      · intro e he hc
        rcases add_origin M _ _ e he with ⟨f, hf, hf1, _⟩ | ⟨rfl, _⟩
        · exact absurd (hf1.trans hc) (hN f hf)
        · rfl
  | cons f t ih =>
    obtain ⟨k, v⟩ := f
    rw [List.cons_append] at h
    have hk : ToLower k ≠ ToLower n := hpre (k, v) (List.mem_cons_self _ _)
    have ht : ∀ g ∈ t, ToLower g.1 ≠ ToLower n :=
      fun g hg => hpre g (List.mem_cons_of_mem _ hg)
    obtain ⟨_, h1⟩ := readFields_cons_ok k v _ M M1 h
    · apply ih _ h1 _ ht
      intro e he hc
      rcases add_origin M _ _ e he with ⟨g, hg, hg1, _⟩ | ⟨rfl, _⟩
      · exact hN g hg (hg1.trans hc)
      · apply hk
        have h2 := congrArg ToLower hc
        rw [ToLower_canonical, ToLower_canonLoop] at h2
        exact h2

/-! ### The copy into the header map -/

theorem StrMap.set_set (h : StrMap) (k a b : GoString) : (h.set k a).set k b = h.set k b := by
  simp only [StrMap.set, List.filter_cons, ne_eq, not_true_eq_false, decide_False,
    Bool.false_eq_true, if_false, List.filter_filter, Bool.and_self]

theorem copyHeaders_cons (e : GoString × GoString × List GoString) (t : MIMEHeader)
    (h : StrMap) :
    copyHeaders (e :: t) h =
      copyHeaders t (h.set (ToLower e.1)
        (if Contains e.2.1 "%".toList = true then (QueryUnescape e.2.1).getD [] else e.2.1)) := by
  simp only [copyHeaders, List.foldl_cons]
  congr 1
  split
  · split
    · rename_i d hd
      rw [StrMap.set_set, hd]
      rfl
    · rename_i hd
      rw [StrMap.set_set, hd]
      rfl
  · rfl

theorem StrMap.nodup_keys_set (h : StrMap) (k v : GoString) (hh : h.keys.Nodup) :
    (h.set k v).keys.Nodup := by
  simp only [StrMap.keys, StrMap.set, List.map_cons, List.nodup_cons]
  constructor
  · intro hm
    obtain ⟨e, he, hk⟩ := List.mem_map.mp hm
    have := (List.mem_filter.mp he).2
    simp only [ne_eq, decide_not, Bool.not_eq_true', decide_eq_false_iff_not] at this
    exact this hk
  · exact List.Nodup.sublist (List.Sublist.map _ (List.filter_sublist _)) hh

theorem nodup_keys_copyHeaders (cmr : MIMEHeader) (h : StrMap) (hh : h.keys.Nodup) :
    (copyHeaders cmr h).keys.Nodup := by
  induction cmr generalizing h with
  | nil => exact hh
  | cons e t ih =>
    rw [copyHeaders_cons]
    exact ih _ (StrMap.nodup_keys_set h _ _ hh)

theorem get_copyHeaders (cmr : MIMEHeader) (h : StrMap) (k w : GoString)
    (hall : ∀ e ∈ cmr, ToLower e.1 = k → e.2.1 = w)
    (hex : (k ∈ h.keys ∧ h.get k =
        (if Contains w "%".toList = true then (QueryUnescape w).getD [] else w)) ∨
      ∃ e ∈ cmr, ToLower e.1 = k) :
    k ∈ (copyHeaders cmr h).keys ∧ (copyHeaders cmr h).get k =
      (if Contains w "%".toList = true then (QueryUnescape w).getD [] else w) := by
  induction cmr generalizing h with
  | nil =>
    rcases hex with h1 | ⟨e, he, _⟩
    · exact h1
    · cases he
  | cons a t ih =>
    rw [copyHeaders_cons]
    apply ih
    · intro e he hk
      exact hall e (List.mem_cons_of_mem _ he) hk
    · by_cases hak : ToLower a.1 = k
      · left
        have hw : a.2.1 = w := hall a (List.mem_cons_self _ _) hak
        rw [hw, hak]
        exact ⟨(StrMap.mem_keys_set h k _ k).mpr (Or.inl rfl), StrMap.get_set_self h k _⟩
      · rcases hex with ⟨h1, h2⟩ | ⟨e, he, hk⟩
        · left
          have hne : k ≠ ToLower a.1 := fun hc => hak hc.symm
          exact ⟨(StrMap.mem_keys_set h _ _ k).mpr (Or.inr ⟨hne, h1⟩),
            (StrMap.get_set_ne h _ _ k hne).trans h2⟩
        · rcases List.mem_cons.mp he with rfl | he1
          · exact absurd hk hak
          · exact Or.inr ⟨e, he1, hk⟩

theorem StrMap.one_entry (h : StrMap) (k : GoString) (hnd : h.keys.Nodup) (hm : k ∈ h.keys) :
    (h.filter (fun e => e.1 = k)).length = 1 := by
  induction h with
  | nil => cases hm
  | cons a t ih =>
    obtain ⟨a1, a2⟩ := a
    simp only [StrMap.keys, List.map_cons, List.nodup_cons] at hnd
    by_cases hak : a1 = k
    · have ht : t.filter (fun e => e.1 = k) = [] := by
        rw [List.filter_eq_nil_iff]
        intro e he hk
        apply hnd.1
        rw [hak]
        exact List.mem_map.mpr ⟨e, he, by simpa using hk⟩
      simp only [List.filter_cons, hak, decide_True, if_true, ht, List.length_singleton]
    · have hm1 : k ∈ StrMap.keys t := by
        simp only [StrMap.keys, List.map_cons, List.mem_cons] at hm
        rcases hm with hm | hm
        · exact absurd hm.symm hak
        · exact hm
      simp only [List.filter_cons, hak, decide_False, Bool.false_eq_true, if_false]
      exact ih hnd.2 hm1

/-- C10 (amended): let a header block, read completely, carry the header name `n` (a non-empty
token) on a line with value `v1`, no earlier line having the same name in any letter case, and
any lines after it (duplicates of `n` included).  When `NewMessage` decodes the frame, of a type
other than `text/event-json`, without error, then whatever order the `range` loop visits the
header map in, the header map of the message has exactly one entry for the lower-cased name, and
its value is the first value `v1` (without the blanks at its ends): as it is when it has no percent
sign, percent-decoded when it has one and is well-formed. -/
theorem Parse_duplicate_header_first (lib : Lib) (pre post : List (GoString × GoString))
    (n v1 : GoString) (cmr0 cmr : MIMEHeader) (rest : GoString) (m2 : Message)
    (hR : readFields (pre ++ (n, v1) :: post) [] = (cmr0, none))
    (hperm : cmr.Perm cmr0)
    (hne : n ≠ []) (hn : ∀ c ∈ n, validHeaderFieldByte c = true)
    (hpre : ∀ f ∈ pre, ToLower f.1 ≠ ToLower n)
    (hJ : cmr.Get "Content-Type".toList ≠ "text/event-json".toList)
    (hP : NewMessage lib ⟨cmr, none, rest⟩ true = .ok m2) :
    (m2.Headers.filter (fun e => e.1 = ToLower n)).length = 1 ∧
    (Contains (Trim v1 " \t".toList) "%".toList = false →
      m2.Headers.get (ToLower n) = Trim v1 " \t".toList) ∧
    (∀ d, Contains (Trim v1 " \t".toList) "%".toList = true →
      QueryUnescape (Trim v1 " \t".toList) = some d → m2.Headers.get (ToLower n) = d) := by
  have hP1 : Message.fresh.Parse lib ⟨cmr, none, rest⟩ = .ok m2 := hP
  obtain ⟨m1, m3, _, hH, _, hTy, hD⟩ := Parse_nonjson_ok lib Message.fresh _ m2 hJ hP1
  have hJ3 : m3.Type_ ≠ "text/event-json".toList := by rw [hTy]; exact hJ
  have hH2 : m2.Headers = copyHeaders cmr [] := by
    rw [(dispatch_nonjson_ok lib m3 _ m2 hJ3 hD).1, hH]
    rfl
  obtain ⟨hE0, hJ0⟩ := readFields_first n v1 post hn hne pre [] cmr0 hR
    (fun e he => by cases he) hpre
  have hG0 := readFields_keys n hn _ [] cmr0 hR (fun e he => by cases he)
  have hall : ∀ e ∈ cmr, ToLower e.1 = ToLower n → e.2.1 = Trim v1 " \t".toList := by
    intro e he hl
    have he0 : e ∈ cmr0 := hperm.mem_iff.mp he
    exact hJ0 e he0 (hG0 e he0 hl)
  have hex : ∃ e ∈ cmr, ToLower e.1 = ToLower n := by
    obtain ⟨e, he, hc⟩ := hE0
    refine ⟨e, hperm.mem_iff.mpr he, ?_⟩
    rw [hc, ToLower_canonLoop]
  obtain ⟨hmem, hget⟩ := get_copyHeaders cmr [] (ToLower n) _ hall (Or.inr hex)
  have hnd : (copyHeaders cmr []).keys.Nodup := nodup_keys_copyHeaders cmr [] List.nodup_nil
  rw [hH2]
  refine ⟨StrMap.one_entry _ _ hnd hmem, ?_, ?_⟩
  · intro hc
    rw [hget, hc]
    rfl
  · intro d hc hd
    rw [hget, hc, hd]
    rfl

theorem Parse_duplicate_header_first_witness :
    readFields paddedFields [] =
      ([("Content-Type".toList, "command/reply".toList, []),
        ("Reply-Text".toList, "+OK".toList, []),
        ("X-Tag".toList, "one".toList, ["two".toList])], none) ∧
    ∃ m2, NewMessage exampleLib (readBlock paddedFields []) true = .ok m2 ∧
      (m2.Headers.filter (fun e => e.1 = "x-tag".toList)).length = 1 ∧
      m2.Headers.get "x-tag".toList = "one".toList := by
  have hR : readFields paddedFields [] =
      ([("Content-Type".toList, "command/reply".toList, []),
        ("Reply-Text".toList, "+OK".toList, []),
        ("X-Tag".toList, "one".toList, ["two".toList])], none) := by decide
  have hP : NewMessage exampleLib (readBlock paddedFields []) true =
      .ok { Message.fresh with
            Headers := [("x-tag".toList, "one".toList), ("reply-text".toList, "+OK".toList),
                        ("content-type".toList, "command/reply".toList)],
            Type_ := "command/reply".toList, State := "ok".toList } := by decide
  have key := Parse_duplicate_header_first exampleLib
    [("Content-Type".toList, " command/reply".toList), ("Reply-Text".toList, " +OK".toList)]
    [("x-tag".toList, " two".toList)] "X-Tag".toList "  one \t".toList _ _ [] _
    hR (List.Perm.refl _) (by decide) (by decide) (by decide) (by decide) hP
  have hv : Trim "  one \t".toList " \t".toList = "one".toList := by decide
  rw [hv] at key
  exact ⟨hR, _, hP, key.1, key.2.1 (by decide)⟩

/-- C10 (counterexample): for the `command/reply` header block that carries `X-Tag: one` and
then `x-tag: two`, `ReadMIMEHeader` stores both values under `X-Tag`, and the header map of the
decoded message has the earlier value `one` under `x-tag`, not the later value `two`. -/
theorem Parse_duplicate_header_keeps_first :
    (readBlock dupFields []).hdr =
      [("Content-Type".toList, "command/reply".toList, []),
       ("Reply-Text".toList, "+OK".toList, []),
       ("X-Tag".toList, "one".toList, ["two".toList])] ∧
    ∃ m2, NewMessage exampleLib (readBlock dupFields []) true = .ok m2 ∧
      m2.Headers.get "x-tag".toList = "one".toList ∧
      m2.Headers.get "x-tag".toList ≠ "two".toList := by
  have hP : NewMessage exampleLib (readBlock dupFields []) true =
      .ok { Message.fresh with
            Headers := [("x-tag".toList, "one".toList), ("reply-text".toList, "+OK".toList),
                        ("content-type".toList, "command/reply".toList)],
            Type_ := "command/reply".toList, State := "ok".toList } := by decide
  exact ⟨by decide, _, hP, by decide, by decide⟩

/-! ## The correlation id of a reply (C11) -/

theorem mem_keys_copyHeaders (cmr : MIMEHeader) (h : StrMap) (k : GoString)
    (hk : k ∈ (copyHeaders cmr h).keys) : k ∈ h.keys ∨ ∃ e ∈ cmr, ToLower e.1 = k := by
  induction cmr generalizing h with
  | nil => exact Or.inl hk
  | cons a t ih =>
    rw [copyHeaders_cons] at hk
    rcases ih _ hk with h1 | ⟨e, he, hek⟩
    · rcases (StrMap.mem_keys_set h _ _ k).mp h1 with rfl | ⟨_, h2⟩
      · exact Or.inr ⟨a, List.mem_cons_self _ _, rfl⟩
      · exact Or.inl h2
    · exact Or.inr ⟨e, List.mem_cons_of_mem _ he, hek⟩

theorem dispatch_reply_uuid (lib : Lib) (m : Message) (cmr : MIMEHeader) (m2 : Message)
    (hT : m.Type_ = "command/reply".toList ∨ m.Type_ = "api/response".toList)
    (h : dispatch lib m cmr = .ok m2) :
    m2.UUID = m.Headers.get "job-uuid".toList ∧ m2.Headers = m.Headers := by
  have key : ∃ r, dispatch lib m cmr = m.parseReply r := by
    rcases hT with hT | hT
    · have h1 : m.Type_ ≠ "text/disconnect-notice".toList := by rw [hT]; decide
      exact ⟨_, by rw [dispatch, if_neg h1, if_pos hT]⟩
    · have h1 : m.Type_ ≠ "text/disconnect-notice".toList := by rw [hT]; decide
      have h2 : m.Type_ ≠ "command/reply".toList := by rw [hT]; decide
      exact ⟨_, by rw [dispatch, if_neg h1, if_neg h2, if_pos hT]⟩
  obtain ⟨r, hr⟩ := key
  obtain ⟨m1, hm1, hH, _, hU, _⟩ := parseReply_spec m r
  rw [hr, hm1] at h
  cases h
  exact ⟨hU, hH⟩

/-- C11 (amended): when `NewMessage` decodes a `command/reply` or `api/response` frame without
error, the UUID of the message is the value of its `job-uuid` header; so it is empty when the
header block has no `job-uuid` header, whatever its `unique-id` header is, and it is `J` when every
`job-uuid` header of the block has the value `J`, free of percent signs. -/
theorem Parse_reply_uuid (lib : Lib) (rd : MIMERead) (m2 : Message)
    (hT : rd.hdr.Get "Content-Type".toList = "command/reply".toList ∨
      rd.hdr.Get "Content-Type".toList = "api/response".toList)
    (hP : NewMessage lib rd true = .ok m2) :
    m2.UUID = m2.Headers.get "job-uuid".toList ∧
    ((∀ e ∈ rd.hdr, ToLower e.1 ≠ "job-uuid".toList) → m2.UUID = []) ∧
    (∀ J, (∃ e ∈ rd.hdr, ToLower e.1 = "job-uuid".toList) →
      (∀ e ∈ rd.hdr, ToLower e.1 = "job-uuid".toList → e.2.1 = J) →
      Contains J "%".toList = false → m2.UUID = J) := by
  have hJ : rd.hdr.Get "Content-Type".toList ≠ "text/event-json".toList := by
    rcases hT with h | h <;> rw [h] <;> decide
  have hP1 : Message.fresh.Parse lib rd = .ok m2 := hP
  obtain ⟨m1, m3, _, hH, _, hTy, hD⟩ := Parse_nonjson_ok lib Message.fresh rd m2 hJ hP1
  have hT3 : m3.Type_ = "command/reply".toList ∨ m3.Type_ = "api/response".toList := by
    rw [hTy]; exact hT
  obtain ⟨hU, hH2⟩ := dispatch_reply_uuid lib m3 rd.hdr m2 hT3 hD
  have hU3 : m2.UUID = (copyHeaders rd.hdr []).get "job-uuid".toList := by
    rw [hU, hH]; rfl
  refine ⟨by rw [hH2]; exact hU, ?_, ?_⟩
  · intro hno
    rw [hU3]
    apply StrMap.get_of_not_mem_keys
    intro hmem
    rcases mem_keys_copyHeaders rd.hdr [] _ hmem with h1 | ⟨e, he, hek⟩
    · cases h1
    · exact hno e he hek
  · intro J hex hall hc
    rw [hU3, (get_copyHeaders rd.hdr [] _ J hall (Or.inr hex)).2, hc]
    rfl

theorem Parse_reply_uuid_witness :
    jobReplyFrame.hdr.Get "Content-Type".toList = "command/reply".toList ∧
    ∃ m2, NewMessage exampleLib jobReplyFrame true = .ok m2 ∧ m2.UUID = "j1".toList := by
  have h : ∃ m2, NewMessage exampleLib jobReplyFrame true = .ok m2 :=
    ⟨{ Message.fresh with
        Headers := [("job-uuid".toList, "j1".toList), ("unique-id".toList, "abc".toList),
                    ("reply-text".toList, "+OK Job-UUID: j1".toList),
                    ("content-type".toList, "command/reply".toList)],
        Type_ := "command/reply".toList, UUID := "j1".toList, State := "ok".toList,
        Data := "Job-UUID: j1".toList }, by decide⟩
  obtain ⟨m2, hm2⟩ := h
  have key := Parse_reply_uuid exampleLib jobReplyFrame m2 (Or.inl (by decide)) hm2
  exact ⟨by decide, m2, hm2, key.2.2 "j1".toList (by decide) (by decide) (by decide)⟩

/-- C11 (counterexample): the `command/reply` frame with the header `Unique-ID: abc` and no
`job-uuid` header is decoded without error, and the UUID of the message is empty, not `abc`. -/
theorem Parse_reply_drops_unique_id :
    (∀ e ∈ replyFrame.hdr, ToLower e.1 ≠ "job-uuid".toList) ∧
    ∃ m2, NewMessage exampleLib replyFrame true = .ok m2 ∧
      m2.Headers.get "unique-id".toList = "abc".toList ∧ m2.UUID = [] ∧
      m2.UUID ≠ "abc".toList := by
  have hP : NewMessage exampleLib replyFrame true =
      .ok { Message.fresh with
        Headers := [("unique-id".toList, "abc".toList),
                    ("reply-text".toList, "+OK accepted".toList),
                    ("content-type".toList, "command/reply".toList)],
        Type_ := "command/reply".toList, State := "ok".toList, Data := "accepted".toList } := by
    decide
  exact ⟨by decide, _, hP, by decide, rfl, by decide⟩

/-! ## Invalid lengths and short background-job bodies (C12, C19) -/

/-- C12 (the code at the failing input): `Content-Length: abc` is answered with the error of
`strconv.Atoi`, but `Content-Length: -5` passes `strconv.Atoi` and reaches `make([]byte, -5)`,
which panics. -/
theorem Parse_negative_length_panics :
    NewMessage exampleLib wordLengthFrame true = .error (.numError "abc".toList) ∧
    Atoi "-5".toList = some (-5) ∧
    NewMessage exampleLib negativeLengthFrame true = .panic (.makesliceLen (-5)) := by
  decide

/-- C19 (the code at the failing inputs): for a background-job frame that is not
`text/event-json`, the body `-ERR` makes the slice `Body[5:]` of line 165 panic, and the body
`-OK` makes the slice `Body[4:]` of line 168 panic; the 5-byte body `-ERR` with a newline is
decoded. -/
theorem Parse_short_background_job_body_panics :
    NewMessage exampleLib (backgroundJobFrame "4".toList "-ERR".toList) true =
      .panic (.sliceBounds 5 4) ∧
    NewMessage exampleLib (backgroundJobFrame "3".toList "-OK".toList) true =
      .panic (.sliceBounds 4 3) ∧
    backgroundJobBody
      { Message.fresh with EventName := BACKGROUND_JOB, Body := "-ERR\n".toList } =
      .ok { Message.fresh with EventName := BACKGROUND_JOB, Body := "-ERR\n".toList,
                               State := "err".toList } := by
  decide

/-! ## The command encoder: rejected commands (C13, C14, C15) -/

/-- C13: a command that contains `\r\n` makes `Send` return an error with the connection
untouched, so no byte is written; the same holds for `Api` and `BgApi`, which put a verb before
the command. -/
theorem Send_rejects_crlf (c : Conn) (cmd : GoString)
    (h : Contains cmd "\r\n".toList = true) :
    Send c cmd = (c, some (.invalidCommand cmd)) ∧
    Api c cmd = (c, some (.invalidCommand ("api ".toList ++ cmd))) ∧
    BgApi c cmd = (c, some (.invalidCommand ("bgapi ".toList ++ cmd))) := by
  have hpre : ∀ p : GoString, Contains (p ++ cmd) "\r\n".toList = true := by
    intro p
    rw [contains_iff] at h ⊢
    exact List.IsInfix.trans h (List.suffix_append _ _).isInfix
  refine ⟨?_, ?_, ?_⟩
  · simp only [Send, h, if_true]
  · simp only [Api, Send, hpre, if_true]
  · simp only [BgApi, Send, hpre, if_true]

theorem Send_rejects_crlf_witness :
    Contains "api status\r\nexit".toList "\r\n".toList = true ∧
    (Send ⟨[], none⟩ "api status\r\nexit".toList).1.written = [] ∧
    (Send ⟨[], none⟩ "api status\r\nexit".toList).2 =
      some (.invalidCommand "api status\r\nexit".toList) := by
  have key := (Send_rejects_crlf ⟨[], none⟩ "api status\r\nexit".toList (by decide)).1
  exact ⟨by decide, by rw [key], by rw [key]⟩

theorem sendMsgHeaders_rejects (msg : List (GoString × GoString)) (b : GoString)
    (h : ∃ e ∈ msg, Contains e.1 "\r\n".toList = true ∨
      (e.2 ≠ [] ∧ Contains e.2 "\r\n".toList = true)) :
    sendMsgHeaders msg b = none := by
  induction msg generalizing b with
  | nil =>
    obtain ⟨e, he, _⟩ := h
    cases he
  | cons a t ih =>
    obtain ⟨k, v⟩ := a
    by_cases hk : Contains k "\r\n".toList = true
    · simp only [sendMsgHeaders, hk, if_true]
    · by_cases hv : v ≠ [] ∧ Contains v "\r\n".toList = true
      · simp only [sendMsgHeaders, hk, hv.1, hv.2, if_true, if_false, ne_eq, not_false_eq_true,
          Bool.false_eq_true]
      · have hrest : ∃ e ∈ t, Contains e.1 "\r\n".toList = true ∨
            (e.2 ≠ [] ∧ Contains e.2 "\r\n".toList = true) := by
          obtain ⟨e, he, hbad⟩ := h
          rcases List.mem_cons.mp he with rfl | he1
          · rcases hbad with h1 | h1
            · exact absurd h1 hk
            · exact absurd h1 hv
          · exact ⟨e, he1, hbad⟩
        unfold sendMsgHeaders
        rw [if_neg hk]
        split
        · rename_i hne
          have hv2 : ¬ Contains v "\r\n".toList = true := fun hc => hv ⟨hne, hc⟩
          rw [if_neg hv2]
          exact ih _ hrest
        · exact ih _ hrest

/-- C14: when the uuid, a key of the header map, or a non-empty value of the header map
contains `\r\n`, `SendMsg` returns an error with the connection untouched, so no byte is written,
in whatever order the map is visited. -/
theorem SendMsg_rejects_crlf (c : Conn) (msg : StrMap) (uuid data : GoString)
    (h : Contains uuid "\r\n".toList = true ∨
      ∃ e ∈ msg, Contains e.1 "\r\n".toList = true ∨
        (e.2 ≠ [] ∧ Contains e.2 "\r\n".toList = true)) :
    ∀ order : StrMap, order.Perm msg →
      SendMsg c order uuid data = (c, some (.invalidMessage order)) := by
  intro order hperm
  by_cases hu : uuid ≠ [] ∧ Contains uuid "\r\n".toList = true
  · simp only [SendMsg, hu, ne_eq, not_false_eq_true, and_self, if_true]
  · have hmsg : ∃ e ∈ order, Contains e.1 "\r\n".toList = true ∨
        (e.2 ≠ [] ∧ Contains e.2 "\r\n".toList = true) := by
      rcases h with h1 | ⟨e, he, hbad⟩
      · exfalso
        apply hu
        refine ⟨?_, h1⟩
        intro hnil
        rw [hnil] at h1
        revert h1
        decide
      · exact ⟨e, hperm.mem_iff.mpr he, hbad⟩
    unfold SendMsg
    rw [if_neg hu]
    simp only [sendMsgHeaders_rejects order _ hmsg]

theorem SendMsg_rejects_crlf_witness :
    Contains "answer\r\nexit".toList "\r\n".toList = true ∧
    SendMsg ⟨[], none⟩
      [("call-command".toList, "execute".toList),
       ("execute-app-name".toList, "answer\r\nexit".toList)] "abc".toList [] =
      (⟨[], none⟩, some (.invalidMessage
        [("call-command".toList, "execute".toList),
         ("execute-app-name".toList, "answer\r\nexit".toList)])) :=
  ⟨by decide,
   SendMsg_rejects_crlf ⟨[], none⟩
    [("call-command".toList, "execute".toList),
     ("execute-app-name".toList, "answer\r\nexit".toList)] "abc".toList []
    (Or.inr ⟨("execute-app-name".toList, "answer\r\nexit".toList), by decide,
      Or.inr ⟨by decide, by decide⟩⟩) _ (List.Perm.refl _)⟩

/-- C15 (the code at the failing input): `SendEvent` has no test for `\r\n`; for the single
header line `Event-Name: X\r\napi reload` it returns no error and writes the line, line break
included, to the stream. -/
theorem SendEvent_accepts_crlf :
    Contains "Event-Name: X\r\napi reload".toList "\r\n".toList = true ∧
    SendEvent ⟨[], none⟩ ["Event-Name: X\r\napi reload".toList] =
      (⟨"sendevent Event-Name: X\r\napi reload\r\n\r\n".toList, none⟩, none) := by
  decide

/-! ## The command encoder: what is written (C17, C18) -/

theorem WriteString_open (w p : GoString) :
    Conn.WriteString ⟨w, none⟩ p = (⟨w ++ p, none⟩, true) := rfl

theorem contains_cons (x : Char) (s t : GoString) :
    Contains (x :: s) t = (t.isPrefixOf (x :: s) || Contains s t) := by
  simp only [Contains, List.tails, List.any_cons]

theorem contains_crlf_cons (x : Char) (s : GoString) (hx : x ≠ '\r') :
    Contains (x :: s) "\r\n".toList = Contains s "\r\n".toList := by
  rw [contains_cons]
  have h : List.isPrefixOf "\r\n".toList (x :: s) = false := by
    show (('\r' == x) && List.isPrefixOf ['\n'] s) = false
    have h1 : ('\r' == x) = false := by
      simpa using fun hc : '\r' = x => hx hc.symm
    rw [h1]
    rfl
  rw [h, Bool.false_or]

theorem Send_open (w cmd : GoString) (h : Contains cmd "\r\n".toList = false) :
    Send ⟨w, none⟩ cmd = (⟨w ++ cmd ++ "\r\n\r\n".toList, none⟩, none) := by
  simp only [Send, h, Bool.false_eq_true, if_false, WriteString_open]

/-- C17: on a stream whose writes succeed, a command without `\r\n` makes `Send` return no
error and write exactly the command followed by `\r\n\r\n`; so `Api` writes `api `, the command
and `\r\n\r\n`, `BgApi` the same after `bgapi `, `Connect` writes `connect\r\n\r\n` and `Exit`
writes `exit\r\n\r\n`. -/
theorem Send_writes_command (w cmd : GoString) (h : Contains cmd "\r\n".toList = false) :
    Send ⟨w, none⟩ cmd = (⟨w ++ cmd ++ "\r\n\r\n".toList, none⟩, none) ∧
    Api ⟨w, none⟩ cmd = (⟨w ++ ("api ".toList ++ cmd) ++ "\r\n\r\n".toList, none⟩, none) ∧
    BgApi ⟨w, none⟩ cmd = (⟨w ++ ("bgapi ".toList ++ cmd) ++ "\r\n\r\n".toList, none⟩, none) ∧
    Connect ⟨w, none⟩ = (⟨w ++ "connect\r\n\r\n".toList, none⟩, none) ∧
    Exit ⟨w, none⟩ = (⟨w ++ "exit\r\n\r\n".toList, none⟩, none) := by
  have hapi : Contains ("api ".toList ++ cmd) "\r\n".toList = false := by
    show Contains ('a' :: 'p' :: 'i' :: ' ' :: cmd) "\r\n".toList = false
    rw [contains_crlf_cons _ _ (by decide), contains_crlf_cons _ _ (by decide),
      contains_crlf_cons _ _ (by decide), contains_crlf_cons _ _ (by decide)]
    exact h
  have hbg : Contains ("bgapi ".toList ++ cmd) "\r\n".toList = false := by
    show Contains ('b' :: 'g' :: 'a' :: 'p' :: 'i' :: ' ' :: cmd) "\r\n".toList = false
    rw [contains_crlf_cons _ _ (by decide), contains_crlf_cons _ _ (by decide),
      contains_crlf_cons _ _ (by decide), contains_crlf_cons _ _ (by decide),
      contains_crlf_cons _ _ (by decide), contains_crlf_cons _ _ (by decide)]
    exact h
  refine ⟨Send_open w cmd h, Send_open w _ hapi, Send_open w _ hbg, ?_, ?_⟩
  · have hc := Send_open w "connect".toList (by decide)
    rw [List.append_assoc] at hc
    exact hc
  · have hc := Send_open w "exit".toList (by decide)
    rw [List.append_assoc] at hc
    exact hc

theorem Send_writes_command_witness :
    Contains "status".toList "\r\n".toList = false ∧
    Api ⟨[], none⟩ "status".toList = (⟨"api status\r\n\r\n".toList, none⟩, none) :=
  ⟨by decide, (Send_writes_command [] "status".toList (by decide)).2.1⟩

theorem writeEventHeaders_open (w : GoString) (hs : List GoString) :
    writeEventHeaders ⟨w, none⟩ hs =
      (⟨w ++ (hs.map fun h => h ++ "\r\n".toList).flatten, none⟩, true) := by
  induction hs generalizing w with
  | nil => simp only [writeEventHeaders, List.map_nil, List.flatten_nil, List.append_nil]
  | cons a t ih =>
    simp only [writeEventHeaders, WriteString_open, ih, List.map_cons, List.flatten_cons,
      List.append_assoc]

/-- C18: `SendEvent` with no header line returns an error and leaves the connection untouched;
with the header lines `h1 .. hn`, on a stream whose writes succeed, it returns no error and
writes `sendevent `, then every line followed by `\r\n`, in the order of the list, then one more
`\r\n`. -/
theorem SendEvent_writes (c : Conn) (w : GoString) (h0 : GoString) (hs : List GoString) :
    SendEvent c [] = (c, some (.couldNotSendEvent 0)) ∧
    SendEvent ⟨w, none⟩ (h0 :: hs) =
      (⟨w ++ "sendevent ".toList ++ ((h0 :: hs).map fun h => h ++ "\r\n".toList).flatten ++
          "\r\n".toList, none⟩, none) ∧
    SendEvent ⟨[], none⟩ ["Event-Name: CUSTOM".toList, "Event-Subclass: a::b".toList] =
      (⟨"sendevent Event-Name: CUSTOM\r\nEvent-Subclass: a::b\r\n\r\n".toList, none⟩, none) := by
  refine ⟨rfl, ?_, by decide⟩
  have hlen : ¬ (h0 :: hs).length ≤ 0 := by
    simp only [List.length_cons]
    omega
  simp only [SendEvent, hlen, if_false, WriteString_open, writeEventHeaders_open]

/-! ## The round trip of `SendMsg` (C16) -/

theorem not_contains_crlf (s : GoString) (h : '\n' ∉ s) :
    Contains s "\r\n".toList = false := by
  cases hc : Contains s "\r\n".toList
  · rfl
  · exfalso
    obtain ⟨a, b, hab⟩ := (contains_iff _ _).mp hc
    apply h
    rw [← hab]
    simp

theorem sendMsgHeaders_clean (order : List (GoString × GoString)) (b : GoString)
    (h : ∀ e ∈ order, '\n' ∉ e.1 ∧ '\n' ∉ e.2) :
    sendMsgHeaders order b =
      some (b ++ ((order.filter fun e => e.2 ≠ []).map fun e =>
        e.1 ++ ": ".toList ++ e.2 ++ "\n".toList).flatten) := by
  induction order generalizing b with
  | nil => simp only [sendMsgHeaders, List.filter_nil, List.map_nil, List.flatten_nil,
      List.append_nil]
  | cons a t ih =>
    obtain ⟨k, v⟩ := a
    have ha := h (k, v) (List.mem_cons_self _ _)
    have ht : ∀ e ∈ t, '\n' ∉ e.1 ∧ '\n' ∉ e.2 := fun e he => h e (List.mem_cons_of_mem _ he)
    have hk := not_contains_crlf k ha.1
    have hv := not_contains_crlf v ha.2
    by_cases hne : v = []
    · simp only [sendMsgHeaders, hk, Bool.false_eq_true, if_false, hne, ne_eq,
        not_true_eq_false, List.filter_cons, decide_False, ih _ ht]
    · simp only [sendMsgHeaders, hk, hv, Bool.false_eq_true, if_false, hne, ne_eq,
        not_false_eq_true, if_true, List.filter_cons, decide_True, List.map_cons,
        List.flatten_cons, ih _ ht, List.append_assoc]

theorem splitLines_line (a rest cur : GoString) (h : '\n' ∉ a) :
    splitLines (a ++ '\n' :: rest) cur = (cur ++ a) :: splitLines rest [] := by
  induction a generalizing cur with
  | nil => simp only [List.nil_append, splitLines, if_true, List.append_nil]
  | cons c cs ih =>
    have hc : c ≠ '\n' := fun hc => h (by rw [hc]; exact List.mem_cons_self _ _)
    have hcs : '\n' ∉ cs := fun hm => h (List.mem_cons_of_mem _ hm)
    show splitLines (c :: (cs ++ '\n' :: rest)) cur = _
    rw [splitLines, if_neg hc, ih _ hcs, List.append_assoc]
    rfl

theorem splitLines_headers (es : List (GoString × GoString)) (rest : GoString)
    (h : ∀ e ∈ es, '\n' ∉ e.1 ∧ '\n' ∉ e.2) :
    splitLines ((es.map fun e => e.1 ++ ": ".toList ++ e.2 ++ "\n".toList).flatten ++ rest) [] =
      (es.map fun e => e.1 ++ ": ".toList ++ e.2) ++ splitLines rest [] := by
  induction es with
  | nil => rfl
  | cons a t ih =>
    have ha := h a (List.mem_cons_self _ _)
    have ht : ∀ e ∈ t, '\n' ∉ e.1 ∧ '\n' ∉ e.2 := fun e he => h e (List.mem_cons_of_mem _ he)
    have hline : '\n' ∉ a.1 ++ ": ".toList ++ a.2 := by
      intro hm
      rcases List.mem_append.mp hm with hm1 | hm1
      · rcases List.mem_append.mp hm1 with hm2 | hm2
        · exact ha.1 hm2
        · revert hm2
          decide
      · exact ha.2 hm1
    have hshape : ((a :: t).map fun e => e.1 ++ ": ".toList ++ e.2 ++ "\n".toList).flatten ++ rest
        = (a.1 ++ ": ".toList ++ a.2) ++
          '\n' :: ((t.map fun e => e.1 ++ ": ".toList ++ e.2 ++ "\n".toList).flatten ++ rest) := by
      simp only [List.map_cons, List.flatten_cons, List.append_assoc]
      rfl
    rw [hshape, splitLines_line _ _ _ hline, ih ht]
    rfl

theorem takeWhile_header_lines (es : List (GoString × GoString)) :
    ((es.map fun (e : GoString × GoString) => e.1 ++ ": ".toList ++ e.2) ++
        [[], []]).takeWhile (fun l => l ≠ []) =
      (es.map fun (e : GoString × GoString) => e.1 ++ ": ".toList ++ e.2) ∧
    ((es.map fun (e : GoString × GoString) => e.1 ++ ": ".toList ++ e.2) ++
        [[], []]).dropWhile (fun l => l ≠ []) = [[], []] := by
  induction es with
  | nil => exact ⟨by decide, by decide⟩
  | cons a t ih =>
    have hne : a.1 ++ ": ".toList ++ a.2 ≠ [] := by
      intro hc
      have hl := congrArg List.length hc
      simp only [List.length_append, List.length_nil] at hl
      have h2 : (": ".toList).length = 2 := by decide
      omega
    simp only [List.map_cons, List.cons_append, List.takeWhile_cons, List.dropWhile_cons, hne,
      ne_eq, not_false_eq_true, decide_True, if_true, ih.1, ih.2, and_self]

theorem dropWhile_colon (k v : GoString) (h : ':' ∉ k) :
    (k ++ ": ".toList ++ v).dropWhile (fun c => c ≠ ':') = ':' :: ' ' :: v := by
  induction k with
  | nil => rfl
  | cons c cs ih =>
    have hc : c ≠ ':' := fun hc => h (by rw [hc]; exact List.mem_cons_self _ _)
    have hcs : ':' ∉ cs := fun hm => h (List.mem_cons_of_mem _ hm)
    simp only [List.cons_append, List.dropWhile_cons, hc, ne_eq, not_false_eq_true,
      decide_True, if_true]
    exact ih hcs

theorem takeWhile_colon (k v : GoString) (h : ':' ∉ k) :
    (k ++ ": ".toList ++ v).takeWhile (fun c => c ≠ ':') = k := by
  induction k with
  | nil => rfl
  | cons c cs ih =>
    have hc : c ≠ ':' := fun hc => h (by rw [hc]; exact List.mem_cons_self _ _)
    have hcs : ':' ∉ cs := fun hm => h (List.mem_cons_of_mem _ hm)
    simp only [List.cons_append, List.takeWhile_cons, hc, ne_eq, not_false_eq_true,
      decide_True, if_true]
    exact congrArg _ (ih hcs)

theorem splitHeaderLine_entry (k v : GoString) (h : ':' ∉ k) :
    splitHeaderLine (k ++ ": ".toList ++ v) = some (k, v) := by
  simp only [splitHeaderLine, dropWhile_colon k v h, takeWhile_colon k v h]

theorem parseHeaderLines_entries (es : List (GoString × GoString))
    (h : ∀ e ∈ es, ':' ∉ e.1) :
    parseHeaderLines (es.map fun e => e.1 ++ ": ".toList ++ e.2) = some es := by
  induction es with
  | nil => rfl
  | cons a t ih =>
    have ha := h a (List.mem_cons_self _ _)
    have ht : ∀ e ∈ t, ':' ∉ e.1 := fun e he => h e (List.mem_cons_of_mem _ he)
    simp only [List.map_cons, parseHeaderLines, splitHeaderLine_entry a.1 a.2 ha, ih ht]

theorem refParse_command (uuid : GoString) (es : List (GoString × GoString))
    (hun : '\n' ∉ uuid) (hes : ∀ e ∈ es, '\n' ∉ e.1 ∧ ':' ∉ e.1 ∧ '\n' ∉ e.2) :
    refParseSendMsg ("sendmsg".toList ++ (" ".toList ++ uuid) ++ "\n".toList ++
      (es.map fun e => e.1 ++ ": ".toList ++ e.2 ++ "\n".toList).flatten ++ "\n".toList) =
      some (uuid, es) := by
  have hfirst : '\n' ∉ "sendmsg ".toList ++ uuid := by
    intro hm
    rcases List.mem_append.mp hm with h1 | h1
    · revert h1
      decide
    · exact hun h1
  have hshape : "sendmsg".toList ++ (" ".toList ++ uuid) ++ "\n".toList ++
      (es.map fun e => e.1 ++ ": ".toList ++ e.2 ++ "\n".toList).flatten ++ "\n".toList =
      ("sendmsg ".toList ++ uuid) ++ '\n' ::
        ((es.map fun e => e.1 ++ ": ".toList ++ e.2 ++ "\n".toList).flatten ++ "\n".toList) := by
    simp only [List.append_assoc]
    rfl
  have hlines : splitLines ("sendmsg".toList ++ (" ".toList ++ uuid) ++ "\n".toList ++
      (es.map fun e => e.1 ++ ": ".toList ++ e.2 ++ "\n".toList).flatten ++ "\n".toList) [] =
      ("sendmsg ".toList ++ uuid) ::
        ((es.map fun (e : GoString × GoString) => e.1 ++ ": ".toList ++ e.2) ++ [[], []]) := by
    rw [hshape, splitLines_line _ _ _ hfirst,
      splitLines_headers es _ (fun e he => ⟨(hes e he).1, (hes e he).2.2⟩)]
    rfl
  have hpre : List.isPrefixOf "sendmsg ".toList ("sendmsg ".toList ++ uuid) = true := by
    rw [List.isPrefixOf_iff_prefix]
    exact List.prefix_append _ _
  have hdrop : ("sendmsg ".toList ++ uuid).drop 8 = uuid := by
    have h8 : ("sendmsg ".toList).length = 8 := by decide
    rw [← h8, List.drop_left]
  simp only [refParseSendMsg, hlines, hpre, (takeWhile_header_lines es).1,
    (takeWhile_header_lines es).2, and_self, if_true,
    parseHeaderLines_entries es (fun e he => (hes e he).2.1), Option.map_some', hdrop]

/-- C16 (amended): for a non-empty uuid without line break and a header map whose keys and values
have no line break and whose keys have no colon, `SendMsg` with empty data, on a stream whose
writes succeed, returns no error, and the reference re-parser reads from the bytes written the
uuid and exactly the entries of the map that have a non-empty value, in whatever order the map
is visited. -/
theorem SendMsg_roundtrip (w : GoString) (msg : StrMap) (uuid : GoString)
    (hu : uuid ≠ []) (hun : '\n' ∉ uuid)
    (hmsg : ∀ e ∈ msg, '\n' ∉ e.1 ∧ ':' ∉ e.1 ∧ '\n' ∉ e.2) :
    ∀ order : StrMap, order.Perm msg →
      ∃ out hs, SendMsg ⟨w, none⟩ order uuid [] = (⟨w ++ out, none⟩, none) ∧
        refParseSendMsg out = some (uuid, hs) ∧
        hs.Perm (msg.filter fun e => e.2 ≠ []) := by
  intro order hperm
  have hord : ∀ e ∈ order, '\n' ∉ e.1 ∧ ':' ∉ e.1 ∧ '\n' ∉ e.2 :=
    fun e he => hmsg e (hperm.mem_iff.mp he)
  have hfil : ∀ e ∈ order.filter (fun e => e.2 ≠ []), '\n' ∉ e.1 ∧ ':' ∉ e.1 ∧ '\n' ∉ e.2 :=
    fun e he => hord e (List.mem_filter.mp he).1
  have hguard : ¬ (uuid ≠ [] ∧ Contains uuid "\r\n".toList = true) := by
    rw [not_contains_crlf uuid hun]
    intro hc
    cases hc.2
  refine ⟨_, order.filter (fun e => e.2 ≠ []), ?_,
    refParse_command uuid _ hun hfil, hperm.filter _⟩
  unfold SendMsg
  rw [if_neg hguard, if_pos hu]
  dsimp only
  rw [sendMsgHeaders_clean order _ (fun e he => ⟨(hord e he).1, (hord e he).2.2⟩)]
  simp only [ne_eq, not_true_eq_false, and_false, if_false, WriteString_open]

theorem SendMsg_roundtrip_witness :
    (∀ e ∈ answerHeaders, '\n' ∉ e.1 ∧ ':' ∉ e.1 ∧ '\n' ∉ e.2) ∧
    SendMsg ⟨[], none⟩ answerHeaders "abc".toList [] =
      (⟨"sendmsg abc\ncall-command: execute\nexecute-app-name: answer\n\n".toList, none⟩,
        none) ∧
    refParseSendMsg
      "sendmsg abc\ncall-command: execute\nexecute-app-name: answer\n\n".toList =
      some ("abc".toList, answerHeaders) ∧
    ∃ out hs, SendMsg ⟨[], none⟩ answerHeaders.reverse "abc".toList [] =
        (⟨[] ++ out, none⟩, none) ∧
      refParseSendMsg out = some ("abc".toList, hs) ∧
      hs.Perm (answerHeaders.filter fun e => e.2 ≠ []) :=
  ⟨by decide, by decide, by decide,
   SendMsg_roundtrip [] answerHeaders "abc".toList (by decide) (by decide) (by decide)
    answerHeaders.reverse (List.reverse_perm _)⟩

/-- C16 (counterexample): the uuid `a`, line feed, `b: c` is not empty and has no `\r\n`, so
`SendMsg` accepts it; from the bytes written the reference re-parser reads the target `a` and an
entry `b: c` that the header map does not have. -/
theorem SendMsg_uuid_line_feed_breaks_roundtrip :
    SendMsg ⟨[], none⟩ answerHeaders "a\nb: c".toList [] =
      (⟨"sendmsg a\nb: c\ncall-command: execute\nexecute-app-name: answer\n\n".toList, none⟩,
        none) ∧
    refParseSendMsg
      "sendmsg a\nb: c\ncall-command: execute\nexecute-app-name: answer\n\n".toList =
      some ("a".toList, ("b".toList, "c".toList) :: answerHeaders) ∧
    refParseSendMsg
      "sendmsg a\nb: c\ncall-command: execute\nexecute-app-name: answer\n\n".toList ≠
      some ("a\nb: c".toList, answerHeaders) := by
  decide

/-! ## After the first decode error (C20) -/

theorem step_closed (s s1 : System) (a : Action) (hl : s.loop = .closed)
    (h : step s a = some s1) : s1.loop = .closed ∧ s1.returned = s.returned := by
  obtain ⟨l, c, r⟩ := s
  simp only at hl
  subst hl
  cases a with
  | decode =>
    simp only [step] at h
    cases h
  | call =>
    cases c with
    | idle =>
      simp only [step, Option.some.injEq] at h
      subst h
      exact ⟨rfl, rfl⟩
    | waiting =>
      simp only [step] at h
      cases h
  | receive =>
    cases c <;> simp only [step] at h <;> cases h

theorem run_closed (s s2 : System) (acts : List Action) (hl : s.loop = .closed)
    (h : run s acts = some s2) : s2.loop = .closed ∧ s2.returned = s.returned := by
  induction acts generalizing s with
  | nil =>
    simp only [run, Option.some.injEq] at h
    subst h
    exact ⟨hl, rfl⟩
  | cons a rest ih =>
    cases hs : step s a with
    | none =>
      simp only [run, hs] at h
      cases h
    | some s1 =>
      simp only [run, hs] at h
      obtain ⟨h1, h2⟩ := step_closed s s1 a hl hs
      obtain ⟨h3, h4⟩ := ih s1 h1 h
      exact ⟨h3, h4.trans h2⟩

/-- C20 (amended): when the dispatch loop has hit a decode error and a consumer waits in
`ReadMessage`, that call returns the error and the loop ends.  From then on the loop stays
ended and no call of `ReadMessage` returns any more: whatever steps follow, the list of returned
results does not grow, and once the consumer has called `ReadMessage` again no step is possible,
so that call blocks forever. -/
theorem ReadMessage_after_error (s : System) (e : ParseError)
    (hl : s.loop = .sendingErr e) (hc : s.consumer = .waiting) :
    ∃ s1, step s .receive = some s1 ∧ s1.loop = .closed ∧ s1.consumer = .idle ∧
      s1.returned = s.returned ++ [(none, some e)] ∧
      (∀ acts s2, run s1 acts = some s2 →
        s2.loop = .closed ∧ s2.returned = s1.returned) ∧
      (∃ s2, step s1 .call = some s2 ∧ s2.consumer = .waiting ∧
        ∀ a, step s2 a = none) := by
  obtain ⟨l, c, r⟩ := s
  simp only at hl hc
  subst hl hc
  refine ⟨{ loop := .closed, consumer := .idle, returned := r ++ [(none, some e)] },
    rfl, rfl, rfl, rfl, ?_, ?_⟩
  · intro acts s2 h
    exact run_closed _ s2 acts rfl h
  · refine ⟨{ loop := .closed, consumer := .waiting, returned := r ++ [(none, some e)] },
      rfl, rfl, ?_⟩
    intro a
    cases a <;> rfl

theorem ReadMessage_after_error_witness :
    run (System.start [.error .eof]) [.decode, .call] =
      some { loop := .sendingErr .eof, consumer := .waiting, returned := [] } ∧
    ∃ s1, step { loop := .sendingErr .eof, consumer := .waiting, returned := [] } .receive =
        some s1 ∧ s1.returned = [(none, some .eof)] ∧
      ∀ acts s2, run s1 acts = some s2 → s2.returned = [(none, some .eof)] := by
  obtain ⟨s1, h1, _, _, h4, h5, _⟩ :=
    ReadMessage_after_error { loop := .sendingErr .eof, consumer := .waiting, returned := [] }
      .eof rfl rfl
  refine ⟨by decide, s1, h1, h4, ?_⟩
  intro acts s2 h
  exact ((h5 acts s2 h).2).trans h4

/-- C20 (counterexample): on a stream whose first frame fails to decode, the first call of
`ReadMessage` returns the error; after a second call the system is in a state, reachable after
the first error delivery, in which the consumer waits and no step is possible: the second
receive can never complete. -/
theorem second_ReadMessage_blocks :
    ∃ s, run (System.start [.error .eof]) [.decode, .call, .receive, .call] = some s ∧
      s.returned = [(none, some .eof)] ∧ s.consumer = .waiting ∧
      step s .decode = none ∧ step s .call = none ∧ step s .receive = none :=
  ⟨{ loop := .closed, consumer := .waiting, returned := [(none, some .eof)] },
    by decide, rfl, rfl, rfl, rfl, rfl⟩

/-! ## Single carriage returns and line feeds (C21) -/

/-- C21 (the code at the failing inputs): the error text of `Send` says that a command cannot
contain a carriage return and/or a line feed, but `Send` and `SendMsg` test only for the
sequence `\r\n`.  A command with a lone line feed, or a lone carriage return, is written to the
stream without error; and `SendMsg` accepts a value with a line feed, which the reference
re-parser reads back as one more header line, `event-lock: true`, that the map does not have. -/
theorem Send_accepts_lone_line_feed :
    Contains (invalidCommandText "a\r\nb".toList)
      "Command cannot contain \\r and/or \\n".toList = true ∧
    Send ⟨[], none⟩ "api status\nexit".toList =
      (⟨"api status\nexit\r\n\r\n".toList, none⟩, none) ∧
    Send ⟨[], none⟩ "api status\rexit".toList =
      (⟨"api status\rexit\r\n\r\n".toList, none⟩, none) ∧
    SendMsg ⟨[], none⟩ lineFeedHeaders "abc".toList [] =
      (⟨"sendmsg abc\ncall-command: execute\nexecute-app-name: answer\nevent-lock: true\n\n".toList,
        none⟩, none) ∧
    refParseSendMsg
      "sendmsg abc\ncall-command: execute\nexecute-app-name: answer\nevent-lock: true\n\n".toList =
      some ("abc".toList,
        [("call-command".toList, "execute".toList),
         ("execute-app-name".toList, "answer".toList),
         ("event-lock".toList, "true".toList)]) ∧
    SendMsg ⟨[], none⟩ [("a\nb".toList, "c".toList)] "u\rv".toList [] =
      (⟨"sendmsg u\rv\na\nb: c\n\n".toList, none⟩, none) := by
  decide

end Zyesl
